import Mathlib

/-!
Usage normalisation model of `llm-usage`.

A shallow embedding of the provider usage model
(`internal/provider/provider.go`) and of the Kimi and Claude adapters
(`internal/provider/kimi/provider.go`, `internal/provider/claude/provider.go`),
followed by theorems about the stats accessors, the rate-limit-bucket
normalisation and the label derivation.

Modelling conventions
* Go `float64` is `Float64`: NaN, the two infinities, and the finite values
  carried by their exact rational value.  Comparisons follow IEEE-754 (every
  comparison with NaN is false); arithmetic is the exact rational operation
  followed by round-to-nearest-even to 53 significant bits.  The two zeros are
  identified (Go compares them equal).
* Go `error` is `GoError` (a message with the chain of wrapped errors); a nil
  error is `none`.
* Go pointers that may be nil are `Option`.
* Go strings are `String`; the `strings` functions are modelled on characters
  and agree with Go on ASCII text.
* Calls into the Go standard library that parse text (`strconv.ParseFloat`,
  `time.Parse`) and the HTTP client are parameters of the functions using them.
-/

set_option autoImplicit false

namespace LlmUsage

/-! ## float64 -/

/-- Go `float64` values: NaN, signed infinity, or a finite value. -/
inductive Float64 where
  | nan : Float64
  | inf (neg : Bool) : Float64
  | fin (q : ℚ) : Float64
  deriving DecidableEq

namespace Float64

/-- Go `a > b` on float64. -/
def gt : Float64 → Float64 → Bool
  | fin a, fin b => decide (b < a)
  | inf false, fin _ => true
  | fin _, inf true => true
  | inf false, inf true => true
  | _, _ => false

/-- Go `a >= b` on float64. -/
def ge : Float64 → Float64 → Bool
  | fin a, fin b => decide (b ≤ a)
  | inf false, fin _ => true
  | fin _, inf true => true
  | inf n, inf m => n = m || (n = false && m = true)
  | _, _ => false

/-- Go `a < b` on float64. -/
def lt (a b : Float64) : Bool := gt b a

/-- Go `a <= b` on float64. -/
def le (a b : Float64) : Bool := ge b a

/-- Is the value NaN. -/
def isNaN : Float64 → Bool
  | nan => true
  | _ => false

/-- Nearest integer to `n / d` (for `0 < d`), ties to the even one. -/
def roundHalfEven (n d : ℕ) : ℕ :=
  let m := n / d
  let r := n % d
  if 2 * r < d then m else if d < 2 * r then m + 1 else if m % 2 = 0 then m else m + 1

/-- Floor of the binary logarithm of a positive natural number, by repeated
halving (`fuel` bounds the number of halvings). -/
def log2Nat : ℕ → ℕ → ℕ
  | 0, _ => 0
  | fuel + 1, n => if n < 2 then 0 else log2Nat fuel (n / 2) + 1

/-- Floor of the binary logarithm of `n / d` for positive `n`, `d`. -/
def log2Floor (n d : ℕ) : ℤ :=
  let a := log2Nat n n
  let b := log2Nat d d
  if d * 2 ^ a ≤ n * 2 ^ b then (a : ℤ) - b else (a : ℤ) - b - 1

/-- Exponent of the unit in the last place of the binary64 format around
`n / d`: 52 below the leading bit, and never below the subnormal exponent. -/
def ulpExp (n d : ℕ) : ℤ := max (log2Floor n d - 52) (-1074)

/-- Round the positive rational `n / d` to binary64: the significand (an
integer below `2 ^ 53 + 1`) and the exponent of its last place. -/
def roundSignificand (n d : ℕ) : ℕ × ℤ :=
  let e := ulpExp n d
  let m := if 0 ≤ e then roundHalfEven n (d * 2 ^ e.toNat) else roundHalfEven (n * 2 ^ (-e).toNat) d
  (m, e)

/-- Round a rational to the nearest binary64 value (ties to even); magnitudes
that round to `2 ^ 1024` or more overflow to infinity. -/
def round (q : ℚ) : Float64 :=
  if q = 0 then fin 0 else
    let me := roundSignificand q.num.natAbs q.den
    let m := me.1
    let e := me.2
    let mag : ℚ := if 0 ≤ e then mkRat ((m * 2 ^ e.toNat : ℕ) : ℤ) 1 else mkRat (m : ℤ) (2 ^ (-e).toNat)
    if (2 : ℚ) ^ 1024 ≤ mag then inf (decide (q < 0))
    else if q < 0 then fin (-mag) else fin mag

/-- Go `a / b` on float64. -/
def div : Float64 → Float64 → Float64
  | nan, _ => nan
  | _, nan => nan
  | inf _, inf _ => nan
  | inf s, fin q => inf (xor s (decide (q < 0)))
  | fin _, inf _ => fin 0
  | fin a, fin b =>
    if b = 0 then (if a = 0 then nan else inf (decide (a < 0))) else round (a / b)

/-- Go `a * b` on float64. -/
def mul : Float64 → Float64 → Float64
  | nan, _ => nan
  | _, nan => nan
  | inf s, inf t => inf (xor s t)
  | inf s, fin q => if q = 0 then nan else inf (xor s (decide (q < 0)))
  | fin q, inf s => if q = 0 then nan else inf (xor s (decide (q < 0)))
  | fin a, fin b => round (a * b)

/-- Go `a - b` on float64. -/
def sub : Float64 → Float64 → Float64
  | nan, _ => nan
  | _, nan => nan
  | inf s, inf t => if s = t then nan else inf s
  | inf s, fin _ => inf s
  | fin _, inf t => inf (!t)
  | fin a, fin b => round (a - b)

/-- Go `a + b` on float64. -/
def add : Float64 → Float64 → Float64
  | nan, _ => nan
  | _, nan => nan
  | inf s, inf t => if s = t then inf s else nan
  | inf s, fin _ => inf s
  | fin _, inf t => inf t
  | fin a, fin b => round (a + b)

/-- Go `float64(n)` for an integer `n`: the nearest float64. -/
def ofInt (n : ℤ) : Float64 := round (n : ℚ)

/-- Go `int(f)` for a float64: truncation toward zero.  For NaN, infinities
and values outside the int64 range Go leaves the result to the platform; the
amd64 result (the smallest int64) is used. -/
def toInt : Float64 → ℤ
  | fin q =>
    let t := Int.tdiv q.num (q.den : ℤ)
    if -(2 : ℤ) ^ 63 ≤ t ∧ t < (2 : ℤ) ^ 63 then t else -(2 : ℤ) ^ 63
  | _ => -(2 : ℤ) ^ 63

/-- A float64 constant of the Go source written as a decimal literal. -/
def lit (q : ℚ) : Float64 := round q

end Float64

/-! ## The provider model (`internal/provider/provider.go`) -/

/-- Go `error` values: a message, possibly wrapping an inner error (`%w`). -/
inductive GoError where
  | leaf (msg : String) : GoError
  | wrap (msg : String) (inner : GoError) : GoError
  deriving DecidableEq

/-- Go `time.Time` instants, as nanoseconds since the Unix epoch. -/
abbrev Time := ℤ

/-- Scalar values stored under `map[string]any`. -/
inductive Scalar where
  | str (s : String) : Scalar
  | bool (b : Bool) : Scalar
  | floatPtr (f : Option Float64) : Scalar
  deriving DecidableEq

/-- Values of `Usage.Extra` (`map[string]any`): a scalar or a nested map. -/
inductive AnyValue where
  | scalar (v : Scalar) : AnyValue
  | record (fields : List (String × Scalar)) : AnyValue
  deriving DecidableEq

/-- A usage time window (`UsageWindow`). -/
structure UsageWindow where
  Label : String
  Utilization : Float64
  ResetsAt : Option Time
  Limit : Option Float64
  Used : Option Float64
  Remaining : Option Float64
  deriving DecidableEq

/-- Generic usage statistics from one provider (`Usage`). -/
structure Usage where
  Provider : String
  Windows : List UsageWindow
  Extra : List (String × AnyValue)
  Error : Option GoError
  deriving DecidableEq

/-- Results from multiple providers (`UsageStats`). -/
structure UsageStats where
  Providers : List Usage
  deriving DecidableEq

/-- Inner loop of `MaxUtilization`: scan the windows of one provider. -/
def maxOverWindows (maxUtil : Float64) (ws : List UsageWindow) : Float64 :=
  ws.foldl (fun m w => if Float64.gt w.Utilization m then w.Utilization else m) maxUtil

/-- Outer loop of `MaxUtilization`: providers with a non-nil `Error` are
skipped (`continue`). -/
def maxOverProviders (maxUtil : Float64) (ps : List Usage) : Float64 :=
  ps.foldl (fun m p => if p.Error.isSome then m else maxOverWindows m p.Windows) maxUtil

/-- Method `UsageStats.MaxUtilization`: start at zero (`var maxUtil float64`), skip
providers with an error, and keep every utilization that is greater than the
running maximum. -/
def UsageStats.MaxUtilization (s : UsageStats) : Float64 :=
  maxOverProviders (Float64.fin 0) s.Providers

/-- Method `UsageStats.GetClass`: the CSS class of the maximum utilization. -/
def UsageStats.GetClass (s : UsageStats) : String :=
  let maxUtil := s.MaxUtilization
  if Float64.ge maxUtil (Float64.fin 90) then "critical"
  else if Float64.ge maxUtil (Float64.fin 75) then "warning"
  else "normal"

/-- Loop of `ProviderByID` from index `i` on: the index of the first entry
whose `Provider` equals `id`. -/
def providerIndexFrom (id : String) : List Usage → ℕ → Option ℕ
  | [], _ => none
  | p :: rest, i => if p.Provider = id then some i else providerIndexFrom id rest (i + 1)

/-- Method `UsageStats.ProviderByID`: the pointer `&s.Providers[i]` is the index `i`;
`nil` is `none`. -/
def UsageStats.ProviderByID (s : UsageStats) (id : String) : Option ℕ :=
  providerIndexFrom id s.Providers 0

/-- The utilizations of all windows of all providers whose `Error` is nil, in
order: what the spec calls the windows of the error-free providers. -/
def activeUtilizations (s : UsageStats) : List Float64 :=
  (s.Providers.filter (fun p => p.Error.isNone)).flatMap (fun p => p.Windows.map (·.Utilization))

/-- The value `r` is the maximum of the list `us`: a member that is `>=` every member. -/
def IsMaxOf (r : Float64) (us : List Float64) : Prop :=
  r ∈ us ∧ ∀ u ∈ us, Float64.ge r u = true

/-- A window that carries only a utilization. -/
def windowOf (u : Float64) : UsageWindow :=
  { Label := "5-Hour", Utilization := u, ResetsAt := none, Limit := none, Used := none,
    Remaining := none }

/-- An error-free provider entry with the given windows. -/
def okUsage (id : String) (ws : List UsageWindow) : Usage :=
  { Provider := id, Windows := ws, Extra := [], Error := none }

/-- An entry that carries an error (and possibly stale windows). -/
def failedUsage (id : String) (ws : List UsageWindow) (e : GoError) : Usage :=
  { Provider := id, Windows := ws, Extra := [], Error := some e }

/-! ## Go `strings` functions used by the adapters

Strings are handled as character lists; on ASCII text (one byte per character)
these agree with the byte-oriented Go functions. -/

namespace Strings

/-- Go `strings.ToUpper` on ASCII text: `a`..`z` become `A`..`Z`. -/
def ToUpper (s : List Char) : List Char := s.map Char.toUpper

/-- Go `strings.ToLower` on ASCII text: `A`..`Z` become `a`..`z`. -/
def ToLower (s : List Char) : List Char := s.map Char.toLower

/-- The loop of `strings.Split` for a one-byte separator: find the first
separator (`Index`), emit the text before it (`s[:m]`), continue after it
(`s[m+1:]`); when there is none, emit what is left. -/
def splitLoop (sep : Char) : ℕ → List Char → List (List Char)
  | 0, s => [s]
  | fuel + 1, s =>
    match s.dropWhile (fun c => c != sep) with
    | [] => [s]
    | _ :: rest => s.takeWhile (fun c => c != sep) :: splitLoop sep fuel rest

/-- Go `strings.Split(s, sep)` for a one-byte separator. -/
def Split (s : List Char) (sep : Char) : List (List Char) := splitLoop sep s.length s

/-- Go `strings.Join(elems, sep)`. -/
def Join : List (List Char) → List Char → List Char
  | [], _ => []
  | [a], _ => a
  | a :: b :: rest, sep => a ++ sep ++ Join (b :: rest) sep

/-- Go `strings.TrimPrefix(s, p)`: `s` without the leading `p`, when it has it. -/
def TrimPrefix (s p : List Char) : List Char :=
  if p.isPrefixOf s then s.drop p.length else s

/-- Go `strings.TrimSuffix(s, suffix)`: `s` without the trailing `suffix`, when it
has it. -/
def TrimSuffix (s suffix : List Char) : List Char :=
  if suffix.isSuffixOf s then s.take (s.length - suffix.length) else s

end Strings

/-- Every character of the string is ASCII (one byte in Go). -/
def IsASCII (s : String) : Prop := ∀ c ∈ s.data, c.toNat < 128

instance (s : String) : Decidable (IsASCII s) := by
  unfold IsASCII; infer_instance

/-! ## The Kimi adapter (`internal/provider/kimi/provider.go`) -/

namespace Kimi

/-- Modelled from the spec: the usage detail of the Kimi payload (declared with
the Kimi client, whose file is not among the sources): limit, used and reset
time as strings, the fields `provider.go` reads. -/
structure UsageDetail where
  Limit : String
  Used : String
  ResetTime : String
  deriving DecidableEq

/-- Modelled from the spec: the `(duration, time_unit)` descriptor of a nested
rate-limit entry. -/
structure Window where
  Duration : ℤ
  TimeUnit : String
  deriving DecidableEq

/-- Modelled from the spec: a nested rate-limit entry with its own detail. -/
structure LimitItem where
  Window : Window
  Detail : UsageDetail
  deriving DecidableEq

/-- Modelled from the spec: one usage item, a scope detail and zero or more
nested rate-limit entries. -/
structure UsageItem where
  Scope : String
  Detail : UsageDetail
  Limits : List LimitItem
  deriving DecidableEq

/-- Modelled from the spec: the decoded payload, a sequence of usage items. -/
structure UsageResponse where
  Usages : List UsageItem
  deriving DecidableEq

/-- Method `Provider.formatScopeLabel`: split on `_`, rewrite every non-empty part as
`ToUpper(part[:1]) + ToLower(part[1:])`, join with spaces. -/
def formatScopeLabel (scope : String) : String :=
  let parts := Strings.Split scope.data '_'
  let parts := parts.map (fun part =>
    if part.length > 0 then Strings.ToUpper (part.take 1) ++ Strings.ToLower (part.drop 1)
    else part)
  String.mk (Strings.Join parts [' '])

/-- Method `Provider.formatDurationLabel`: `"%d-%s Rate Limit"` of the duration and
the unit, the unit being the time unit without `TIME_UNIT_`, lower-cased,
without a trailing `s`, first letter upper-cased. -/
def formatDurationLabel (duration : ℤ) (timeUnit : String) : String :=
  let unit := Strings.ToLower (Strings.TrimPrefix timeUnit.data "TIME_UNIT_".data)
  let unit := Strings.TrimSuffix unit ['s']
  let unit := if unit.length > 0 then Strings.ToUpper (unit.take 1) ++ unit.drop 1 else unit
  toString duration ++ "-" ++ String.mk unit ++ " Rate Limit"

/-- Method `Provider.parseScopeWindow`: parse limit and used (`strconv.ParseFloat`, a
nil window on either error), compute the utilization `(used / limit) * 100`,
the reset time (`time.Parse` with `RFC3339Nano`, left nil when the text is
empty or does not parse) and `remaining = limit - used`; the label is the
formatted scope. -/
def parseScopeWindow (parseFloat : String → Option Float64) (parseTime : String → Option Time)
    (item : UsageItem) : Option UsageWindow :=
  match parseFloat item.Detail.Limit with
  | none => none
  | some limit =>
    match parseFloat item.Detail.Used with
    | none => none
    | some used =>
      let utilization := Float64.mul (Float64.div used limit) (Float64.fin 100)
      let resetsAt := if item.Detail.ResetTime ≠ "" then parseTime item.Detail.ResetTime else none
      let remaining := Float64.sub limit used
      some { Label := formatScopeLabel item.Scope, Utilization := utilization,
             ResetsAt := resetsAt, Limit := some limit, Used := some used,
             Remaining := some remaining }

/-- Method `Provider.parseLimitWindow`: the same steps on the detail of one rate-limit
entry; the label is the formatted duration and the scope argument is ignored. -/
def parseLimitWindow (parseFloat : String → Option Float64) (parseTime : String → Option Time)
    (_scope : String) (limit : LimitItem) : Option UsageWindow :=
  match parseFloat limit.Detail.Limit with
  | none => none
  | some limitVal =>
    match parseFloat limit.Detail.Used with
    | none => none
    | some usedVal =>
      let utilization := Float64.mul (Float64.div usedVal limitVal) (Float64.fin 100)
      let resetsAt :=
        if limit.Detail.ResetTime ≠ "" then parseTime limit.Detail.ResetTime else none
      let remaining := Float64.sub limitVal usedVal
      let label := formatDurationLabel limit.Window.Duration limit.Window.TimeUnit
      some { Label := label, Utilization := utilization, ResetsAt := resetsAt,
             Limit := some limitVal, Used := some usedVal, Remaining := some remaining }

/-- The statement `windows = append(windows, *w)`, run when `w` is not nil. -/
def appendIfPresent (windows : List UsageWindow) (w : Option UsageWindow) : List UsageWindow :=
  match w with
  | none => windows
  | some x => windows ++ [x]

/-- Body of the loop of `GetUsage` over the items: the scope window first, then
the loop over the nested limits. -/
def addItem (parseFloat : String → Option Float64) (parseTime : String → Option Time)
    (windows : List UsageWindow) (item : UsageItem) : List UsageWindow :=
  item.Limits.foldl
    (fun ws limit => appendIfPresent ws (parseLimitWindow parseFloat parseTime item.Scope limit))
    (appendIfPresent windows (parseScopeWindow parseFloat parseTime item))

/-- Method `Provider.GetUsage`: the client's error is returned as is; otherwise the
windows are collected item by item and returned under provider `"kimi"`. -/
def GetUsage (parseFloat : String → Option Float64) (parseTime : String → Option Time)
    (fetched : Except GoError UsageResponse) : Except GoError Usage :=
  match fetched with
  | .error err => .error err
  | .ok resp =>
    .ok { Provider := "kimi",
          Windows := resp.Usages.foldl (addItem parseFloat parseTime) [],
          Extra := [], Error := none }

/-- A stand-in for `strconv.ParseFloat` on plain decimal digit strings (the
value of the digits, rounded to float64); every other text is rejected. -/
def parseDigits (s : String) : Option Float64 :=
  if s.data ≠ [] ∧ s.data.all Char.isDigit = true then
    some (Float64.round ((s.data.foldl (fun n c => 10 * n + (c.toNat - 48)) 0 : ℕ) : ℚ))
  else none

/-- A stand-in for `time.Parse` that rejects every text. -/
def parseNoTime (_ : String) : Option Time := none

/-- The windows one item contributes: its scope window (when parseable), then
the windows of its nested rate-limit entries in order (each when parseable). -/
def itemWindows (parseFloat : String → Option Float64) (parseTime : String → Option Time)
    (item : UsageItem) : List UsageWindow :=
  (parseScopeWindow parseFloat parseTime item).toList ++
    item.Limits.filterMap (parseLimitWindow parseFloat parseTime item.Scope)

/-- A detail with the given limit and used texts and no reset time. -/
def detailOf (limit used : String) : UsageDetail :=
  { Limit := limit, Used := used, ResetTime := "" }

/-- A rate-limit entry over five minutes. -/
def fiveMinuteLimit (limit used : String) : LimitItem :=
  { Window := { Duration := 5, TimeUnit := "TIME_UNIT_MINUTES" }, Detail := detailOf limit used }

/-- A usage item of scope `FEATURE_CODING`. -/
def codingItem (limit used : String) (limits : List LimitItem) : UsageItem :=
  { Scope := "FEATURE_CODING", Detail := detailOf limit used, Limits := limits }

end Kimi

/-- A segment with its first character upper-cased and the rest lower-cased;
an empty segment stays empty. -/
def titleWord : List Char → List Char
  | [] => []
  | c :: rest => c.toUpper :: rest.map Char.toLower

/-- A word with its first character upper-cased. -/
def capitalize : List Char → List Char
  | [] => []
  | c :: rest => c.toUpper :: rest

/-! ## The Claude adapter (`internal/provider/claude/provider.go`) -/

namespace Claude

/-- Modelled from the spec: one named window of the Claude payload (declared
with the client's types, not among the sources): the utilization and the
optional reset time that `provider.go` reads. -/
structure UsageWindow where
  Utilization : Float64
  ResetsAt : Option Time
  deriving DecidableEq

/-- Modelled from the spec: the extra-usage record of the payload, with its
"enabled" flag and optional amounts. -/
structure ExtraUsage where
  IsEnabled : Bool
  MonthlyLimit : Option Float64
  UsedCredits : Option Float64
  Utilization : Option Float64
  deriving DecidableEq

/-- Modelled from the spec: the decoded Claude payload, six optional named
windows and the optional extra-usage record. -/
structure UsageResponse where
  FiveHour : Option UsageWindow
  SevenDay : Option UsageWindow
  SevenDaySonnet : Option UsageWindow
  SevenDayOpus : Option UsageWindow
  SevenDayOAuthApp : Option UsageWindow
  IguanaNecktie : Option UsageWindow
  ExtraUsage : Option ExtraUsage
  deriving DecidableEq

/-- One `if usage.X != nil { windows = append(windows, ...) }` block of
`GetUsage`. -/
def appendNamed (windows : List LlmUsage.UsageWindow) (label : String)
    (w : Option UsageWindow) : List LlmUsage.UsageWindow :=
  match w with
  | none => windows
  | some x =>
    windows ++ [{ Label := label, Utilization := x.Utilization, ResetsAt := x.ResetsAt,
                  Limit := none, Used := none, Remaining := none }]

/-- The `extra` map built by `GetUsage`. -/
def extraOf (e : Option ExtraUsage) : List (String × AnyValue) :=
  match e with
  | none => []
  | some x =>
    if x.IsEnabled then
      [("extra_usage", AnyValue.record
        [("is_enabled", Scalar.bool x.IsEnabled),
         ("monthly_limit", Scalar.floatPtr x.MonthlyLimit),
         ("used_credits", Scalar.floatPtr x.UsedCredits),
         ("utilization", Scalar.floatPtr x.Utilization)])]
    else []

/-- Method `Provider.GetUsage`: the client's error is returned as is; otherwise the
six named windows are appended in the order of the source, each when present. -/
def GetUsage (fetched : Except GoError UsageResponse) : Except GoError Usage :=
  match fetched with
  | .error err => .error err
  | .ok usage =>
    let windows : List LlmUsage.UsageWindow := []
    let windows := appendNamed windows "5-Hour" usage.FiveHour
    let windows := appendNamed windows "7-Day" usage.SevenDay
    let windows := appendNamed windows "7-Day Sonnet" usage.SevenDaySonnet
    let windows := appendNamed windows "7-Day Opus" usage.SevenDayOpus
    let windows := appendNamed windows "7-Day OAuth Apps" usage.SevenDayOAuthApp
    let windows := appendNamed windows "Iguana Necktie" usage.IguanaNecktie
    .ok { Provider := "claude", Windows := windows, Extra := extraOf usage.ExtraUsage,
          Error := none }

/-- The six named windows of a payload with their labels, in the fixed order
of the claim. -/
def namedWindows (usage : UsageResponse) : List (String × Option UsageWindow) :=
  [("5-Hour", usage.FiveHour), ("7-Day", usage.SevenDay),
   ("7-Day Sonnet", usage.SevenDaySonnet), ("7-Day Opus", usage.SevenDayOpus),
   ("7-Day OAuth Apps", usage.SevenDayOAuthApp), ("Iguana Necktie", usage.IguanaNecktie)]

/-- The provider window made from a named payload window: the label, and the
payload's utilization and reset time unchanged. -/
def toProviderWindow (label : String) (w : UsageWindow) : LlmUsage.UsageWindow :=
  { Label := label, Utilization := w.Utilization, ResetsAt := w.ResetsAt,
    Limit := none, Used := none, Remaining := none }

end Claude

/-! ## Errors and entries for failed providers (`internal/provider/provider.go`) -/

/-- Method `Error()` of a Go error: its message. -/
def GoError.Error : GoError → String
  | .leaf msg => msg
  | .wrap msg _ => msg

/-- Go `errors.Unwrap`: the wrapped error, if any. -/
def GoError.Unwrap : GoError → Option GoError
  | .leaf _ => none
  | .wrap _ inner => some inner

/-- Go `fmt.Errorf("%s: %w", name, err)` for a non-nil `err`: the message is the
name, a colon and the message of `err`, and the result wraps `err`. -/
def errorfWrap (name : String) (err : GoError) : GoError :=
  .wrap (name ++ ": " ++ err.Error) err

/-- Function `NewUsageError`: an entry with only the provider id and the
wrapped error (`Windows` and `Extra` stay nil). -/
def NewUsageError (providerID providerName : String) (err : GoError) : Usage :=
  { Provider := providerID, Windows := [], Extra := [],
    Error := some (errorfWrap providerName err) }

/-- Function `NewUsageNotConfigured`: an entry whose error is
`fmt.Errorf("%s: not configured", providerName)`. -/
def NewUsageNotConfigured (providerID providerName : String) : Usage :=
  { Provider := providerID, Windows := [], Extra := [],
    Error := some (.leaf (providerName ++ ": not configured")) }

/-! ## Time (`time.Duration`, `time.Until`) -/

/-- Go `time.Duration`: a signed 64-bit count of nanoseconds. -/
abbrev Duration := ℤ

/-- The largest `time.Duration`. -/
def maxDuration : Duration := (2 : ℤ) ^ 63 - 1

/-- The smallest `time.Duration`. -/
def minDuration : Duration := -(2 : ℤ) ^ 63

/-- One minute, in nanoseconds. -/
def Minute : Duration := 60 * 1000000000

/-- One hour, in nanoseconds. -/
def Hour : Duration := 60 * Minute

/-- An integer limited to the range of a `Duration`: values above the largest
duration become the largest one, values below the smallest the smallest one. -/
def saturate (x : ℤ) : ℤ :=
  if 9223372036854775807 < x then 9223372036854775807
  else if x < -9223372036854775808 then -9223372036854775808
  else x

/-- Go `t.Sub(u)`: the difference `t - u`, and the largest or smallest duration
when the difference does not fit in a `Duration`. -/
def Time.Sub (t u : Time) : Duration := saturate (t - u)

/-- Go `time.Until(t)` read at the current time `now`: `t.Sub(now)`. -/
def Time.Until (now t : Time) : Duration := Time.Sub t now

/-- Go `t.After(u)`. -/
def Time.After (t u : Time) : Bool := decide (u < t)

/-- Go `time.UnixMilli(msec)`: the instant `msec` milliseconds after the epoch. -/
def Time.UnixMilli (msec : ℤ) : Time := msec * 1000000

/-- Method `UsageWindow.TimeUntilReset` read at the current time `now`; the
receiver is a pointer that may be nil. -/
def UsageWindow.TimeUntilReset (now : Time) (w : Option UsageWindow) : Option Duration :=
  match w with
  | none => none
  | some x =>
    match x.ResetsAt with
    | none => none
    | some t => some (Time.Until now t)

/-- Go `d.Hours()`: `float64(d / Hour) + float64(d % Hour) / (60*60*1e9)`. -/
def Duration.Hours (d : Duration) : Float64 :=
  Float64.add (Float64.ofInt (Int.tdiv d Hour))
    (Float64.div (Float64.ofInt (Int.tmod d Hour)) (Float64.fin 3600000000000))

/-- Go `d.Minutes()`: `float64(d / Minute) + float64(d % Minute) / (60*1e9)`. -/
def Duration.Minutes (d : Duration) : Float64 :=
  Float64.add (Float64.ofInt (Int.tdiv d Minute))
    (Float64.div (Float64.ofInt (Int.tmod d Minute)) (Float64.fin 60000000000))

/-! ## Output helpers (`internal/usage/output.go`) -/

/-- Function `FormatDuration`: "expired" for a negative duration, otherwise the
non-zero parts among days, hours and minutes (the minutes also when nothing
else was written), joined by spaces. -/
def FormatDuration (d : Duration) : String :=
  if d < 0 then "expired"
  else
    let days := Int.tdiv (Float64.toInt (Duration.Hours d)) 24
    let hours := Int.tmod (Float64.toInt (Duration.Hours d)) 24
    let minutes := Int.tmod (Float64.toInt (Duration.Minutes d)) 60
    let parts : List String := []
    let parts := if days > 0 then parts ++ [toString days ++ "d"] else parts
    let parts := if hours > 0 then parts ++ [toString hours ++ "h"] else parts
    let parts :=
      if minutes > 0 ∨ parts.length = 0 then parts ++ [toString minutes ++ "m"] else parts
    String.intercalate " " parts

/-- Function `ProviderName`: the display name of a provider id. -/
def ProviderName (id : String) : String :=
  if id = "claude" then "Claude (Pro/Max Subscription)"
  else if id = "kimi" then "Kimi"
  else if id = "zai" then "Z.AI"
  else String.mk (Strings.ToUpper id.data)

/-- Function `providerShortName`: one letter for a provider id.  The default
case indexes the upper-cased id at position 0, which is a run-time panic
(`none`) when the id is empty. -/
def providerShortName (id : String) : Option String :=
  if id = "claude" then some "C"
  else if id = "kimi" then some "K"
  else if id = "zai" then some "Z"
  else
    match Strings.ToUpper id.data with
    | [] => none
    | c :: _ => some (String.mk [c])

/-- The JSON object written by the waybar renderer (`WaybarOutput`). -/
structure WaybarOutput where
  Text : String
  Tooltip : String
  Class : String
  Percentage : ℤ
  deriving DecidableEq

/-- The `fmt.Sprintf` verbs the renderer applies to values: `%.0f` and `%.1f`
of a float64 and `%s` of an interface value.  They belong to the Go library
and are parameters of the renderer. -/
structure Verbs where
  f0 : Float64 → String
  f1 : Float64 → String
  s : AnyValue → String

/-- First loop of `OutputWaybar`: the parts of the compact text.  Providers
with an error are skipped; for the others the short name is computed first (a
panic there ends the run: `none`), and a part is added for the first window
when there is one. -/
def waybarTextParts (v : Verbs) : List String → List Usage → Option (List String)
  | textParts, [] => some textParts
  | textParts, p :: rest =>
    if p.Error.isSome then waybarTextParts v textParts rest
    else
      match providerShortName p.Provider with
      | none => none
      | some providerLabel =>
        if p.Windows.length > 0 then
          match p.Windows[0]? with
          | none => none
          | some w =>
            waybarTextParts v
              (textParts ++ [providerLabel ++ ":" ++ v.f0 w.Utilization ++ "%"]) rest
        else waybarTextParts v textParts rest

/-- The account suffix of the tooltip lines: `" (<account>)"` when `Extra` has
an `"account"` entry different from the empty string. -/
def accountSuffix (v : Verbs) (p : Usage) : String :=
  match p.Extra.lookup "account" with
  | none => ""
  | some acc => if acc ≠ AnyValue.scalar (Scalar.str "") then " (" ++ v.s acc ++ ")" else ""

/-- One tooltip line of a window. -/
def tooltipLine (v : Verbs) (now : Time) (p : Usage) (w : UsageWindow) : String :=
  let line :=
    ProviderName p.Provider ++ accountSuffix v p ++ " " ++ w.Label ++ ": " ++
      v.f1 w.Utilization ++ "%"
  match UsageWindow.TimeUntilReset now (some w) with
  | none => line
  | some d => line ++ " (resets in " ++ FormatDuration d ++ ")"

/-- Second loop of `OutputWaybar`: the tooltip lines. -/
def waybarTooltipLines (v : Verbs) (now : Time) (tooltipLines : List String)
    (ps : List Usage) : List String :=
  ps.foldl
    (fun lines p =>
      if p.Error.isSome then lines ++ [ProviderName p.Provider ++ ": Error"]
      else p.Windows.foldl (fun ls w => ls ++ [tooltipLine v now p w]) lines)
    tooltipLines

/-- Function `OutputWaybar` up to the value handed to the JSON encoder; `none`
is a run-time panic. -/
def OutputWaybar (v : Verbs) (now : Time) (stats : UsageStats) : Option WaybarOutput :=
  match waybarTextParts v [] stats.Providers with
  | none => none
  | some textParts =>
    some { Text := String.intercalate " " textParts,
           Tooltip := String.intercalate "\n"
             (waybarTooltipLines v now ["LLM Usage", ""] stats.Providers),
           Class := stats.GetClass,
           Percentage := Float64.toInt stats.MaxUtilization }

/-- Stand-ins for the `fmt` verbs, used to run the renderer on examples. -/
def plainVerbs : Verbs :=
  { f0 := fun f => toString (Float64.toInt f),
    f1 := fun f => toString (Float64.toInt f) ++ ".0",
    s := fun _ => "" }

/-! ## The Z.AI adapter (`internal/provider/zai/provider.go`) -/

namespace Zai

/-- The Z.AI provider: it only stores the API key. -/
structure Provider where
  apiKey : String
  deriving DecidableEq

/-- Function `NewProvider`. -/
def NewProvider (apiKey : String) : Provider := { apiKey := apiKey }

/-- Method `Provider.Name`. -/
def Provider.Name (_p : Provider) : String := "Z.AI"

/-- Method `Provider.ID`. -/
def Provider.ID (_p : Provider) : String := "zai"

/-- Method `Provider.GetUsage`: always `(nil, error)`. -/
def Provider.GetUsage (_p : Provider) : Except GoError Usage :=
  .error (.leaf
    "Z.AI provider not yet implemented - API endpoint needs research, implementation pending")

end Zai

/-! ## Token expiry (`internal/provider/claude/provider.go`) -/

namespace Claude

/-- Function `IsExpired`: is the current time after the expiry, given in Unix
milliseconds. -/
def IsExpired (now : Time) (expiresAt : ℤ) : Bool :=
  Time.After now (Time.UnixMilli expiresAt)

/-- Function `ExpiresIn`: the duration until the expiry. -/
def ExpiresIn (now : Time) (expiresAt : ℤ) : Duration :=
  Time.Until now (Time.UnixMilli expiresAt)

end Claude

/-! ## Credentials (`internal/credentials/loader.go`) -/

namespace Loader

/-- The OAuth token information (`OAuthCredentials`). -/
structure OAuthCredentials where
  AccessToken : String
  RefreshToken : String
  ExpiresAt : ℤ
  Scopes : List String
  RateLimitTier : String
  deriving DecidableEq

/-- The credentials file (`Credentials`): an optional `claudeAiOauth` entry. -/
structure Credentials where
  ClaudeAiOauth : Option OAuthCredentials
  deriving DecidableEq

/-- Method `OAuthCredentials.IsExpired` read at the current time `now`. -/
def OAuthCredentials.IsExpired (now : Time) (o : OAuthCredentials) : Bool :=
  Time.After now (Time.UnixMilli o.ExpiresAt)

/-- Method `OAuthCredentials.ExpiresIn` read at the current time `now`. -/
def OAuthCredentials.ExpiresIn (now : Time) (o : OAuthCredentials) : Duration :=
  Time.Until now (Time.UnixMilli o.ExpiresAt)

/-- Function `parseCredentials`.  The decoder `json.Unmarshal` into a
`Credentials` value belongs to the Go library and is a parameter; `Data` is
whatever stands for the bytes read. -/
def parseCredentials {Data : Type} (unmarshal : Data → Except GoError Credentials)
    (data : Data) : Except GoError Credentials :=
  match unmarshal data with
  | .error err => .error (errorfWrap "failed to parse credentials" err)
  | .ok creds =>
    match creds.ClaudeAiOauth with
    | none =>
      .error (.leaf "no OAuth credentials found - please run \x27claude\x27 to authenticate")
    | some oauth =>
      if oauth.AccessToken = "" then .error (.leaf "no access token found in credentials")
      else .ok creds

/-- Function `LoadFromPath`.  `filepath.Clean`, `os.ReadFile` and
`os.IsNotExist` belong to the Go library and are parameters. -/
def LoadFromPath {Data : Type} (clean : String → String)
    (readFile : String → Except GoError Data) (isNotExist : GoError → Bool)
    (unmarshal : Data → Except GoError Credentials) (path : String) :
    Except GoError Credentials :=
  match readFile (clean path) with
  | .error err =>
    if isNotExist err then
      .error (.leaf ("credentials file not found at " ++ path ++
        " - please run \x27claude\x27 first to authenticate"))
    else .error (errorfWrap "failed to read credentials file" err)
  | .ok data => parseCredentials unmarshal data

/-! ### A model of `json.Unmarshal` into `Credentials`

The Go library first checks that the bytes are syntactically valid JSON and
then decodes the value into the structure.  A document is given here by its
syntax tree (`none` when the bytes are not valid JSON); the decoding follows
the documented rules of `encoding/json`: object members are handled in order,
a member whose key matches a field (exactly, or ignoring letter case; ASCII
case here) is decoded into it, other members are skipped, `null` leaves a
field as it is (and makes a pointer nil), and a value of the wrong JSON type is
an error. -/

/-- JSON values; number literals are split into those written as integers and
those written with a fraction or an exponent. -/
inductive Json where
  | null : Json
  | bool (b : Bool) : Json
  | int (n : ℤ) : Json
  | frac (q : ℚ) : Json
  | str (s : String) : Json
  | arr (items : List Json) : Json
  | obj (members : List (String × Json)) : Json

/-- The error of a JSON value that does not fit the Go type. -/
def typeError (goType : String) : GoError :=
  .leaf ("json: cannot unmarshal into Go value of type " ++ goType)

/-- Does the member key `key` select the field tagged `field`. -/
def keyIs (field key : String) : Bool :=
  key = field || key.data.map Char.toLower = field.data.map Char.toLower

/-- Decode a JSON value into a `string` field holding `cur`. -/
def decodeString (cur : String) : Json → Except GoError String
  | .null => .ok cur
  | .str s => .ok s
  | _ => .error (typeError "string")

/-- Decode a JSON value into an `int64` field holding `cur`. -/
def decodeInt64 (cur : ℤ) : Json → Except GoError ℤ
  | .null => .ok cur
  | .int n =>
    if -(2 : ℤ) ^ 63 ≤ n ∧ n < (2 : ℤ) ^ 63 then .ok n else .error (typeError "int64")
  | _ => .error (typeError "int64")

/-- Decode a JSON value into a `[]string` field holding `cur`. -/
def decodeStrings (cur : List String) : Json → Except GoError (List String)
  | .null => .ok cur
  | .arr items => items.mapM (decodeString "")
  | _ => .error (typeError "[]string")

/-- Decode one member of the `claudeAiOauth` object into the structure. -/
def decodeOAuthMember (o : OAuthCredentials) (kv : String × Json) :
    Except GoError OAuthCredentials :=
  if keyIs "accessToken" kv.1 then
    (decodeString o.AccessToken kv.2).map (fun x => { o with AccessToken := x })
  else if keyIs "refreshToken" kv.1 then
    (decodeString o.RefreshToken kv.2).map (fun x => { o with RefreshToken := x })
  else if keyIs "expiresAt" kv.1 then
    (decodeInt64 o.ExpiresAt kv.2).map (fun x => { o with ExpiresAt := x })
  else if keyIs "scopes" kv.1 then
    (decodeStrings o.Scopes kv.2).map (fun x => { o with Scopes := x })
  else if keyIs "rateLimitTier" kv.1 then
    (decodeString o.RateLimitTier kv.2).map (fun x => { o with RateLimitTier := x })
  else .ok o

/-- The zero value of `OAuthCredentials`. -/
def zeroOAuth : OAuthCredentials :=
  { AccessToken := "", RefreshToken := "", ExpiresAt := 0, Scopes := [], RateLimitTier := "" }

/-- Decode a JSON value into the `*OAuthCredentials` field holding `cur`. -/
def decodeOAuth (cur : Option OAuthCredentials) : Json → Except GoError (Option OAuthCredentials)
  | .null => .ok none
  | .obj members => (members.foldlM decodeOAuthMember (cur.getD zeroOAuth)).map some
  | _ => .error (typeError "credentials.OAuthCredentials")

/-- Decode a JSON value into a fresh `Credentials`. -/
def decodeCredentials : Json → Except GoError Credentials
  | .null => .ok { ClaudeAiOauth := none }
  | .obj members =>
    members.foldlM
      (fun c kv =>
        if keyIs "claudeAiOauth" kv.1 then
          (decodeOAuth c.ClaudeAiOauth kv.2).map (fun x => { ClaudeAiOauth := x })
        else .ok c)
      { ClaudeAiOauth := none }
  | _ => .error (typeError "credentials.Credentials")

/-- The model of `json.Unmarshal(data, &creds)` on a document given by its
syntax tree. -/
def jsonUnmarshal (data : Option Json) : Except GoError Credentials :=
  match data with
  | none => .error (.leaf "invalid character looking for beginning of value")
  | some j => decodeCredentials j

/-- The three conditions of the claim on a document: it is valid JSON, it
contains a `claudeAiOauth` object, and that object has a non-empty
`accessToken`. -/
def MeetsClaimedConditions (data : Option Json) : Prop :=
  ∃ members oauth token,
    data = some (.obj members) ∧
    members.lookup "claudeAiOauth" = some (.obj oauth) ∧
    oauth.lookup "accessToken" = some (.str token) ∧ token ≠ ""

/-- The valid credentials file of the tests. -/
def validDocument : Option Json :=
  some (.obj [("claudeAiOauth", .obj
    [("accessToken", .str "test-token"), ("refreshToken", .str "test-refresh"),
     ("expiresAt", .int 1735689600000), ("scopes", .arr [.str "read", .str "write"])])])

/-- A document whose expiry is written as a string. -/
def stringExpiryDocument : Option Json :=
  some (.obj [("claudeAiOauth", .obj
    [("accessToken", .str "test-token"), ("expiresAt", .str "never")])])

/-- The document of the tests with an empty access token. -/
def emptyTokenDocument : Option Json :=
  some (.obj [("claudeAiOauth", .obj
    [("accessToken", .str ""), ("refreshToken", .str "test-refresh"),
     ("expiresAt", .int 1735689600000)])])

/-- The credentials decoded from the valid file of the tests. -/
def validCredentials : Credentials :=
  { ClaudeAiOauth := some
      { AccessToken := "test-token", RefreshToken := "test-refresh",
        ExpiresAt := 1735689600000, Scopes := ["read", "write"], RateLimitTier := "" } }

end Loader

/-- A stand-in for `time.Parse` with the RFC 3339 layout that knows one
timestamp, one second after the epoch. -/
def Kimi.parseOneTime (s : String) : Option Time :=
  if s = "1970-01-01T00:00:01Z" then some 1000000000 else none

/-- The error text of an entry, when it carries an error. -/
def errorText (u : Usage) : Option String := u.Error.map GoError.Error

/-- A usage item of scope `FEATURE_CODING` with limit "100", used "42" and the
given reset-time text. -/
def Kimi.timedItem (reset : String) : Kimi.UsageItem :=
  { Scope := "FEATURE_CODING", Detail := { Limit := "100", Used := "42", ResetTime := reset },
    Limits := [] }

/-- A window that resets at the given instant. -/
def resettingWindow (t : Time) : UsageWindow :=
  { Label := "5-Hour", Utilization := Float64.fin 10, ResetsAt := some t, Limit := none,
    Used := none, Remaining := none }

/-! ## Progress bar (`internal/usage/output.go`) -/

/-- Go `strings.Repeat(s, count)`: `count` copies of `s`; a negative count is a
run-time panic (`none`). -/
def Strings.Repeat (s : String) (count : ℤ) : Option String :=
  if count < 0 then none else some (String.join (List.replicate count.toNat s))

/-- Constant `barWidth`. -/
def barWidth : ℤ := 20

/-- Constant `barFull`. -/
def barFull : String := "█"

/-- Constant `barEmpty`. -/
def barEmpty : String := "░"

/-- Function `RenderProgressBar`: `filled := int(percentage / 100 * 20)`,
clamped with `max(0, min(filled, barWidth))`, then `filled` full cells and
`barWidth - filled` empty cells. -/
def RenderProgressBar (percentage : Float64) : Option String :=
  let filled :=
    Float64.toInt (Float64.mul (Float64.div percentage (Float64.fin 100)) (Float64.ofInt barWidth))
  let filled := max 0 (min filled barWidth)
  match Strings.Repeat barFull filled, Strings.Repeat barEmpty (barWidth - filled) with
  | some a, some b => some (a ++ b)
  | _, _ => none

/-- The bar with `k` full cells followed by `20 - k` empty cells. -/
def barOf (k : ℕ) : String :=
  String.join (List.replicate k barFull) ++ String.join (List.replicate (20 - k) barEmpty)

/-- The number of full cells the claim describes for a finite scaled value
`x = p / 100 * 20`: `x` truncated toward zero and clamped to `0..20`. -/
def cellsOf (x : ℚ) : ℕ := (max 0 (min (Int.tdiv x.num (x.den : ℤ)) 20)).toNat

/-! ## The legacy command (`cmd/claude-usage/main.go`) -/

namespace Legacy

/-- Modelled from the spec: `TimeUntilReset` of the payload window of the
legacy API package (not among the sources): `resets_at - now` when the reset
time is present, else absent. -/
def TimeUntilReset (now : Time) (w : Claude.UsageWindow) : Option Duration :=
  match w.ResetsAt with
  | none => none
  | some t => some (Time.Until now t)

/-- Function `renderProgressBar` of the legacy command: the same conversion,
clamped with two `if` statements. -/
def renderProgressBar (percentage : Float64) : Option String :=
  let filled :=
    Float64.toInt (Float64.mul (Float64.div percentage (Float64.fin 100)) (Float64.ofInt 20))
  let filled := if filled > 20 then 20 else filled
  let filled := if filled < 0 then 0 else filled
  match Strings.Repeat "█" filled, Strings.Repeat "░" (20 - filled) with
  | some a, some b => some (a ++ b)
  | _, _ => none

/-- Function `formatDuration` of the legacy command. -/
def formatDuration (d : Duration) : String :=
  if d < 0 then "expired"
  else
    let days := Int.tdiv (Float64.toInt (Duration.Hours d)) 24
    let hours := Int.tmod (Float64.toInt (Duration.Hours d)) 24
    let minutes := Int.tmod (Float64.toInt (Duration.Minutes d)) 60
    let parts : List String := []
    let parts := if days > 0 then parts ++ [toString days ++ "d"] else parts
    let parts := if hours > 0 then parts ++ [toString hours ++ "h"] else parts
    let parts :=
      if minutes > 0 ∨ parts.length = 0 then parts ++ [toString minutes ++ "m"] else parts
    String.intercalate " " parts

/-- The running maximum of `outputWaybar`: it starts at zero and is replaced by
the 5-hour and then the 7-day utilization when that one is greater. -/
def maxUtilOf (usage : Claude.UsageResponse) : Float64 :=
  let maxUtil := Float64.fin 0
  let maxUtil :=
    match usage.FiveHour with
    | some w => if Float64.gt w.Utilization maxUtil then w.Utilization else maxUtil
    | none => maxUtil
  let maxUtil :=
    match usage.SevenDay with
    | some w => if Float64.gt w.Utilization maxUtil then w.Utilization else maxUtil
    | none => maxUtil
  maxUtil

/-- The class of `outputWaybar` for the running maximum. -/
def classOf (maxUtil : Float64) : String :=
  if Float64.ge maxUtil (Float64.fin 90) then "critical"
  else if Float64.ge maxUtil (Float64.fin 75) then "warning"
  else "normal"

/-- One tooltip line of `outputWaybar` for a named window that is present. -/
def tooltipLine (v : Verbs) (now : Time) (name : String) (w : Claude.UsageWindow) : String :=
  let line := name ++ ": " ++ v.f1 w.Utilization ++ "%"
  match TimeUntilReset now w with
  | none => line
  | some d => line ++ " (resets in " ++ formatDuration d ++ ")"

/-- One `if usage.X != nil { ... tooltipLines = append(tooltipLines, line) }`
block of `outputWaybar`. -/
def addTooltip (v : Verbs) (now : Time) (lines : List String) (name : String)
    (w : Option Claude.UsageWindow) : List String :=
  match w with
  | none => lines
  | some x => lines ++ [tooltipLine v now name x]

/-- One `if usage.X != nil { textParts = append(...) }` block of
`outputWaybar`. -/
def addText (v : Verbs) (parts : List String) (tag : String)
    (w : Option Claude.UsageWindow) : List String :=
  match w with
  | none => parts
  | some x => parts ++ [tag ++ ":" ++ v.f0 x.Utilization ++ "%"]

/-- Function `outputWaybar` of the legacy command, up to the value handed to
the JSON encoder. -/
def outputWaybar (v : Verbs) (now : Time) (usage : Claude.UsageResponse) : WaybarOutput :=
  let maxUtil := maxUtilOf usage
  let textParts := addText v (addText v [] "5h" usage.FiveHour) "7d" usage.SevenDay
  let tooltipLines : List String := ["Claude Usage", ""]
  let tooltipLines := addTooltip v now tooltipLines "5-Hour" usage.FiveHour
  let tooltipLines := addTooltip v now tooltipLines "7-Day" usage.SevenDay
  let tooltipLines := addTooltip v now tooltipLines "7-Day Sonnet" usage.SevenDaySonnet
  let tooltipLines := addTooltip v now tooltipLines "7-Day Opus" usage.SevenDayOpus
  { Text := String.intercalate " " textParts,
    Tooltip := String.intercalate "\n" tooltipLines,
    Class := classOf maxUtil,
    Percentage := Float64.toInt maxUtil }

/-- The utilizations of the windows the legacy waybar output reports (5-hour,
7-day, 7-day Sonnet, 7-day Opus), for those present. -/
def reportedUtilizations (usage : Claude.UsageResponse) : List Float64 :=
  [usage.FiveHour, usage.SevenDay, usage.SevenDaySonnet, usage.SevenDayOpus].filterMap
    (fun w => w.map (·.Utilization))

/-- The utilizations of the 5-hour and 7-day windows, for those present. -/
def primaryUtilizations (usage : Claude.UsageResponse) : List Float64 :=
  [usage.FiveHour, usage.SevenDay].filterMap (fun w => w.map (·.Utilization))

/-- The utilizations of the 7-day Sonnet and 7-day Opus windows, for those
present. -/
def secondaryUtilizations (usage : Claude.UsageResponse) : List Float64 :=
  [usage.SevenDaySonnet, usage.SevenDayOpus].filterMap (fun w => w.map (·.Utilization))

/-- A payload with the given 5-hour and 7-day Sonnet utilizations and no other
window. -/
def payloadOf (fiveHour sonnet : Option Float64) : Claude.UsageResponse :=
  { FiveHour := fiveHour.map (fun u => { Utilization := u, ResetsAt := none }),
    SevenDay := none,
    SevenDaySonnet := sonnet.map (fun u => { Utilization := u, ResetsAt := none }),
    SevenDayOpus := none, SevenDayOAuthApp := none, IguanaNecktie := none,
    ExtraUsage := none }

end Legacy

/-! ## Rounding of rationals (used to state properties of float64 arithmetic) -/

/-- Nearest integer to a rational, ties to the even one. -/
def Float64.roundQ (x : ℚ) : ℤ :=
  if x - ⌊x⌋ < 1 / 2 then ⌊x⌋
  else if 1 / 2 < x - ⌊x⌋ then ⌊x⌋ + 1
  else if ⌊x⌋ % 2 = 0 then ⌊x⌋ else ⌊x⌋ + 1

/-- Exponent of the last place of the binary64 format around a rational. -/
def Float64.expOf (q : ℚ) : ℤ := Float64.ulpExp q.num.natAbs q.den

/-- Magnitude of the binary64 value nearest to a positive rational, before the
overflow check: the rounded significand times the power of two of the last
place. -/
def Float64.magOf (q : ℚ) : ℚ :=
  (Float64.roundQ (q / (2 : ℚ) ^ Float64.expOf q) : ℚ) * (2 : ℚ) ^ Float64.expOf q

/-- The scaled value `percentage / 100 * float64(barWidth)` of
`RenderProgressBar`, in float64 arithmetic. -/
def scaledOf (percentage : Float64) : Float64 :=
  Float64.mul (Float64.div percentage (Float64.fin 100)) (Float64.ofInt barWidth)

/-- The truncation of a rational toward zero is within the range of a Go
`int` (64 bits). -/
def FitsInt (x : ℚ) : Prop :=
  -(2 : ℤ) ^ 63 ≤ Int.tdiv x.num (x.den : ℤ) ∧ Int.tdiv x.num (x.den : ℤ) < (2 : ℤ) ^ 63

instance (x : ℚ) : Decidable (FitsInt x) := by
  unfold FitsInt; infer_instance

/-- The parts `FormatDuration` joins, for the computed days, hours and
minutes. -/
def durationParts (days hours minutes : ℤ) : List String :=
  let parts : List String := []
  let parts := if days > 0 then parts ++ [toString days ++ "d"] else parts
  let parts := if hours > 0 then parts ++ [toString hours ++ "h"] else parts
  if minutes > 0 ∨ parts.length = 0 then parts ++ [toString minutes ++ "m"] else parts

/-- The components the claim lists for `D` days, `H` hours and `m` minutes:
the non-zero ones, in that order, and "0m" when all three are zero. -/
def componentsOf (D H m : ℕ) : List String :=
  if D = 0 ∧ H = 0 ∧ m = 0 then ["0m"]
  else
    (if 0 < D then [toString D ++ "d"] else []) ++
    (if 0 < H then [toString H ++ "h"] else []) ++
    (if 0 < m then [toString m ++ "m"] else [])

/-- The text starts with a character that is not the letter e. -/
def StartsNotE (l : List Char) : Prop := ∃ c rest, l = c :: rest ∧ c ≠ 'e'

/-! # Theorems -/

/-! ## Order lemmas for float64 comparisons -/

namespace Float64

theorem gt_irrefl (a : Float64) : gt a a = false := by
  rcases a with _ | (_ | _) | a <;> simp [gt]

theorem isNaN_of_gt {a b : Float64} (h : gt a b = true) : a.isNaN = false := by
  rcases a with _ | (_ | _) | a <;> rcases b with _ | (_ | _) | b <;> simp_all [gt, isNaN]

theorem ge_refl {a : Float64} (h : a.isNaN = false) : ge a a = true := by
  rcases a with _ | (_ | _) | a <;> simp_all [ge, isNaN]

theorem ge_of_gt {a b : Float64} (h : gt a b = true) : ge a b = true := by
  rcases a with _ | (_ | _) | a <;> rcases b with _ | (_ | _) | b <;> simp_all [gt, ge]
  exact le_of_lt h

theorem ge_trans {a b c : Float64} (h₁ : ge a b = true) (h₂ : ge b c = true) :
    ge a c = true := by
  rcases a with _ | (_ | _) | a <;> rcases b with _ | (_ | _) | b <;>
    rcases c with _ | (_ | _) | c <;> simp_all [ge]
  exact le_trans h₂ h₁

theorem gt_false_of_ge {u m r : Float64} (h₁ : ge r m = true) (h₂ : gt u m = false) :
    gt u r = false := by
  rcases u with _ | (_ | _) | u <;> rcases m with _ | (_ | _) | m <;>
    rcases r with _ | (_ | _) | r <;> simp_all [ge, gt]
  exact le_trans h₂ h₁

theorem ge_of_gt_false {a b : Float64} (ha : a.isNaN = false) (hb : b.isNaN = false)
    (h : gt b a = false) : ge a b = true := by
  rcases a with _ | (_ | _) | a <;> rcases b with _ | (_ | _) | b <;> simp_all [gt, ge, isNaN]

theorem ge_false_of_gt {a b : Float64} (h : gt b a = true) : ge a b = false := by
  rcases a with _ | (_ | _) | a <;> rcases b with _ | (_ | _) | b <;> simp_all [gt, ge]

theorem isNaN_of_ge {a b : Float64} (h : ge a b = true) : a.isNaN = false := by
  rcases a with _ | (_ | _) | a <;> rcases b with _ | (_ | _) | b <;> simp_all [ge, isNaN]

theorem eq_of_ge_of_ge {a b : Float64} (h₁ : ge a b = true) (h₂ : ge b a = true) : a = b := by
  rcases a with _ | (_ | _) | a <;> rcases b with _ | (_ | _) | b <;> simp_all [ge]
  exact le_antisymm h₂ h₁

end Float64

/-! ## Invariants of the `MaxUtilization` loops -/

/-- The inner loop returns a non-NaN value that is the start value or one of
the scanned utilizations, is `>=` the start value, and is exceeded by none of
the scanned utilizations. -/
theorem maxOverWindows_inv (ws : List UsageWindow) :
    ∀ acc : Float64, acc.isNaN = false →
      (maxOverWindows acc ws).isNaN = false ∧
      (maxOverWindows acc ws = acc ∨ maxOverWindows acc ws ∈ ws.map (·.Utilization)) ∧
      Float64.ge (maxOverWindows acc ws) acc = true ∧
      ∀ u ∈ ws.map (·.Utilization), Float64.gt u (maxOverWindows acc ws) = false := by
  induction ws with
  | nil =>
    intro acc hacc
    simp [maxOverWindows, hacc, Float64.ge_refl hacc]
  | cons w ws ih =>
    intro acc hacc
    have hstep : maxOverWindows acc (w :: ws) =
        maxOverWindows (if Float64.gt w.Utilization acc then w.Utilization else acc) ws := by
      simp [maxOverWindows]
    rw [hstep]
    by_cases hgt : Float64.gt w.Utilization acc = true
    · simp only [hgt, if_true]
      obtain ⟨h1, h2, h3, h4⟩ := ih w.Utilization (Float64.isNaN_of_gt hgt)
      refine ⟨h1, ?_, Float64.ge_trans h3 (Float64.ge_of_gt hgt), ?_⟩
      · rcases h2 with h2 | h2
        · right; rw [h2]; simp
        · right; simp only [List.map_cons, List.mem_cons]; right; exact h2
      · intro u hu
        simp only [List.map_cons, List.mem_cons] at hu
        rcases hu with rfl | hu
        · exact Float64.gt_false_of_ge h3 (Float64.gt_irrefl _)
        · exact h4 u hu
    · have hgt' : Float64.gt w.Utilization acc = false := by simpa using hgt
      simp only [hgt', Bool.false_eq_true, if_false]
      obtain ⟨h1, h2, h3, h4⟩ := ih acc hacc
      refine ⟨h1, ?_, h3, ?_⟩
      · rcases h2 with h2 | h2
        · left; exact h2
        · right; simp only [List.map_cons, List.mem_cons]; right; exact h2
      · intro u hu
        simp only [List.map_cons, List.mem_cons] at hu
        rcases hu with rfl | hu
        · exact Float64.gt_false_of_ge h3 hgt'
        · exact h4 u hu

theorem maxOverProviders_cons (acc : Float64) (p : Usage) (ps : List Usage) :
    maxOverProviders acc (p :: ps) =
      maxOverProviders (if p.Error.isSome then acc else maxOverWindows acc p.Windows) ps := by
  simp [maxOverProviders]

theorem maxOverProviders_append (acc : Float64) (ps qs : List Usage) :
    maxOverProviders acc (ps ++ qs) = maxOverProviders (maxOverProviders acc ps) qs := by
  simp [maxOverProviders]

/-- The outer loop: same invariant, over the utilizations of the error-free
providers. -/
theorem maxOverProviders_inv (ps : List Usage) :
    ∀ acc : Float64, acc.isNaN = false →
      (maxOverProviders acc ps).isNaN = false ∧
      (maxOverProviders acc ps = acc ∨ maxOverProviders acc ps ∈ activeUtilizations ⟨ps⟩) ∧
      Float64.ge (maxOverProviders acc ps) acc = true ∧
      ∀ u ∈ activeUtilizations ⟨ps⟩, Float64.gt u (maxOverProviders acc ps) = false := by
  induction ps with
  | nil =>
    intro acc hacc
    simp [maxOverProviders, activeUtilizations, hacc, Float64.ge_refl hacc]
  | cons p ps ih =>
    intro acc hacc
    rw [maxOverProviders_cons]
    cases hE : p.Error with
    | some e =>
      have hact : activeUtilizations ⟨p :: ps⟩ = activeUtilizations ⟨ps⟩ := by
        simp [activeUtilizations, List.filter_cons, hE]
      simp only [Option.isSome_some, if_true, hact]
      exact ih acc hacc
    | none =>
      have hact : activeUtilizations ⟨p :: ps⟩ =
          p.Windows.map (·.Utilization) ++ activeUtilizations ⟨ps⟩ := by
        simp [activeUtilizations, List.filter_cons, hE]
      simp only [Option.isSome_none, Bool.false_eq_true, if_false, hact]
      obtain ⟨w1, w2, w3, w4⟩ := maxOverWindows_inv p.Windows acc hacc
      obtain ⟨h1, h2, h3, h4⟩ := ih (maxOverWindows acc p.Windows) w1
      refine ⟨h1, ?_, Float64.ge_trans h3 w3, ?_⟩
      · rcases h2 with h2 | h2
        · rcases w2 with w2 | w2
          · left; rw [h2, w2]
          · right; rw [h2]; exact List.mem_append_left _ w2
        · right; exact List.mem_append_right _ h2
      · intro u hu
        rcases List.mem_append.mp hu with hu | hu
        · exact Float64.gt_false_of_ge h3 (w4 u hu)
        · exact h4 u hu

/-! ## Stats accessors -/

/-- C1 (counterexample): a single error-free provider whose only window has
utilization `-5` makes `MaxUtilization` return `0`, which is not the maximum
utilization over the windows of the error-free providers (that maximum is `-5`). -/
theorem maxUtilization_not_max_of_negative :
    activeUtilizations ⟨[okUsage "kimi" [windowOf (Float64.fin (-5))]]⟩ = [Float64.fin (-5)] ∧
    UsageStats.MaxUtilization ⟨[okUsage "kimi" [windowOf (Float64.fin (-5))]]⟩ = Float64.fin 0 ∧
    ¬ IsMaxOf (UsageStats.MaxUtilization ⟨[okUsage "kimi" [windowOf (Float64.fin (-5))]]⟩)
        (activeUtilizations ⟨[okUsage "kimi" [windowOf (Float64.fin (-5))]]⟩) := by
  have h1 : activeUtilizations ⟨[okUsage "kimi" [windowOf (Float64.fin (-5))]]⟩
      = [Float64.fin (-5)] := by
    simp [activeUtilizations, okUsage, windowOf]
  have h2 : UsageStats.MaxUtilization ⟨[okUsage "kimi" [windowOf (Float64.fin (-5))]]⟩
      = Float64.fin 0 := by
    simp [UsageStats.MaxUtilization, maxOverProviders, maxOverWindows, okUsage, windowOf,
      Float64.gt]
  refine ⟨h1, h2, ?_⟩
  rw [h1, h2]
  rintro ⟨hmem, -⟩
  simp at hmem

/-- C1 (amended): for every `UsageStats`, `MaxUtilization` returns the greatest
of `0` and the utilizations of all windows of all providers whose `Error` is
nil: the result is `0` or one of those utilizations, it is `>= 0`, it is never
NaN, no such utilization is greater than it, and it is `>=` every such
utilization that is not NaN.  It is `0` when there is no such window, and it is
the maximum utilization itself as soon as some such window has a utilization
`>= 0` and none is NaN. -/
theorem maxUtilization_greatest_of_zero_and_utilizations (s : UsageStats) :
    (s.MaxUtilization = Float64.fin 0 ∨ s.MaxUtilization ∈ activeUtilizations s) ∧
    Float64.ge s.MaxUtilization (Float64.fin 0) = true ∧
    s.MaxUtilization.isNaN = false ∧
    (∀ u ∈ activeUtilizations s, Float64.gt u s.MaxUtilization = false) ∧
    (∀ u ∈ activeUtilizations s, u.isNaN = false → Float64.ge s.MaxUtilization u = true) ∧
    (activeUtilizations s = [] → s.MaxUtilization = Float64.fin 0) ∧
    ((∃ u ∈ activeUtilizations s, Float64.ge u (Float64.fin 0) = true) →
      (∀ u ∈ activeUtilizations s, u.isNaN = false) →
      IsMaxOf s.MaxUtilization (activeUtilizations s)) := by
  obtain ⟨h1, h2, h3, h4⟩ := maxOverProviders_inv s.Providers (Float64.fin 0) rfl
  have h2' : s.MaxUtilization = Float64.fin 0 ∨ s.MaxUtilization ∈ activeUtilizations s := h2
  have h4' : ∀ u ∈ activeUtilizations s, Float64.gt u s.MaxUtilization = false := h4
  have h5 : ∀ u ∈ activeUtilizations s, u.isNaN = false →
      Float64.ge s.MaxUtilization u = true :=
    fun u hu hn => Float64.ge_of_gt_false h1 hn (h4' u hu)
  refine ⟨h2', h3, h1, h4', h5, ?_, ?_⟩
  · intro hnil
    rcases h2' with h | h
    · exact h
    · rw [hnil] at h; simp at h
  · rintro ⟨u, hu, hu0⟩ hnan
    refine ⟨?_, fun v hv => h5 v hv (hnan v hv)⟩
    rcases h2' with h | h
    · have hge : Float64.ge (Float64.fin 0) u = true := by
        rw [← h]; exact h5 u hu (hnan u hu)
      have : u = Float64.fin 0 := Float64.eq_of_ge_of_ge hu0 hge
      rw [h, ← this]; exact hu
    · exact h

/-- C1 (witness): one provider with three windows (10%, 40%, 25%) and one
provider with a transport error and a stale window at 99%: the result is the
maximum of the first provider's three utilizations. -/
theorem maxUtilization_greatest_of_zero_and_utilizations_witness :
    IsMaxOf
      (UsageStats.MaxUtilization
        ⟨[okUsage "claude" [windowOf (Float64.fin 10), windowOf (Float64.fin 40),
            windowOf (Float64.fin 25)],
          failedUsage "kimi" [windowOf (Float64.fin 99)] (GoError.leaf "timeout")]⟩)
      (activeUtilizations
        ⟨[okUsage "claude" [windowOf (Float64.fin 10), windowOf (Float64.fin 40),
            windowOf (Float64.fin 25)],
          failedUsage "kimi" [windowOf (Float64.fin 99)] (GoError.leaf "timeout")]⟩) :=
  (maxUtilization_greatest_of_zero_and_utilizations
    ⟨[okUsage "claude" [windowOf (Float64.fin 10), windowOf (Float64.fin 40),
        windowOf (Float64.fin 25)],
      failedUsage "kimi" [windowOf (Float64.fin 99)] (GoError.leaf "timeout")]⟩).2.2.2.2.2.2
    ⟨Float64.fin 10, by decide!, by decide!⟩ (by decide!)

/-- C2: `MaxUtilization` ignores every provider whose `Error` is non-nil:
replacing the windows of such a provider by any other list of windows, or
removing the provider, leaves the result unchanged. -/
theorem maxUtilization_ignores_errored (before after : List Usage) (p : Usage)
    (ws : List UsageWindow) (hErr : p.Error ≠ none) :
    UsageStats.MaxUtilization ⟨before ++ { p with Windows := ws } :: after⟩ =
      UsageStats.MaxUtilization ⟨before ++ p :: after⟩ ∧
    UsageStats.MaxUtilization ⟨before ++ after⟩ =
      UsageStats.MaxUtilization ⟨before ++ p :: after⟩ := by
  have hs : p.Error.isSome = true := Option.isSome_iff_ne_none.mpr hErr
  simp only [UsageStats.MaxUtilization, maxOverProviders_append, maxOverProviders_cons, hs,
    if_true, and_self]

/-- C2 (witness): a provider with a transport error and a stale window at 99%
next to a healthy provider at 10%. -/
theorem maxUtilization_ignores_errored_witness :
    (failedUsage "kimi" [windowOf (Float64.fin 99)] (GoError.leaf "timeout")).Error ≠ none ∧
    (UsageStats.MaxUtilization
        ⟨[okUsage "claude" [windowOf (Float64.fin 10)]] ++
          { failedUsage "kimi" [windowOf (Float64.fin 99)] (GoError.leaf "timeout") with
            Windows := [] } :: []⟩ =
      UsageStats.MaxUtilization
        ⟨[okUsage "claude" [windowOf (Float64.fin 10)]] ++
          failedUsage "kimi" [windowOf (Float64.fin 99)] (GoError.leaf "timeout") :: []⟩ ∧
    UsageStats.MaxUtilization ⟨[okUsage "claude" [windowOf (Float64.fin 10)]] ++ []⟩ =
      UsageStats.MaxUtilization
        ⟨[okUsage "claude" [windowOf (Float64.fin 10)]] ++
          failedUsage "kimi" [windowOf (Float64.fin 99)] (GoError.leaf "timeout") :: []⟩) :=
  ⟨by simp [failedUsage],
   maxUtilization_ignores_errored [okUsage "claude" [windowOf (Float64.fin 10)]] []
     (failedUsage "kimi" [windowOf (Float64.fin 99)] (GoError.leaf "timeout")) []
     (by simp [failedUsage])⟩

/-- C3: with `m` the maximum utilization, `GetClass` is "critical" when
`m >= 90`, "warning" when `75 <= m < 90` and "normal" when `m < 75`, and one of
the three cases always applies; maximum utilizations 0, 74.9, 75, 89.9, 90 and
100 give normal, normal, warning, warning, critical, critical. -/
theorem getClass_bands (s : UsageStats) :
    (Float64.ge s.MaxUtilization (Float64.fin 90) = true → s.GetClass = "critical") ∧
    (Float64.ge s.MaxUtilization (Float64.fin 75) = true →
      Float64.lt s.MaxUtilization (Float64.fin 90) = true → s.GetClass = "warning") ∧
    (Float64.lt s.MaxUtilization (Float64.fin 75) = true → s.GetClass = "normal") ∧
    (Float64.ge s.MaxUtilization (Float64.fin 90) = true ∨
      (Float64.ge s.MaxUtilization (Float64.fin 75) = true ∧
        Float64.lt s.MaxUtilization (Float64.fin 90) = true) ∨
      Float64.lt s.MaxUtilization (Float64.fin 75) = true) ∧
    (UsageStats.MaxUtilization ⟨[okUsage "claude" [windowOf (Float64.lit 0)]]⟩ = Float64.lit 0 ∧
      UsageStats.GetClass ⟨[okUsage "claude" [windowOf (Float64.lit 0)]]⟩ = "normal") ∧
    (UsageStats.MaxUtilization ⟨[okUsage "claude" [windowOf (Float64.lit (749 / 10))]]⟩ =
        Float64.lit (749 / 10) ∧
      UsageStats.GetClass ⟨[okUsage "claude" [windowOf (Float64.lit (749 / 10))]]⟩ = "normal") ∧
    (UsageStats.MaxUtilization ⟨[okUsage "claude" [windowOf (Float64.lit 75)]]⟩ = Float64.lit 75 ∧
      UsageStats.GetClass ⟨[okUsage "claude" [windowOf (Float64.lit 75)]]⟩ = "warning") ∧
    (UsageStats.MaxUtilization ⟨[okUsage "claude" [windowOf (Float64.lit (899 / 10))]]⟩ =
        Float64.lit (899 / 10) ∧
      UsageStats.GetClass ⟨[okUsage "claude" [windowOf (Float64.lit (899 / 10))]]⟩ = "warning") ∧
    (UsageStats.MaxUtilization ⟨[okUsage "claude" [windowOf (Float64.lit 90)]]⟩ = Float64.lit 90 ∧
      UsageStats.GetClass ⟨[okUsage "claude" [windowOf (Float64.lit 90)]]⟩ = "critical") ∧
    (UsageStats.MaxUtilization ⟨[okUsage "claude" [windowOf (Float64.lit 100)]]⟩ =
        Float64.lit 100 ∧
      UsageStats.GetClass ⟨[okUsage "claude" [windowOf (Float64.lit 100)]]⟩ = "critical") := by
  obtain ⟨hNaN, -, -, -⟩ := maxOverProviders_inv s.Providers (Float64.fin 0) rfl
  have hNaN' : s.MaxUtilization.isNaN = false := hNaN
  have h9075 : Float64.ge (Float64.fin 90) (Float64.fin 75) = true := by
    simp [Float64.ge]; norm_num
  refine ⟨?_, ?_, ?_, ?_, ?_, ?_, ?_, ?_, ?_, ?_⟩
  · intro h
    simp [UsageStats.GetClass, h]
  · intro h75 h90
    have : Float64.ge s.MaxUtilization (Float64.fin 90) = false := Float64.ge_false_of_gt h90
    simp [UsageStats.GetClass, h75, this]
  · intro h75
    have h1 : Float64.ge s.MaxUtilization (Float64.fin 75) = false := Float64.ge_false_of_gt h75
    have h2 : Float64.ge s.MaxUtilization (Float64.fin 90) = false := by
      cases h : Float64.ge s.MaxUtilization (Float64.fin 90) with
      | false => rfl
      | true => rw [Float64.ge_trans h h9075] at h1; exact absurd h1 (by simp)
    simp [UsageStats.GetClass, h1, h2]
  · cases h90 : Float64.ge s.MaxUtilization (Float64.fin 90) with
    | true => left; rfl
    | false =>
      right
      cases h75 : Float64.ge s.MaxUtilization (Float64.fin 75) with
      | true =>
        left
        refine ⟨rfl, ?_⟩
        cases hlt : Float64.lt s.MaxUtilization (Float64.fin 90) with
        | true => rfl
        | false =>
          rw [Float64.ge_of_gt_false hNaN' (show (Float64.fin 90).isNaN = false from rfl) hlt] at h90
          exact absurd h90 (by simp)
      | false =>
        right
        cases hlt : Float64.lt s.MaxUtilization (Float64.fin 75) with
        | true => rfl
        | false =>
          rw [Float64.ge_of_gt_false hNaN' (show (Float64.fin 75).isNaN = false from rfl) hlt] at h75
          exact absurd h75 (by simp)
  all_goals decide!

/-- The `ProviderByID` loop started at index `k` returns `some i` exactly when
`i` is the first position at or after `k` whose entry has the identifier. -/
theorem providerIndexFrom_eq_some (id : String) (ps : List Usage) :
    ∀ k i : ℕ, providerIndexFrom id ps k = some i ↔
      k ≤ i ∧ (ps[i - k]?).map (·.Provider) = some id ∧
        ∀ j, j < i - k → (ps[j]?).map (·.Provider) ≠ some id := by
  induction ps with
  | nil => intro k i; simp [providerIndexFrom]
  | cons p ps ih =>
    intro k i
    by_cases hp : p.Provider = id
    · simp only [providerIndexFrom, hp, if_true, Option.some.injEq]
      constructor
      · rintro rfl
        simp [hp]
      · rintro ⟨hk, -, hfirst⟩
        by_contra hne
        have hpos : 0 < i - k := by omega
        exact hfirst 0 hpos (by simp [hp])
    · simp only [providerIndexFrom, hp, if_false]
      rw [ih (k + 1) i]
      constructor
      · rintro ⟨hk, hget, hfirst⟩
        have hik : i - k = (i - (k + 1)) + 1 := by omega
        refine ⟨by omega, ?_, ?_⟩
        · rw [hik]; simpa using hget
        · intro j hj
          cases j with
          | zero => simp [hp]
          | succ j => simpa using hfirst j (by omega)
      · rintro ⟨hk, hget, hfirst⟩
        have hki : k ≠ i := by
          rintro rfl
          simp [hp] at hget
        have hik : i - k = (i - (k + 1)) + 1 := by omega
        refine ⟨by omega, ?_, ?_⟩
        · rw [hik] at hget; simpa using hget
        · intro j hj
          simpa using hfirst (j + 1) (by omega)

/-- The loop finds nothing exactly when no entry has the identifier. -/
theorem providerIndexFrom_eq_none (id : String) (ps : List Usage) :
    ∀ k : ℕ, providerIndexFrom id ps k = none ↔ ∀ p ∈ ps, p.Provider ≠ id := by
  induction ps with
  | nil => intro k; simp [providerIndexFrom]
  | cons p ps ih =>
    intro k
    by_cases hp : p.Provider = id
    · simp [providerIndexFrom, hp]
    · simp [providerIndexFrom, hp, ih (k + 1)]

/-- C4: `ProviderByID` returns (a pointer to) the entry of `Providers` at the
lowest index whose `Provider` field equals `id`, and returns nil exactly when
no entry has that identifier. -/
theorem providerByID_first_match (s : UsageStats) (id : String) :
    (∀ i : ℕ, s.ProviderByID id = some i ↔
      ((s.Providers[i]?).map (·.Provider) = some id ∧
        ∀ j, j < i → (s.Providers[j]?).map (·.Provider) ≠ some id)) ∧
    (s.ProviderByID id = none ↔ ∀ p ∈ s.Providers, p.Provider ≠ id) := by
  refine ⟨fun i => ?_, providerIndexFrom_eq_none id s.Providers 0⟩
  have h := providerIndexFrom_eq_some id s.Providers 0 i
  simpa [UsageStats.ProviderByID] using h

/-! ## The Kimi adapter -/

namespace Kimi

theorem foldl_appendIfPresent (f : LimitItem → Option UsageWindow) (ls : List LimitItem) :
    ∀ acc : List UsageWindow,
      ls.foldl (fun ws limit => appendIfPresent ws (f limit)) acc = acc ++ ls.filterMap f := by
  induction ls with
  | nil => intro acc; simp
  | cons l ls ih =>
    intro acc
    rw [List.foldl_cons, ih]
    cases h : f l with
    | none => simp [appendIfPresent, List.filterMap_cons, h]
    | some w => simp [appendIfPresent, List.filterMap_cons, h]

theorem addItem_eq (parseFloat : String → Option Float64) (parseTime : String → Option Time)
    (windows : List UsageWindow) (item : UsageItem) :
    addItem parseFloat parseTime windows item =
      windows ++ itemWindows parseFloat parseTime item := by
  unfold addItem itemWindows
  rw [foldl_appendIfPresent]
  cases parseScopeWindow parseFloat parseTime item <;> simp [appendIfPresent]

theorem foldl_addItem (parseFloat : String → Option Float64) (parseTime : String → Option Time)
    (items : List UsageItem) :
    ∀ acc : List UsageWindow,
      items.foldl (addItem parseFloat parseTime) acc =
        acc ++ items.flatMap (itemWindows parseFloat parseTime) := by
  induction items with
  | nil => intro acc; simp
  | cons item items ih =>
    intro acc
    rw [List.foldl_cons, ih, addItem_eq]
    simp [List.flatMap_cons]

theorem parseScopeWindow_isSome (parseFloat : String → Option Float64)
    (parseTime : String → Option Time) (item : UsageItem) :
    (parseScopeWindow parseFloat parseTime item).isSome =
      ((parseFloat item.Detail.Limit).isSome && (parseFloat item.Detail.Used).isSome) := by
  unfold parseScopeWindow
  cases parseFloat item.Detail.Limit <;> cases parseFloat item.Detail.Used <;> rfl

theorem parseLimitWindow_isSome (parseFloat : String → Option Float64)
    (parseTime : String → Option Time) (scope : String) (limit : LimitItem) :
    (parseLimitWindow parseFloat parseTime scope limit).isSome =
      ((parseFloat limit.Detail.Limit).isSome && (parseFloat limit.Detail.Used).isSome) := by
  unfold parseLimitWindow
  cases parseFloat limit.Detail.Limit <;> cases parseFloat limit.Detail.Used <;> rfl

/-- C5: when the limit and used strings of a Kimi usage detail parse to `L`
(non-zero) and `U`, the window produced by `parseScopeWindow`, and likewise by
`parseLimitWindow`, has `Utilization = (U / L) * 100` in float64 arithmetic and
carries `Limit = L`, `Used = U` and `Remaining = L - U`, all three present; with
limit "100" and used "42" (parsing to 100 and 42) the utilization is 42 and the
remaining amount 58. -/
theorem parseWindow_quantities (parseFloat : String → Option Float64)
    (parseTime : String → Option Time) :
    (∀ (item : UsageItem) (L U : Float64),
      parseFloat item.Detail.Limit = some L → parseFloat item.Detail.Used = some U →
      L ≠ Float64.fin 0 →
      ∃ w, parseScopeWindow parseFloat parseTime item = some w ∧
        w.Utilization = Float64.mul (Float64.div U L) (Float64.fin 100) ∧
        w.Limit = some L ∧ w.Used = some U ∧ w.Remaining = some (Float64.sub L U)) ∧
    (∀ (scope : String) (limit : LimitItem) (L U : Float64),
      parseFloat limit.Detail.Limit = some L → parseFloat limit.Detail.Used = some U →
      L ≠ Float64.fin 0 →
      ∃ w, parseLimitWindow parseFloat parseTime scope limit = some w ∧
        w.Utilization = Float64.mul (Float64.div U L) (Float64.fin 100) ∧
        w.Limit = some L ∧ w.Used = some U ∧ w.Remaining = some (Float64.sub L U)) ∧
    (parseFloat "100" = some (Float64.fin 100) → parseFloat "42" = some (Float64.fin 42) →
      (∀ item : UsageItem, item.Detail.Limit = "100" → item.Detail.Used = "42" →
        ∃ w, parseScopeWindow parseFloat parseTime item = some w ∧
          w.Utilization = Float64.fin 42 ∧ w.Limit = some (Float64.fin 100) ∧
          w.Used = some (Float64.fin 42) ∧ w.Remaining = some (Float64.fin 58)) ∧
      (∀ (scope : String) (limit : LimitItem),
        limit.Detail.Limit = "100" → limit.Detail.Used = "42" →
        ∃ w, parseLimitWindow parseFloat parseTime scope limit = some w ∧
          w.Utilization = Float64.fin 42 ∧ w.Limit = some (Float64.fin 100) ∧
          w.Used = some (Float64.fin 42) ∧ w.Remaining = some (Float64.fin 58))) := by
  have hu : Float64.mul (Float64.div (Float64.fin 42) (Float64.fin 100)) (Float64.fin 100) =
      Float64.fin 42 := by decide!
  have hr : Float64.sub (Float64.fin 100) (Float64.fin 42) = Float64.fin 58 := by decide!
  refine ⟨?_, ?_, ?_⟩
  · intro item L U hL hU _
    exact ⟨_, by simp only [parseScopeWindow, hL, hU]; rfl, rfl, rfl, rfl, rfl⟩
  · intro scope limit L U hL hU _
    exact ⟨_, by simp only [parseLimitWindow, hL, hU]; rfl, rfl, rfl, rfl, rfl⟩
  · intro h100 h42
    constructor
    · intro item hl hused
      rw [← hl] at h100
      rw [← hused] at h42
      exact ⟨_, by simp only [parseScopeWindow, h100, h42]; rfl, hu, rfl, rfl,
        congrArg some hr⟩
    · intro scope limit hl hused
      rw [← hl] at h100
      rw [← hused] at h42
      exact ⟨_, by simp only [parseLimitWindow, h100, h42]; rfl, hu, rfl, rfl,
        congrArg some hr⟩

/-- C5 (witness): the scope detail with limit "100" and used "42", read with
the decimal digit parser. -/
theorem parseWindow_quantities_witness :
    ∃ w, parseScopeWindow parseDigits parseNoTime (codingItem "100" "42" []) = some w ∧
      w.Utilization = Float64.fin 42 ∧ w.Limit = some (Float64.fin 100) ∧
      w.Used = some (Float64.fin 42) ∧ w.Remaining = some (Float64.fin 58) :=
  ((parseWindow_quantities parseDigits parseNoTime).2.2 (by decide!) (by decide!)).1
    (codingItem "100" "42" []) rfl rfl

/-- C6: `parseScopeWindow` yields no window exactly when the limit string or
the used string of the scope detail fails to parse (so a limit "abc", which
does not parse, omits the window, and a limit "0", which parses, does not);
and when it yields no window, `GetUsage` over a fetched payload still succeeds
and emits the windows of the items before, the windows of that item's nested
rate limits, and the windows of the items after. -/
theorem parseScopeWindow_none_iff (parseFloat : String → Option Float64)
    (parseTime : String → Option Time) (item : UsageItem) :
    (parseScopeWindow parseFloat parseTime item = none ↔
      (parseFloat item.Detail.Limit = none ∨ parseFloat item.Detail.Used = none)) ∧
    (item.Detail.Limit = "abc" → parseFloat "abc" = none →
      parseScopeWindow parseFloat parseTime item = none) ∧
    (item.Detail.Limit = "0" → (parseFloat "0").isSome = true →
      (parseFloat item.Detail.Used).isSome = true →
      (parseScopeWindow parseFloat parseTime item).isSome = true) ∧
    (parseScopeWindow parseFloat parseTime item = none →
      ∀ before after : List UsageItem, ∃ wsBefore wsAfter : List UsageWindow,
        GetUsage parseFloat parseTime (.ok ⟨before⟩) =
          .ok { Provider := "kimi", Windows := wsBefore, Extra := [], Error := none } ∧
        GetUsage parseFloat parseTime (.ok ⟨after⟩) =
          .ok { Provider := "kimi", Windows := wsAfter, Extra := [], Error := none } ∧
        GetUsage parseFloat parseTime (.ok ⟨before ++ item :: after⟩) =
          .ok { Provider := "kimi",
                Windows := wsBefore ++
                  item.Limits.filterMap (parseLimitWindow parseFloat parseTime item.Scope) ++
                  wsAfter,
                Extra := [], Error := none }) := by
  have hiff : parseScopeWindow parseFloat parseTime item = none ↔
      (parseFloat item.Detail.Limit = none ∨ parseFloat item.Detail.Used = none) := by
    have h := parseScopeWindow_isSome parseFloat parseTime item
    cases hw : parseScopeWindow parseFloat parseTime item <;>
      cases hl : parseFloat item.Detail.Limit <;>
      cases hu : parseFloat item.Detail.Used <;> simp_all
  refine ⟨hiff, ?_, ?_, ?_⟩
  · intro hl habc
    exact hiff.mpr (Or.inl (by rw [hl]; exact habc))
  · intro hl h0 hu
    rw [parseScopeWindow_isSome, hl, h0, hu]; rfl
  · intro hnone before after
    refine ⟨before.flatMap (itemWindows parseFloat parseTime),
      after.flatMap (itemWindows parseFloat parseTime), ?_, ?_, ?_⟩
    · simp [GetUsage, foldl_addItem]
    · simp [GetUsage, foldl_addItem]
    · simp [GetUsage, foldl_addItem, List.flatMap_append, List.flatMap_cons, addItem_eq,
        itemWindows, hnone]

/-- C6 (witness): an item whose scope limit is "abc", with one parseable nested
rate limit, between two parseable items. -/
theorem parseScopeWindow_none_iff_witness :
    parseScopeWindow parseDigits parseNoTime
        (codingItem "abc" "42" [fiveMinuteLimit "100" "42"]) = none ∧
    ∃ wsBefore wsAfter : List UsageWindow,
      GetUsage parseDigits parseNoTime (.ok ⟨[codingItem "100" "42" []]⟩) =
        .ok { Provider := "kimi", Windows := wsBefore, Extra := [], Error := none } ∧
      GetUsage parseDigits parseNoTime (.ok ⟨[codingItem "10" "1" []]⟩) =
        .ok { Provider := "kimi", Windows := wsAfter, Extra := [], Error := none } ∧
      GetUsage parseDigits parseNoTime
          (.ok ⟨[codingItem "100" "42" []] ++
            codingItem "abc" "42" [fiveMinuteLimit "100" "42"] :: [codingItem "10" "1" []]⟩) =
        .ok { Provider := "kimi",
              Windows := wsBefore ++
                (codingItem "abc" "42" [fiveMinuteLimit "100" "42"]).Limits.filterMap
                  (parseLimitWindow parseDigits parseNoTime
                    (codingItem "abc" "42" [fiveMinuteLimit "100" "42"]).Scope) ++
                wsAfter,
              Extra := [], Error := none } :=
  ⟨(parseScopeWindow_none_iff parseDigits parseNoTime
      (codingItem "abc" "42" [fiveMinuteLimit "100" "42"])).2.1 rfl (by decide),
   (parseScopeWindow_none_iff parseDigits parseNoTime
      (codingItem "abc" "42" [fiveMinuteLimit "100" "42"])).2.2.2
      ((parseScopeWindow_none_iff parseDigits parseNoTime
        (codingItem "abc" "42" [fiveMinuteLimit "100" "42"])).2.1 rfl (by decide))
      [codingItem "100" "42" []] [codingItem "10" "1" []]⟩

/-- C7: for every fetched payload, the windows returned by `GetUsage` are the
concatenation, over the usage items in payload order, of the item's scope
window (when parseable) followed by the windows of its nested rate-limit
entries in payload order (each when parseable); when every detail is parseable
the number of windows is the number of items plus the total number of nested
rate-limit entries. -/
theorem getUsage_windows_in_payload_order (parseFloat : String → Option Float64)
    (parseTime : String → Option Time) (resp : UsageResponse) :
    GetUsage parseFloat parseTime (.ok resp) =
      .ok { Provider := "kimi",
            Windows := resp.Usages.flatMap (fun item =>
              (parseScopeWindow parseFloat parseTime item).toList ++
                item.Limits.filterMap (parseLimitWindow parseFloat parseTime item.Scope)),
            Extra := [], Error := none } ∧
    ((∀ item ∈ resp.Usages,
        (parseFloat item.Detail.Limit).isSome = true ∧
        (parseFloat item.Detail.Used).isSome = true ∧
        ∀ l ∈ item.Limits,
          (parseFloat l.Detail.Limit).isSome = true ∧ (parseFloat l.Detail.Used).isSome = true) →
      ∃ u, GetUsage parseFloat parseTime (.ok resp) = .ok u ∧
        u.Windows.length =
          resp.Usages.length + (resp.Usages.map (fun item => item.Limits.length)).sum) := by
  have hmain : GetUsage parseFloat parseTime (.ok resp) =
      .ok { Provider := "kimi",
            Windows := resp.Usages.flatMap (itemWindows parseFloat parseTime),
            Extra := [], Error := none } := by
    simp [GetUsage, foldl_addItem]
  refine ⟨hmain, fun hall => ⟨_, hmain, ?_⟩⟩
  show (resp.Usages.flatMap (itemWindows parseFloat parseTime)).length = _
  have hitem : ∀ item ∈ resp.Usages,
      (itemWindows parseFloat parseTime item).length = 1 + item.Limits.length := by
    intro item hi
    obtain ⟨h1, h2, h3⟩ := hall item hi
    have hs : (parseScopeWindow parseFloat parseTime item).isSome = true := by
      rw [parseScopeWindow_isSome, h1, h2]; rfl
    have hl : item.Limits.filterMap (parseLimitWindow parseFloat parseTime item.Scope) =
        item.Limits.map (fun l =>
          (parseLimitWindow parseFloat parseTime item.Scope l).getD (windowOf Float64.nan)) := by
      rw [← List.filterMap_eq_map]
      apply List.filterMap_congr
      intro l hlm
      obtain ⟨a, b⟩ := h3 l hlm
      have : (parseLimitWindow parseFloat parseTime item.Scope l).isSome = true := by
        rw [parseLimitWindow_isSome, a, b]; rfl
      obtain ⟨w, hw⟩ := Option.isSome_iff_exists.mp this
      simp [hw]
    obtain ⟨w, hw⟩ := Option.isSome_iff_exists.mp hs
    simp [itemWindows, hw, hl, Nat.add_comm]
  generalize resp.Usages = items at hitem
  induction items with
  | nil => simp
  | cons item items ih =>
    have h1 := hitem item (List.mem_cons_self _ _)
    have h2 := ih (fun x hx => hitem x (List.mem_cons_of_mem _ hx))
    simp only [List.flatMap_cons, List.length_append, List.length_cons, List.map_cons,
      List.sum_cons, h1, h2]
    omega

/-- C7 (witness): two items, the first with two nested rate limits, every
detail parseable: four windows. -/
theorem getUsage_windows_in_payload_order_witness :
    ∃ u, GetUsage parseDigits parseNoTime
        (.ok ⟨[codingItem "100" "42" [fiveMinuteLimit "10" "1", fiveMinuteLimit "20" "5"],
               codingItem "50" "5" []]⟩) = .ok u ∧
      u.Windows.length =
        [codingItem "100" "42" [fiveMinuteLimit "10" "1", fiveMinuteLimit "20" "5"],
          codingItem "50" "5" []].length +
        ([codingItem "100" "42" [fiveMinuteLimit "10" "1", fiveMinuteLimit "20" "5"],
          codingItem "50" "5" []].map (fun item => item.Limits.length)).sum :=
  (getUsage_windows_in_payload_order parseDigits parseNoTime
    ⟨[codingItem "100" "42" [fiveMinuteLimit "10" "1", fiveMinuteLimit "20" "5"],
      codingItem "50" "5" []]⟩).2 (by decide)

end Kimi

/-! ## Label derivation -/

namespace Strings

theorem splitLoop_ne_nil (sep : Char) (fuel : ℕ) (s : List Char) : splitLoop sep fuel s ≠ [] := by
  cases fuel with
  | zero => simp [splitLoop]
  | succ fuel =>
    unfold splitLoop
    split <;> simp

theorem Join_cons_of_ne_nil (a : List Char) (rest : List (List Char)) (sep : List Char)
    (h : rest ≠ []) : Join (a :: rest) sep = a ++ sep ++ Join rest sep := by
  cases rest with
  | nil => exact absurd rfl h
  | cons b rest => rfl

theorem Join_eq_intercalate (sep : List Char) (parts : List (List Char)) :
    Join parts sep = sep.intercalate parts := by
  induction parts with
  | nil => rfl
  | cons a rest ih =>
    cases rest with
    | nil => simp [Join, List.intercalate]
    | cons b rest =>
      rw [Join_cons_of_ne_nil a (b :: rest) sep (by simp), ih]
      simp [List.intercalate, List.intersperse]

/-- Joining the pieces of `Split` with the separator gives the text back, and
no piece contains the separator. -/
theorem splitLoop_spec (sep : Char) :
    ∀ (fuel : ℕ) (s : List Char), s.length ≤ fuel →
      Join (splitLoop sep fuel s) [sep] = s ∧ ∀ seg ∈ splitLoop sep fuel s, sep ∉ seg := by
  intro fuel
  induction fuel with
  | zero =>
    intro s hs
    have : s = [] := List.length_eq_zero.mp (Nat.le_zero.mp hs)
    subst this
    simp [splitLoop, Join]
  | succ fuel ih =>
    intro s hs
    unfold splitLoop
    cases hd : s.dropWhile (fun c => c != sep) with
    | nil =>
      have hall := List.dropWhile_eq_nil_iff.mp hd
      refine ⟨by simp [Join], ?_⟩
      intro seg hseg hmem
      simp only [List.mem_singleton] at hseg
      subst hseg
      have := hall sep hmem
      simp at this
    | cons c rest =>
      have hc : c = sep := by
        have h := List.head_dropWhile_not (fun c => c != sep) s (by rw [hd]; simp)
        simp only [hd, List.head_cons] at h
        simpa using h
      subst hc
      have hlen : rest.length ≤ fuel := by
        have h1 : (s.dropWhile (fun x => x != c)).length ≤ s.length :=
          (List.dropWhile_sublist _).length_le
        rw [hd] at h1
        simp only [List.length_cons] at h1
        omega
      obtain ⟨ih1, ih2⟩ := ih rest hlen
      have hs' : s = s.takeWhile (fun x => x != c) ++ c :: rest := by
        rw [← hd, List.takeWhile_append_dropWhile]
      constructor
      · show Join (s.takeWhile (fun x => x != c) :: splitLoop c fuel rest) [c] = s
        rw [Join_cons_of_ne_nil _ _ _ (splitLoop_ne_nil c fuel rest), ih1]
        simpa using hs'.symm
      · intro seg hseg
        simp only [List.mem_cons] at hseg
        rcases hseg with rfl | hseg
        · intro hmem
          have := List.mem_takeWhile_imp hmem
          simp at this
        · exact ih2 seg hseg

end Strings

theorem titleWord_eq (part : List Char) :
    (if part.length > 0 then
        Strings.ToUpper (part.take 1) ++ Strings.ToLower (part.drop 1) else part) =
      titleWord part := by
  cases part with
  | nil => rfl
  | cons c rest => simp [Strings.ToUpper, Strings.ToLower, titleWord]

/-- C8: for every ASCII scope identifier, `formatScopeLabel` returns the
identifier split on "_" (the identifier is its segments joined by "_", and no
segment contains "_"), with each non-empty segment rewritten as its first
character upper-cased followed by the rest lower-cased (empty segments stay
empty), the segments joined by single spaces; "FEATURE_CODING" gives
"Feature Coding". -/
theorem formatScopeLabel_titlecases_segments (scope : String) (_hascii : IsASCII scope) :
    (∃ segs : List (List Char),
      segs ≠ [] ∧ (∀ seg ∈ segs, '_' ∉ seg) ∧
      scope.data = ['_'].intercalate segs ∧
      Kimi.formatScopeLabel scope = String.mk ([' '].intercalate (segs.map titleWord))) ∧
    Kimi.formatScopeLabel "FEATURE_CODING" = "Feature Coding" := by
  refine ⟨⟨Strings.Split scope.data '_', Strings.splitLoop_ne_nil _ _ _, ?_, ?_, ?_⟩, by decide⟩
  · exact (Strings.splitLoop_spec '_' scope.data.length scope.data (le_refl _)).2
  · rw [← Strings.Join_eq_intercalate]
    exact (Strings.splitLoop_spec '_' scope.data.length scope.data (le_refl _)).1.symm
  · unfold Kimi.formatScopeLabel
    simp only [titleWord_eq, Strings.Join_eq_intercalate]

/-- C8 (witness): the identifier "FEATURE_CODING". -/
theorem formatScopeLabel_titlecases_segments_witness :
    IsASCII "FEATURE_CODING" ∧
    (∃ segs : List (List Char),
      segs ≠ [] ∧ (∀ seg ∈ segs, '_' ∉ seg) ∧
      "FEATURE_CODING".data = ['_'].intercalate segs ∧
      Kimi.formatScopeLabel "FEATURE_CODING" =
        String.mk ([' '].intercalate (segs.map titleWord))) :=
  ⟨by decide, (formatScopeLabel_titlecases_segments "FEATURE_CODING" (by decide)).1⟩

namespace Strings

theorem TrimPrefix_spec (s p : List Char) :
    (∃ rest, s = p ++ rest ∧ TrimPrefix s p = rest) ∨
    ((¬ ∃ rest, s = p ++ rest) ∧ TrimPrefix s p = s) := by
  unfold TrimPrefix
  by_cases h : p.isPrefixOf s = true
  · left
    obtain ⟨rest, hrest⟩ := List.isPrefixOf_iff_prefix.mp h
    exact ⟨rest, hrest.symm, by simp [h, ← hrest]⟩
  · right
    refine ⟨?_, by simp [h]⟩
    rintro ⟨rest, hrest⟩
    exact h (List.isPrefixOf_iff_prefix.mpr ⟨rest, hrest.symm⟩)

theorem TrimSuffix_spec (s suffix : List Char) :
    (∃ init, s = init ++ suffix ∧ TrimSuffix s suffix = init) ∨
    ((¬ ∃ init, s = init ++ suffix) ∧ TrimSuffix s suffix = s) := by
  unfold TrimSuffix
  by_cases h : suffix.isSuffixOf s = true
  · left
    obtain ⟨init, hinit⟩ := List.isSuffixOf_iff_suffix.mp h
    exact ⟨init, hinit.symm, by simp [h, ← hinit]⟩
  · right
    refine ⟨?_, by simp [h]⟩
    rintro ⟨init, hinit⟩
    exact h (List.isSuffixOf_iff_suffix.mpr ⟨init, hinit.symm⟩)

end Strings

theorem capitalize_eq (unit : List Char) :
    (if unit.length > 0 then Strings.ToUpper (unit.take 1) ++ unit.drop 1 else unit) =
      capitalize unit := by
  cases unit with
  | nil => rfl
  | cons c rest => simp [Strings.ToUpper, capitalize]

/-- C9: for every integer duration `n` and ASCII time unit `u`,
`formatDurationLabel` returns "<n>-<Unit> Rate Limit", where <Unit> is obtained
from `u` by removing a leading "TIME_UNIT_" (when there is one), lower-casing,
removing one trailing "s" (when there is one) and upper-casing the first
character; duration 5 with "TIME_UNIT_MINUTES" gives "5-Minute Rate Limit". -/
theorem formatDurationLabel_spec (duration : ℤ) (timeUnit : String) (_hascii : IsASCII timeUnit) :
    (∃ stripped singular : List Char,
      (timeUnit.data = "TIME_UNIT_".data ++ stripped ∨
        ((¬ ∃ rest, timeUnit.data = "TIME_UNIT_".data ++ rest) ∧ stripped = timeUnit.data)) ∧
      (stripped.map Char.toLower = singular ++ ['s'] ∨
        ((¬ ∃ init, stripped.map Char.toLower = init ++ ['s']) ∧
          singular = stripped.map Char.toLower)) ∧
      Kimi.formatDurationLabel duration timeUnit =
        toString duration ++ "-" ++ String.mk (capitalize singular) ++ " Rate Limit") ∧
    Kimi.formatDurationLabel 5 "TIME_UNIT_MINUTES" = "5-Minute Rate Limit" := by
  refine ⟨⟨Strings.TrimPrefix timeUnit.data "TIME_UNIT_".data,
    Strings.TrimSuffix (Strings.ToLower (Strings.TrimPrefix timeUnit.data "TIME_UNIT_".data)) ['s'],
    ?_, ?_, ?_⟩, by decide⟩
  · rcases Strings.TrimPrefix_spec timeUnit.data "TIME_UNIT_".data with ⟨rest, h1, h2⟩ | ⟨h1, h2⟩
    · left; rw [h2]; exact h1
    · right; exact ⟨h1, h2⟩
  · rcases Strings.TrimSuffix_spec
        (Strings.ToLower (Strings.TrimPrefix timeUnit.data "TIME_UNIT_".data)) ['s'] with
      ⟨init, h1, h2⟩ | ⟨h1, h2⟩
    · left; rw [h2]; exact h1
    · right; exact ⟨h1, h2⟩
  · unfold Kimi.formatDurationLabel
    simp only [capitalize_eq]

/-- C9 (witness): duration 5 with the time unit "TIME_UNIT_MINUTES". -/
theorem formatDurationLabel_spec_witness :
    IsASCII "TIME_UNIT_MINUTES" ∧
    ∃ stripped singular : List Char,
      ("TIME_UNIT_MINUTES".data = "TIME_UNIT_".data ++ stripped ∨
        ((¬ ∃ rest, "TIME_UNIT_MINUTES".data = "TIME_UNIT_".data ++ rest) ∧
          stripped = "TIME_UNIT_MINUTES".data)) ∧
      (stripped.map Char.toLower = singular ++ ['s'] ∨
        ((¬ ∃ init, stripped.map Char.toLower = init ++ ['s']) ∧
          singular = stripped.map Char.toLower)) ∧
      Kimi.formatDurationLabel 5 "TIME_UNIT_MINUTES" =
        toString (5 : ℤ) ++ "-" ++ String.mk (capitalize singular) ++ " Rate Limit" :=
  ⟨by decide, (formatDurationLabel_spec 5 "TIME_UNIT_MINUTES" (by decide)).1⟩

/-! ## The Claude adapter -/

namespace Claude

/-- C10: for every Claude usage payload the adapter succeeds, and the windows
it returns are, in the fixed order 5-Hour, 7-Day, 7-Day Sonnet, 7-Day Opus,
7-Day OAuth Apps, Iguana Necktie, one window per named window present in the
payload, each with the payload window's utilization and reset time unchanged;
the labels are the sub-list of the six labels for the present windows, and an
absent named window is omitted without an error. -/
theorem getUsage_named_windows (usage : UsageResponse) :
    ∃ u : Usage, GetUsage (.ok usage) = .ok u ∧ u.Provider = "claude" ∧ u.Error = none ∧
      u.Windows =
        (namedWindows usage).filterMap (fun nw => nw.2.map (toProviderWindow nw.1)) ∧
      u.Windows.map (·.Label) =
        ((namedWindows usage).filter (fun nw => nw.2.isSome)).map (·.1) ∧
      (u.Windows.map (·.Label)).Sublist
        ["5-Hour", "7-Day", "7-Day Sonnet", "7-Day Opus", "7-Day OAuth Apps", "Iguana Necktie"] ∧
      u.Windows.length = ((namedWindows usage).filter (fun nw => nw.2.isSome)).length := by
  have hw : ∀ (ws : List LlmUsage.UsageWindow) (label : String) (w : Option UsageWindow),
      appendNamed ws label w = ws ++ (w.map (toProviderWindow label)).toList := by
    intro ws label w
    cases w <;> simp [appendNamed, toProviderWindow]
  have hlabels : ((namedWindows usage).filterMap
        (fun nw => nw.2.map (toProviderWindow nw.1))).map (·.Label) =
      ((namedWindows usage).filter (fun nw => nw.2.isSome)).map (·.1) := by
    obtain ⟨a, b, c, d, e, f, x⟩ := usage
    cases a <;> cases b <;> cases c <;> cases d <;> cases e <;> cases f <;>
      simp [namedWindows, toProviderWindow]
  have hwin : GetUsage (.ok usage) =
      .ok { Provider := "claude",
            Windows := (namedWindows usage).filterMap
              (fun nw => nw.2.map (toProviderWindow nw.1)),
            Extra := extraOf usage.ExtraUsage, Error := none } := by
    obtain ⟨a, b, c, d, e, f, x⟩ := usage
    simp only [GetUsage, hw, namedWindows]
    cases a <;> cases b <;> cases c <;> cases d <;> cases e <;> cases f <;> simp
  refine ⟨_, hwin, rfl, rfl, rfl, hlabels, ?_, ?_⟩
  · show (((namedWindows usage).filterMap
        (fun nw => nw.2.map (toProviderWindow nw.1))).map (·.Label)).Sublist _
    rw [hlabels]
    exact (List.filter_sublist _).map _
  · show ((namedWindows usage).filterMap
        (fun nw => nw.2.map (toProviderWindow nw.1))).length = _
    rw [← List.length_map _ (·.Label), hlabels, List.length_map]

end Claude

/-! ## Extra usage of the Claude adapter -/

namespace Claude

/-- C11: for every Claude usage payload, the `Extra` map returned by the
adapter has the key "extra_usage" exactly when the payload has an extra-usage
record whose `IsEnabled` flag is true (the value then carries the record's
four fields); when the record is absent or disabled `Extra` is empty, and
`Extra` never holds another key. -/
theorem getUsage_extra_gated (usage : UsageResponse) :
    ∃ u : Usage, GetUsage (.ok usage) = .ok u ∧
      ((u.Extra.lookup "extra_usage").isSome = true ↔
        ∃ x, usage.ExtraUsage = some x ∧ x.IsEnabled = true) ∧
      (∀ kv ∈ u.Extra, kv.1 = "extra_usage") ∧
      (usage.ExtraUsage = none → u.Extra = []) ∧
      (∀ x, usage.ExtraUsage = some x → x.IsEnabled = false → u.Extra = []) ∧
      (∀ x, usage.ExtraUsage = some x → x.IsEnabled = true →
        u.Extra = [("extra_usage", AnyValue.record
          [("is_enabled", Scalar.bool true),
           ("monthly_limit", Scalar.floatPtr x.MonthlyLimit),
           ("used_credits", Scalar.floatPtr x.UsedCredits),
           ("utilization", Scalar.floatPtr x.Utilization)])]) := by
  refine ⟨_, rfl, ?_, ?_, ?_, ?_, ?_⟩
  · show ((extraOf usage.ExtraUsage).lookup "extra_usage").isSome = true ↔ _
    cases h : usage.ExtraUsage with
    | none => simp [extraOf]
    | some x =>
      cases hx : x.IsEnabled <;> simp [extraOf, hx, List.lookup]
  · show ∀ kv ∈ extraOf usage.ExtraUsage, kv.1 = "extra_usage"
    cases h : usage.ExtraUsage with
    | none => simp [extraOf]
    | some x =>
      cases hx : x.IsEnabled <;> simp [extraOf, hx]
  · intro h
    show extraOf usage.ExtraUsage = []
    rw [h]; rfl
  · intro x h hx
    show extraOf usage.ExtraUsage = []
    rw [h]; simp [extraOf, hx]
  · intro x h hx
    show extraOf usage.ExtraUsage = _
    rw [h]; simp [extraOf, hx]

end Claude

/-! ## Reset time of the Kimi windows -/

namespace Kimi

/-- C12: for every Kimi usage detail with parseable limit and used, the window
is produced, with `ResetsAt` absent when the reset-time text is empty or does
not parse as an RFC 3339 timestamp, and equal to the parsed instant otherwise;
this holds for `parseScopeWindow` and for `parseLimitWindow`. -/
theorem resetsAt_of_reset_time (parseFloat : String → Option Float64)
    (parseTime : String → Option Time) :
    (∀ (item : UsageItem) (L U : Float64),
      parseFloat item.Detail.Limit = some L → parseFloat item.Detail.Used = some U →
      ∃ w, parseScopeWindow parseFloat parseTime item = some w ∧
        (item.Detail.ResetTime = "" → w.ResetsAt = none) ∧
        (parseTime item.Detail.ResetTime = none → w.ResetsAt = none) ∧
        (∀ t, item.Detail.ResetTime ≠ "" → parseTime item.Detail.ResetTime = some t →
          w.ResetsAt = some t)) ∧
    (∀ (scope : String) (limit : LimitItem) (L U : Float64),
      parseFloat limit.Detail.Limit = some L → parseFloat limit.Detail.Used = some U →
      ∃ w, parseLimitWindow parseFloat parseTime scope limit = some w ∧
        (limit.Detail.ResetTime = "" → w.ResetsAt = none) ∧
        (parseTime limit.Detail.ResetTime = none → w.ResetsAt = none) ∧
        (∀ t, limit.Detail.ResetTime ≠ "" → parseTime limit.Detail.ResetTime = some t →
          w.ResetsAt = some t)) := by
  constructor
  · intro item L U hL hU
    refine ⟨_, by simp only [parseScopeWindow, hL, hU]; rfl, ?_, ?_, ?_⟩
    · intro h; simp [h]
    · intro h; simp [h]
    · intro t hne h; simp [hne, h]
  · intro scope limit L U hL hU
    refine ⟨_, by simp only [parseLimitWindow, hL, hU]; rfl, ?_, ?_, ?_⟩
    · intro h; simp [h]
    · intro h; simp [h]
    · intro t hne h; simp [hne, h]

/-- C12 (witness): a detail with limit "100", used "42" and a reset time that
does not parse: the window is there, without a reset time. -/
theorem resetsAt_of_reset_time_witness :
    ∃ w, parseScopeWindow parseDigits parseOneTime (timedItem "tomorrow") = some w ∧
      ((timedItem "tomorrow").Detail.ResetTime = "" → w.ResetsAt = none) ∧
      (parseOneTime (timedItem "tomorrow").Detail.ResetTime = none → w.ResetsAt = none) ∧
      (∀ t, (timedItem "tomorrow").Detail.ResetTime ≠ "" →
        parseOneTime (timedItem "tomorrow").Detail.ResetTime = some t → w.ResetsAt = some t) :=
  (resetsAt_of_reset_time parseDigits parseOneTime).1 (timedItem "tomorrow")
    (Float64.fin 100) (Float64.fin 42) (by decide!) (by decide!)

end Kimi

/-! ## Entries for failed providers -/

/-- C13: for every provider id, display name and underlying error `e`,
`NewUsageError` returns an entry whose `Provider` is the id, whose `Windows`
and `Extra` are empty, and whose `Error` wraps `e` (unwrapping gives `e` back)
with the message "<display name>: <message of e>". -/
theorem newUsageError_wraps (providerID providerName : String) (e : GoError) :
    (NewUsageError providerID providerName e).Provider = providerID ∧
    (NewUsageError providerID providerName e).Windows = [] ∧
    (NewUsageError providerID providerName e).Extra = [] ∧
    ∃ err, (NewUsageError providerID providerName e).Error = some err ∧
      err.Unwrap = some e ∧ err.Error = providerName ++ ": " ++ e.Error :=
  ⟨rfl, rfl, rfl, _, rfl, rfl, rfl⟩

/-- C14 (counterexample): a fetch error whose message is "not configured"
gives the entry built by `NewUsageError` the same error text as the entry built
by `NewUsageNotConfigured`. -/
theorem notConfigured_text_collides :
    errorText (NewUsageNotConfigured "kimi" "Kimi") =
      errorText (NewUsageError "kimi" "Kimi" (GoError.leaf "not configured")) := by
  decide

/-- C14 (amended): for every provider id, display name and fetch error `e`,
the error text of the `NewUsageNotConfigured` entry equals the error text of
the `NewUsageError` entry exactly when the message of `e` is "not configured";
for every other message the two texts differ. -/
theorem notConfigured_text_distinct_iff (providerID providerName : String) (e : GoError) :
    errorText (NewUsageNotConfigured providerID providerName) =
        errorText (NewUsageError providerID providerName e) ↔
      e.Error = "not configured" := by
  have hcancel : ∀ a b c : String, a ++ b = a ++ c ↔ b = c := by
    intro a b c
    constructor
    · intro h
      have h2 := congrArg String.data h
      simp only [String.data_append] at h2
      exact String.ext (List.append_cancel_left h2)
    · intro h; rw [h]
  have hlit : (": not configured" : String) = ": " ++ "not configured" := by decide
  have htext : errorText (NewUsageNotConfigured providerID providerName) =
      some (providerName ++ (": " ++ "not configured")) := by
    rw [← hlit]; rfl
  have htext2 : errorText (NewUsageError providerID providerName e) =
      some (providerName ++ (": " ++ e.Error)) := by
    show some (providerName ++ ": " ++ e.Error) = _
    rw [String.append_assoc]
  rw [htext, htext2, Option.some.injEq, hcancel, hcancel]
  exact eq_comm

/-- C14 (witness): a timeout is told apart from "not configured". -/
theorem notConfigured_text_distinct_iff_witness :
    errorText (NewUsageNotConfigured "kimi" "Kimi") ≠
      errorText (NewUsageError "kimi" "Kimi" (GoError.leaf "timeout")) :=
  fun h => absurd ((notConfigured_text_distinct_iff "kimi" "Kimi" (GoError.leaf "timeout")).mp h)
    (by decide)

/-! ## Time until reset -/

theorem maxDuration_eq : maxDuration = (9223372036854775807 : ℤ) := by decide

theorem minDuration_eq : minDuration = (-9223372036854775808 : ℤ) := by decide
/-- The limited value has the sign of the integer, equals it inside the range
and is the nearest bound outside. -/
theorem saturate_spec (x : ℤ) :
    (saturate x < 0 ↔ x < 0) ∧ (0 < saturate x ↔ 0 < x) ∧
    (-9223372036854775808 ≤ x → x ≤ 9223372036854775807 → saturate x = x) ∧
    -9223372036854775808 ≤ saturate x ∧ saturate x ≤ 9223372036854775807 ∧
    (9223372036854775807 < x → saturate x = 9223372036854775807) ∧
    (x < -9223372036854775808 → saturate x = -9223372036854775808) := by
  unfold saturate
  refine ⟨?_, ?_, ?_, ?_, ?_, ?_, ?_⟩ <;> split_ifs <;> omega
/-- The sign of `t.Sub(u)` is the sign of `t - u`; the value is `t - u` when
that fits in a `Duration` and the nearest bound otherwise. -/
theorem Time.Sub_spec (t u : Time) :
    (Time.Sub t u < 0 ↔ t < u) ∧ (0 < Time.Sub t u ↔ u < t) ∧
    (minDuration ≤ t - u → t - u ≤ maxDuration → Time.Sub t u = t - u) ∧
    minDuration ≤ Time.Sub t u ∧ Time.Sub t u ≤ maxDuration ∧
    (maxDuration < t - u → Time.Sub t u = maxDuration) ∧
    (t - u < minDuration → Time.Sub t u = minDuration) := by
  obtain ⟨h1, h2, h3, h4, h5, h6, h7⟩ := saturate_spec (t - u)
  rw [maxDuration_eq, minDuration_eq]
  refine ⟨h1.trans ?_, h2.trans ?_, h3, h4, h5, h6, h7⟩
  · exact sub_neg
  · exact sub_pos

theorem FormatDuration_of_neg (d : Duration) (h : d < 0) : FormatDuration d = "expired" := by
  unfold FormatDuration
  simp [h]

/-- C15 (counterexample): read on 2026-11-04, a window that resets at
9999-12-31T23:59:59Z is more than the largest `Duration` away, and
`TimeUntilReset` returns that largest duration instead of `ResetsAt - now`. -/
theorem timeUntilReset_not_difference_when_far :
    UsageWindow.TimeUntilReset 1793750400000000000
        (some (resettingWindow 253402300799000000000)) = some maxDuration ∧
    UsageWindow.TimeUntilReset 1793750400000000000
        (some (resettingWindow 253402300799000000000)) ≠
      some (253402300799000000000 - 1793750400000000000) := by
  decide

/-- C15 (amended): for every window and current time, `TimeUntilReset` is
absent when the window is nil or `ResetsAt` is absent, and otherwise is
`ResetsAt - now` limited to the range of a `Duration`: exactly `ResetsAt - now`
when that difference fits, the largest or smallest duration otherwise.  It is
negative exactly when `ResetsAt` is earlier than `now`, and `FormatDuration` of
it is then "expired"; so it is for a reset one hour in the past. -/
theorem timeUntilReset_spec (now : Time) (w : UsageWindow) :
    UsageWindow.TimeUntilReset now none = none ∧
    (w.ResetsAt = none → UsageWindow.TimeUntilReset now (some w) = none) ∧
    (∀ t, w.ResetsAt = some t →
      ∃ d, UsageWindow.TimeUntilReset now (some w) = some d ∧
        minDuration ≤ d ∧ d ≤ maxDuration ∧
        (minDuration ≤ t - now → t - now ≤ maxDuration → d = t - now) ∧
        (maxDuration < t - now → d = maxDuration) ∧
        (t - now < minDuration → d = minDuration) ∧
        (d < 0 ↔ t < now) ∧
        (t < now → FormatDuration d = "expired")) ∧
    (∃ d, UsageWindow.TimeUntilReset now (some (resettingWindow (now - Hour))) = some d ∧
      d = -Hour ∧ FormatDuration d = "expired") := by
  refine ⟨rfl, ?_, ?_, ?_⟩
  · intro h
    simp [UsageWindow.TimeUntilReset, h]
  · intro t h
    obtain ⟨h1, -, h3, h4, h5, h6, h7⟩ := Time.Sub_spec t now
    exact ⟨Time.Sub t now, by simp [UsageWindow.TimeUntilReset, h, Time.Until], h4, h5, h3,
      h6, h7, h1, fun hlt => FormatDuration_of_neg _ (h1.mpr hlt)⟩
  · have hd : Time.Sub (now - Hour) now = -Hour := by
      have hx : now - Hour - now = -Hour := sub_sub_cancel_left now Hour
      show saturate (now - Hour - now) = -Hour
      rw [hx]; decide
    have hneg : (-Hour : ℤ) < 0 := by decide
    refine ⟨-Hour, ?_, rfl, FormatDuration_of_neg _ hneg⟩
    simp [UsageWindow.TimeUntilReset, resettingWindow, Time.Until, hd]

/-- C15 (witness): read at the epoch plus two hours, a window that resets at
the epoch plus one hour. -/
theorem timeUntilReset_spec_witness :
    ∃ d, UsageWindow.TimeUntilReset 7200000000000 (some (resettingWindow 3600000000000)) =
        some d ∧
      minDuration ≤ d ∧ d ≤ maxDuration ∧
      (minDuration ≤ 3600000000000 - 7200000000000 →
        3600000000000 - 7200000000000 ≤ maxDuration → d = 3600000000000 - 7200000000000) ∧
      (maxDuration < 3600000000000 - 7200000000000 → d = maxDuration) ∧
      (3600000000000 - 7200000000000 < minDuration → d = minDuration) ∧
      (d < 0 ↔ (3600000000000 : Time) < 7200000000000) ∧
      ((3600000000000 : Time) < 7200000000000 → FormatDuration d = "expired") :=
  (timeUntilReset_spec 7200000000000 (resettingWindow 3600000000000)).2.2.1
    3600000000000 rfl

/-! ## Token expiry -/

/-- C19: for every expiry `e` in Unix milliseconds and every current time,
`IsExpired` is true exactly when the current time is strictly later than `e`,
and that is exactly when `ExpiresIn` is negative; a future expiry is not
expired and has a positive `ExpiresIn`, a past expiry is expired and has a
negative `ExpiresIn`.  This holds for the methods of `OAuthCredentials` and for
the functions of the Claude package. -/
theorem isExpired_iff_expiresIn_neg (now : Time) (o : Loader.OAuthCredentials) :
    (o.IsExpired now = true ↔ Time.UnixMilli o.ExpiresAt < now) ∧
    (o.IsExpired now = true ↔ o.ExpiresIn now < 0) ∧
    (now < Time.UnixMilli o.ExpiresAt → o.IsExpired now = false ∧ 0 < o.ExpiresIn now) ∧
    (Time.UnixMilli o.ExpiresAt < now → o.IsExpired now = true ∧ o.ExpiresIn now < 0) ∧
    (Claude.IsExpired now o.ExpiresAt = true ↔ Time.UnixMilli o.ExpiresAt < now) ∧
    (Claude.IsExpired now o.ExpiresAt = true ↔ Claude.ExpiresIn now o.ExpiresAt < 0) ∧
    (now < Time.UnixMilli o.ExpiresAt →
      Claude.IsExpired now o.ExpiresAt = false ∧ 0 < Claude.ExpiresIn now o.ExpiresAt) ∧
    (Time.UnixMilli o.ExpiresAt < now →
      Claude.IsExpired now o.ExpiresAt = true ∧ Claude.ExpiresIn now o.ExpiresAt < 0) := by
  obtain ⟨h1, h2, -⟩ := Time.Sub_spec (Time.UnixMilli o.ExpiresAt) now
  have hA : Time.After now (Time.UnixMilli o.ExpiresAt) = true ↔
      Time.UnixMilli o.ExpiresAt < now := by
    simp [Time.After]
  have hF : now < Time.UnixMilli o.ExpiresAt →
      Time.After now (Time.UnixMilli o.ExpiresAt) = false := by
    intro h
    simp only [Time.After, decide_eq_false_iff_not, not_lt]
    exact le_of_lt h
  exact ⟨hA, hA.trans h1.symm, fun h => ⟨hF h, h2.mpr h⟩, fun h => ⟨hA.mpr h, h1.mpr h⟩,
    hA, hA.trans h1.symm, fun h => ⟨hF h, h2.mpr h⟩, fun h => ⟨hA.mpr h, h1.mpr h⟩⟩

/-- C19 (witness): an expiry one hour after the epoch, read one hour before it
is reached. -/
theorem isExpired_iff_expiresIn_neg_witness :
    Loader.OAuthCredentials.IsExpired 0
        { AccessToken := "t", RefreshToken := "r", ExpiresAt := 3600000, Scopes := [],
          RateLimitTier := "" } = false ∧
    0 < Loader.OAuthCredentials.ExpiresIn 0
        { AccessToken := "t", RefreshToken := "r", ExpiresAt := 3600000, Scopes := [],
          RateLimitTier := "" } :=
  (isExpired_iff_expiresIn_neg 0
    { AccessToken := "t", RefreshToken := "r", ExpiresAt := 3600000, Scopes := [],
      RateLimitTier := "" }).2.2.1 (by decide)

/-! ## The Z.AI adapter -/

/-- C17: for every API key, `GetUsage` of the Z.AI adapter returns no usage
and an error; the error is the same for every key, and its message starts with
the provider name "Z.AI" followed by " provider not yet implemented". -/
theorem zai_getUsage_not_implemented (apiKey : String) :
    (∃ e, (Zai.NewProvider apiKey).GetUsage = .error e ∧
      e.Error = (Zai.NewProvider apiKey).Name ++
        " provider not yet implemented - API endpoint needs research, implementation pending" ∧
      (Zai.NewProvider apiKey).Name = "Z.AI") ∧
    (∀ otherKey : String,
      (Zai.NewProvider otherKey).GetUsage = (Zai.NewProvider apiKey).GetUsage) ∧
    (∀ u, (Zai.NewProvider apiKey).GetUsage ≠ .ok u) := by
  refine ⟨⟨_, rfl, ?_, rfl⟩, fun _ => rfl, ?_⟩
  · show _ = ("Z.AI" : String) ++ _
    decide
  intro u h
  simp [Zai.Provider.GetUsage] at h

/-! ## The label of a singular time unit -/

/-- C20 (the code at the claimed input): for duration 5 and time unit
"TIME_UNIT_MINUTE", `formatDurationLabel` returns "5-Minute Rate Limit", which
is not the label "5-Min Rate Limit" announced by the comment in the source. -/
theorem formatDurationLabel_minute_not_min :
    Kimi.formatDurationLabel 5 "TIME_UNIT_MINUTE" = "5-Minute Rate Limit" ∧
    Kimi.formatDurationLabel 5 "TIME_UNIT_MINUTE" ≠ "5-Min Rate Limit" := by
  decide

/-! ## The waybar renderer -/

theorem providerShortName_eq_none (id : String) : providerShortName id = none ↔ id = "" := by
  constructor
  · intro h
    unfold providerShortName at h
    split_ifs at h
    cases hd : Strings.ToUpper id.data with
    | nil =>
      have : id.data = [] := by simpa [Strings.ToUpper] using hd
      exact String.ext this
    | cons c cs => rw [hd] at h; simp at h
  · rintro rfl
    decide

theorem waybarTextParts_isSome (v : Verbs) (ps : List Usage) :
    ∀ parts : List String, (waybarTextParts v parts ps).isSome = true ↔
      ∀ p ∈ ps, p.Error = none → p.Provider ≠ "" := by
  induction ps with
  | nil => intro parts; simp [waybarTextParts]
  | cons p ps ih =>
    intro parts
    unfold waybarTextParts
    cases hE : p.Error with
    | some e => simp [ih, hE]
    | none =>
      simp only [Option.isSome_none, Bool.false_eq_true, if_false]
      cases hn : providerShortName p.Provider with
      | none =>
        have hid := (providerShortName_eq_none p.Provider).mp hn
        simp [hE, hid]
      | some label =>
        have hid : p.Provider ≠ "" := by
          intro h
          rw [(providerShortName_eq_none p.Provider).mpr h] at hn
          exact absurd hn (by simp)
        cases hw : p.Windows with
        | nil => simp [ih, hE, hid]
        | cons w ws => simp [ih, hE, hid]

theorem waybarTextParts_skip (v : Verbs) (p : Usage) (after : List Usage)
    (hE : p.Error = none) (hW : p.Windows = []) (hid : p.Provider ≠ "") :
    ∀ (before : List Usage) (parts : List String),
      waybarTextParts v parts (before ++ p :: after) =
        waybarTextParts v parts (before ++ after) := by
  intro before
  induction before with
  | nil =>
    intro parts
    obtain ⟨label, hl⟩ : ∃ label, providerShortName p.Provider = some label := by
      cases hn : providerShortName p.Provider with
      | none => exact absurd ((providerShortName_eq_none p.Provider).mp hn) hid
      | some label => exact ⟨label, rfl⟩
    simp only [List.nil_append]
    rw [waybarTextParts]
    simp [hE, hW, hl]
  | cons q before ih =>
    intro parts
    simp only [List.cons_append]
    rw [waybarTextParts, waybarTextParts]
    split_ifs
    · exact ih parts
    · cases providerShortName q.Provider with
      | none => rfl
      | some label =>
        cases q.Windows[0]? with
        | none => rfl
        | some w => exact ih _
    · cases providerShortName q.Provider with
      | none => rfl
      | some label => exact ih parts

/-- C16 (the code at the failing input): for every choice of the formatting
verbs and of the current time, rendering stats that hold one provider with an
empty identifier and no error, windows or extra data ends in a run-time panic
(the index 0 of the empty upper-cased identifier).  The renderer completes
exactly when no error-free provider has an empty identifier, and then a
provider without error and windows adds nothing to the compact text. -/
theorem outputWaybar_empty_id_panics (v : Verbs) (now : Time) :
    OutputWaybar v now ⟨[okUsage "" []]⟩ = none ∧
    (∀ stats : UsageStats, (OutputWaybar v now stats).isSome = true ↔
      ∀ p ∈ stats.Providers, p.Error = none → p.Provider ≠ "") ∧
    (∀ (before after : List Usage) (p : Usage) (parts : List String),
      p.Error = none → p.Windows = [] → p.Provider ≠ "" →
      waybarTextParts v parts (before ++ p :: after) =
        waybarTextParts v parts (before ++ after)) := by
  refine ⟨?_, ?_, ?_⟩
  · have h : waybarTextParts v [] [okUsage "" []] = none := by
      rw [waybarTextParts]
      simp [okUsage, (providerShortName_eq_none "").mpr rfl]
    simp [OutputWaybar, h]
  · intro stats
    rw [← waybarTextParts_isSome v stats.Providers []]
    unfold OutputWaybar
    cases waybarTextParts v [] stats.Providers <;> simp
  · intro before after p parts hE hW hid
    exact waybarTextParts_skip v p after hE hW hid before parts

/-! ## Credentials -/

namespace Loader

/-- C18 (counterexample): a document that is valid JSON, contains a
`claudeAiOauth` object and has a non-empty `accessToken` in it, but writes the
expiry as a string, is rejected by `parseCredentials`. -/
theorem parseCredentials_rejects_wrong_type :
    MeetsClaimedConditions stringExpiryDocument ∧
    ∃ e, parseCredentials jsonUnmarshal stringExpiryDocument = .error e :=
  ⟨⟨_, _, _, rfl, rfl, rfl, by decide⟩, _, rfl⟩

/-- C18 (amended): `parseCredentials` succeeds exactly when `json.Unmarshal`
decodes the data into a `Credentials` value without error, the decoded
`claudeAiOauth` is present and its `accessToken` is non-empty; it then returns
the decoded value, tokens included.  A decoding error, a missing
`claudeAiOauth` and an empty access token each give an error and no
credentials, and `LoadFromPath` on a readable file is `parseCredentials` of its
content.  On the documents of the tests: the valid file gives the tokens
"test-token" and "test-refresh"; invalid JSON, `{}` and an empty access token
give an error. -/
theorem parseCredentials_spec {Data : Type} (unmarshal : Data → Except GoError Credentials)
    (data : Data) :
    (∀ creds, parseCredentials unmarshal data = .ok creds ↔
      (unmarshal data = .ok creds ∧ ∃ o, creds.ClaudeAiOauth = some o ∧ o.AccessToken ≠ "")) ∧
    (∀ e, unmarshal data = .error e →
      parseCredentials unmarshal data = .error (errorfWrap "failed to parse credentials" e)) ∧
    (unmarshal data = .ok { ClaudeAiOauth := none } →
      ∃ e, parseCredentials unmarshal data = .error e) ∧
    (∀ o, unmarshal data = .ok { ClaudeAiOauth := some o } → o.AccessToken = "" →
      ∃ e, parseCredentials unmarshal data = .error e) ∧
    (∀ (clean : String → String) (readFile : String → Except GoError Data)
        (isNotExist : GoError → Bool) (path : String),
      (readFile (clean path) = .ok data →
        LoadFromPath clean readFile isNotExist unmarshal path =
          parseCredentials unmarshal data) ∧
      (∀ err, readFile (clean path) = .error err →
        ∃ e, LoadFromPath clean readFile isNotExist unmarshal path = .error e)) ∧
    (∃ o, parseCredentials jsonUnmarshal validDocument = .ok { ClaudeAiOauth := some o } ∧
      o.AccessToken = "test-token" ∧ o.RefreshToken = "test-refresh") ∧
    (∃ e, parseCredentials jsonUnmarshal none = .error e) ∧
    (∃ e, parseCredentials jsonUnmarshal (some (.obj [])) = .error e) ∧
    (∃ e, parseCredentials jsonUnmarshal emptyTokenDocument = .error e) := by
  refine ⟨?_, ?_, ?_, ?_, ?_, ⟨_, rfl, rfl, rfl⟩, ⟨_, rfl⟩, ⟨_, rfl⟩, ⟨_, rfl⟩⟩
  · intro creds
    unfold parseCredentials
    cases hu : unmarshal data with
    | error e => simp
    | ok c =>
      obtain ⟨oa⟩ := c
      cases oa with
      | none =>
        simp only [Except.ok.injEq]
        constructor
        · intro h; cases h
        · rintro ⟨rfl, o2, ho2, -⟩
          exact absurd ho2 (by simp)
      | some o =>
        by_cases ht : o.AccessToken = ""
        · simp only [ht, if_true, Except.ok.injEq]
          constructor
          · intro h; cases h
          · rintro ⟨rfl, o2, ho2, hne⟩
            simp only [Option.some.injEq] at ho2
            subst ho2
            exact absurd ht hne
        · simp only [ht, if_false, Except.ok.injEq]
          constructor
          · rintro rfl
            exact ⟨rfl, o, rfl, ht⟩
          · rintro ⟨rfl, -⟩
            rfl
  · intro e he
    simp [parseCredentials, he]
  · intro h
    exact ⟨_, by simp [parseCredentials, h]; rfl⟩
  · intro o h ht
    exact ⟨_, by simp [parseCredentials, h, ht]; rfl⟩
  · intro clean readFile isNotExist path
    constructor
    · intro h
      simp [LoadFromPath, h]
    · intro err h
      by_cases hne : isNotExist err = true
      · exact ⟨_, by simp [LoadFromPath, h, hne]; rfl⟩
      · exact ⟨_, by simp [LoadFromPath, h, hne]; rfl⟩

/-- C18 (witness): the valid credentials file of the tests is accepted. -/
theorem parseCredentials_spec_witness :
    parseCredentials jsonUnmarshal validDocument = .ok validCredentials :=
  ((parseCredentials_spec jsonUnmarshal validDocument).1 validCredentials).mpr
    ⟨rfl, _, rfl, by decide⟩

end Loader

/-! ## Properties of float64 rounding -/

namespace Float64

theorem log2Nat_spec : ∀ fuel n : ℕ, 0 < n → n ≤ fuel →
    2 ^ log2Nat fuel n ≤ n ∧ n < 2 ^ (log2Nat fuel n + 1) := by
  intro fuel
  induction fuel with
  | zero => intro n h1 h2; omega
  | succ fuel ih =>
    intro n h1 h2
    unfold log2Nat
    by_cases h : n < 2
    · have : n = 1 := by omega
      subst this
      simp
    · simp only [h, if_false]
      obtain ⟨a, b⟩ := ih (n / 2) (by omega) (by omega)
      rw [pow_succ, pow_succ]
      constructor <;> omega

theorem log2Floor_spec (n d : ℕ) (hn : 0 < n) (hd : 0 < d) :
    (2 : ℚ) ^ log2Floor n d ≤ (n : ℚ) / d ∧ (n : ℚ) / d < (2 : ℚ) ^ (log2Floor n d + 1) := by
  obtain ⟨a1, a2⟩ := log2Nat_spec n n hn le_rfl
  obtain ⟨b1, b2⟩ := log2Nat_spec d d hd le_rfl
  have hdq : (0 : ℚ) < d := by exact_mod_cast hd
  have a1q : (2 : ℚ) ^ log2Nat n n ≤ n := by exact_mod_cast a1
  have a2q : (n : ℚ) < 2 ^ (log2Nat n n + 1) := by exact_mod_cast a2
  have b1q : (2 : ℚ) ^ log2Nat d d ≤ d := by exact_mod_cast b1
  have b2q : (d : ℚ) < 2 ^ (log2Nat d d + 1) := by exact_mod_cast b2
  have hpa : (0 : ℚ) < 2 ^ log2Nat n n := by positivity
  have hpb : (0 : ℚ) < 2 ^ log2Nat d d := by positivity
  have e1 : (2 : ℚ) ^ ((log2Nat n n : ℤ) - (log2Nat d d : ℤ)) =
      2 ^ log2Nat n n / 2 ^ log2Nat d d := by
    rw [zpow_sub₀ (by norm_num), zpow_natCast, zpow_natCast]
  unfold log2Floor
  simp only
  by_cases h : d * 2 ^ log2Nat n n ≤ n * 2 ^ log2Nat d d
  · have hq : (d : ℚ) * 2 ^ log2Nat n n ≤ n * 2 ^ log2Nat d d := by exact_mod_cast h
    simp only [h, if_true]
    constructor
    · rw [e1, div_le_div_iff hpb hdq]
      linarith
    · rw [zpow_add_one₀ (by norm_num), e1, div_lt_iff hdq]
      rw [pow_succ] at a2q
      have : (n : ℚ) * 2 ^ log2Nat d d < 2 ^ log2Nat n n * 2 * d := by
        calc (n : ℚ) * 2 ^ log2Nat d d < 2 ^ log2Nat n n * 2 * 2 ^ log2Nat d d :=
              mul_lt_mul_of_pos_right a2q hpb
          _ ≤ 2 ^ log2Nat n n * 2 * d := by
              apply mul_le_mul_of_nonneg_left b1q; positivity
      have h3 : 2 ^ log2Nat n n / 2 ^ log2Nat d d * 2 * (d : ℚ) =
          (2 ^ log2Nat n n * 2 * d) / 2 ^ log2Nat d d := by field_simp
      rw [h3, lt_div_iff hpb]
      exact this
  · have hq : (n : ℚ) * 2 ^ log2Nat d d < d * 2 ^ log2Nat n n := by
      have := Nat.lt_of_not_le h
      exact_mod_cast this
    simp only [h, if_false]
    have e2 : (2 : ℚ) ^ ((log2Nat n n : ℤ) - (log2Nat d d : ℤ) - 1 + 1) =
        2 ^ log2Nat n n / 2 ^ log2Nat d d := by
      rw [sub_add_cancel, e1]
    have e3 : (2 : ℚ) ^ ((log2Nat n n : ℤ) - (log2Nat d d : ℤ) - 1) =
        2 ^ log2Nat n n / 2 ^ log2Nat d d / 2 := by
      rw [zpow_sub_one₀ (by norm_num), e1]; rfl
    constructor
    · rw [e3, div_div, div_le_div_iff (by positivity) hdq]
      rw [pow_succ] at b2q
      have : (d : ℚ) * 2 ^ log2Nat n n ≤ 2 ^ log2Nat d d * 2 * n := by
        calc (d : ℚ) * 2 ^ log2Nat n n ≤ 2 ^ log2Nat d d * 2 * 2 ^ log2Nat n n := by
              apply mul_le_mul_of_nonneg_right (le_of_lt b2q); positivity
          _ ≤ 2 ^ log2Nat d d * 2 * n := by
              apply mul_le_mul_of_nonneg_left a1q; positivity
      linarith
    · rw [e2, div_lt_div_iff hdq hpb]
      linarith


theorem roundQ_mono {x y : ℚ} (h : x ≤ y) : roundQ x ≤ roundQ y := by
  have hf : ⌊x⌋ ≤ ⌊y⌋ := Int.floor_mono h
  have hx1 : (⌊x⌋ : ℚ) ≤ x := Int.floor_le x
  have hy1 : (⌊y⌋ : ℚ) ≤ y := Int.floor_le y
  have hx2 : x < ⌊x⌋ + 1 := Int.lt_floor_add_one x
  have hy2 : y < ⌊y⌋ + 1 := Int.lt_floor_add_one y
  rcases lt_or_eq_of_le hf with hlt | heq
  · have : roundQ x ≤ ⌊x⌋ + 1 := by unfold roundQ; split_ifs <;> omega
    have : ⌊y⌋ ≤ roundQ y := by unfold roundQ; split_ifs <;> omega
    omega
  · unfold roundQ
    rw [← heq] at hy1 hy2 ⊢
    split_ifs <;> first | omega | (exfalso; linarith)

theorem roundQ_intCast (k : ℤ) : roundQ (k : ℚ) = k := by
  unfold roundQ
  simp

theorem roundQ_nonneg {x : ℚ} (h : 0 ≤ x) : 0 ≤ roundQ x := by
  have := roundQ_mono h
  rwa [show (0 : ℚ) = ((0 : ℤ) : ℚ) by simp, roundQ_intCast] at this

theorem roundHalfEven_eq (n d : ℕ) (hd : 0 < d) :
    (roundHalfEven n d : ℤ) = roundQ ((n : ℚ) / d) := by
  have hdq : (0 : ℚ) < d := by exact_mod_cast hd
  have hfl : ⌊(n : ℚ) / d⌋ = ((n / d : ℕ) : ℤ) := by
    rw [Rat.floor_natCast_div_natCast]; simp
  have hfrac : (n : ℚ) / d - ((n / d : ℕ) : ℤ) = ((n % d : ℕ) : ℚ) / d := by
    have h := Nat.div_add_mod n d
    have hq : (d : ℚ) * ((n / d : ℕ) : ℚ) + ((n % d : ℕ) : ℚ) = n := by exact_mod_cast h
    rw [Int.cast_natCast, eq_div_iff hdq.ne', sub_mul, div_mul_cancel₀ _ hdq.ne']
    linarith
  have c1 : ((n % d : ℕ) : ℚ) / d < 1 / 2 ↔ 2 * (n % d) < d := by
    rw [div_lt_div_iff hdq (by norm_num)]
    constructor
    · intro h; have : ((2 * (n % d) : ℕ) : ℚ) < d := by push_cast; linarith
      exact_mod_cast this
    · intro h; have : ((2 * (n % d) : ℕ) : ℚ) < d := by exact_mod_cast h
      push_cast at this; linarith
  have c2 : (1 : ℚ) / 2 < ((n % d : ℕ) : ℚ) / d ↔ d < 2 * (n % d) := by
    rw [div_lt_div_iff (by norm_num) hdq]
    constructor
    · intro h; have : (d : ℚ) < ((2 * (n % d) : ℕ) : ℚ) := by push_cast; linarith
      exact_mod_cast this
    · intro h; have : (d : ℚ) < ((2 * (n % d) : ℕ) : ℚ) := by exact_mod_cast h
      push_cast at this; linarith
  have c3 : ((n / d : ℕ) : ℤ) % 2 = 0 ↔ (n / d) % 2 = 0 := by omega
  unfold roundQ roundHalfEven
  simp only [hfl, hfrac, c1, c2, c3]
  split_ifs <;> simp

end Float64
namespace Float64

theorem significand_eq (n d : ℕ) (hd : 0 < d) :
    ((roundSignificand n d).1 : ℤ) = roundQ ((n : ℚ) / d / (2 : ℚ) ^ ulpExp n d) ∧
    (roundSignificand n d).2 = ulpExp n d := by
  refine ⟨?_, rfl⟩
  have hdq : (d : ℚ) ≠ 0 := by exact_mod_cast hd.ne'
  unfold roundSignificand
  simp only
  by_cases he : 0 ≤ ulpExp n d
  · simp only [he, if_true]
    rw [roundHalfEven_eq n _ (by positivity)]
    congr 1
    have : (2 : ℚ) ^ ulpExp n d = (2 : ℚ) ^ (ulpExp n d).toNat := by
      rw [← zpow_natCast, Int.toNat_of_nonneg he]
    rw [this]
    push_cast
    rw [div_div]
  · simp only [he, if_false]
    rw [roundHalfEven_eq _ d hd]
    congr 1
    have hneg : 0 ≤ -ulpExp n d := by omega
    have : (2 : ℚ) ^ ulpExp n d = ((2 : ℚ) ^ (-ulpExp n d).toNat)⁻¹ := by
      rw [← zpow_natCast, Int.toNat_of_nonneg hneg, zpow_neg, inv_inv]
    rw [this]
    push_cast
    field_simp

theorem magnitude_eq (m : ℕ) (e : ℤ) :
    (if 0 ≤ e then mkRat ((m * 2 ^ e.toNat : ℕ) : ℤ) 1 else mkRat (m : ℤ) (2 ^ (-e).toNat)) =
      (m : ℚ) * (2 : ℚ) ^ e := by
  by_cases he : 0 ≤ e
  · simp only [he, if_true]
    have : (2 : ℚ) ^ e = (2 : ℚ) ^ e.toNat := by
      rw [← zpow_natCast, Int.toNat_of_nonneg he]
    rw [this, Rat.mkRat_eq_div]
    push_cast
    simp
  · simp only [he, if_false]
    have hneg : 0 ≤ -e := by omega
    have : (2 : ℚ) ^ e = ((2 : ℚ) ^ (-e).toNat)⁻¹ := by
      rw [← zpow_natCast, Int.toNat_of_nonneg hneg, zpow_neg, inv_inv]
    rw [this, Rat.mkRat_eq_div]
    push_cast
    rfl

theorem round_of_pos (q : ℚ) (hq : 0 < q) :
    round q = if (2 : ℚ) ^ 1024 ≤ magOf q then inf false else fin (magOf q) := by
  have hnum : 0 < q.num := Rat.num_pos.mpr hq
  have hn : ((q.num.natAbs : ℕ) : ℚ) / q.den = q := by
    have h1 : ((q.num.natAbs : ℕ) : ℤ) = q.num := Int.natAbs_of_nonneg hnum.le
    have h2 : ((q.num.natAbs : ℕ) : ℚ) = (q.num : ℚ) := by
      rw [← Int.cast_natCast, h1]
    rw [h2]
    exact Rat.num_div_den q
  obtain ⟨h1, h2⟩ := significand_eq q.num.natAbs q.den q.den_pos
  have hm : ((roundSignificand q.num.natAbs q.den).1 : ℚ) =
      (roundQ (q / (2 : ℚ) ^ expOf q) : ℚ) := by
    have := congrArg (fun z : ℤ => (z : ℚ)) h1
    simp only [Int.cast_natCast] at this
    rw [this, hn, expOf]
  have hmag : (if 0 ≤ (roundSignificand q.num.natAbs q.den).2 then
        mkRat (((roundSignificand q.num.natAbs q.den).1 *
          2 ^ (roundSignificand q.num.natAbs q.den).2.toNat : ℕ) : ℤ) 1
      else mkRat ((roundSignificand q.num.natAbs q.den).1 : ℤ)
        (2 ^ (-(roundSignificand q.num.natAbs q.den).2).toNat)) = magOf q := by
    rw [magnitude_eq, hm, h2, magOf, expOf]
  unfold round
  simp only [hq.ne', if_false, hmag, not_lt.mpr hq.le, decide_False]

end Float64

namespace Float64

theorem two_zpow_pos (e : ℤ) : (0 : ℚ) < (2 : ℚ) ^ e := zpow_pos_of_pos (by norm_num) e

/-- The binary logarithm computed for a positive rational brackets it. -/
theorem log2Floor_rat (q : ℚ) (hq : 0 < q) :
    (2 : ℚ) ^ log2Floor q.num.natAbs q.den ≤ q ∧
    q < (2 : ℚ) ^ (log2Floor q.num.natAbs q.den + 1) := by
  have hnum : 0 < q.num := Rat.num_pos.mpr hq
  have hn : ((q.num.natAbs : ℕ) : ℚ) / q.den = q := by
    have h1 : ((q.num.natAbs : ℕ) : ℤ) = q.num := Int.natAbs_of_nonneg hnum.le
    have h2 : ((q.num.natAbs : ℕ) : ℚ) = (q.num : ℚ) := by
      rw [← Int.cast_natCast, h1]
    rw [h2]
    exact Rat.num_div_den q
  have := log2Floor_spec q.num.natAbs q.den (by omega) q.den_pos
  rwa [hn] at this

theorem expOf_ge (q : ℚ) : -1074 ≤ expOf q := by
  unfold expOf ulpExp
  exact le_max_right _ _

theorem scaled_lt (q : ℚ) (hq : 0 < q) : q / (2 : ℚ) ^ expOf q < (2 : ℚ) ^ (53 : ℤ) := by
  obtain ⟨-, h2⟩ := log2Floor_rat q hq
  have he : log2Floor q.num.natAbs q.den - 52 ≤ expOf q := by
    unfold expOf ulpExp
    exact le_max_left _ _
  rw [div_lt_iff (two_zpow_pos _), ← zpow_add₀ (by norm_num)]
  calc q < (2 : ℚ) ^ (log2Floor q.num.natAbs q.den + 1) := h2
    _ ≤ (2 : ℚ) ^ (53 + expOf q) := zpow_le_of_le (by norm_num) (by omega)

theorem scaled_ge (q : ℚ) (hq : 0 < q) (he : -1074 < expOf q) :
    (2 : ℚ) ^ (52 : ℤ) ≤ q / (2 : ℚ) ^ expOf q := by
  obtain ⟨h1, -⟩ := log2Floor_rat q hq
  have hee : expOf q = log2Floor q.num.natAbs q.den - 52 := by
    unfold expOf ulpExp at he ⊢
    rcases max_cases (log2Floor q.num.natAbs q.den - 52) (-1074) with ⟨h, -⟩ | ⟨h, -⟩
    · exact h
    · rw [h] at he; omega
  rw [le_div_iff (two_zpow_pos _), ← zpow_add₀ (by norm_num)]
  calc (2 : ℚ) ^ (52 + expOf q) = (2 : ℚ) ^ log2Floor q.num.natAbs q.den := by
        rw [hee]; congr 1; omega
    _ ≤ q := h1

theorem expOf_mono {a b : ℚ} (ha : 0 < a) (hab : a ≤ b) : expOf a ≤ expOf b := by
  obtain ⟨a1, -⟩ := log2Floor_rat a ha
  obtain ⟨-, b2⟩ := log2Floor_rat b (lt_of_lt_of_le ha hab)
  have hk : log2Floor a.num.natAbs a.den ≤ log2Floor b.num.natAbs b.den := by
    by_contra hlt
    have hlt' : log2Floor b.num.natAbs b.den + 1 ≤ log2Floor a.num.natAbs a.den := by omega
    have : (2 : ℚ) ^ (log2Floor b.num.natAbs b.den + 1) ≤
        (2 : ℚ) ^ log2Floor a.num.natAbs a.den := zpow_le_of_le (by norm_num) hlt'
    linarith
  unfold expOf ulpExp
  exact max_le_max (by omega) le_rfl

theorem expOf_le {q : ℚ} (hq : 0 < q) {t : ℤ} (ht : -1074 ≤ t)
    (h : q < (2 : ℚ) ^ (t + 53)) : expOf q ≤ t := by
  obtain ⟨h1, -⟩ := log2Floor_rat q hq
  have hk : log2Floor q.num.natAbs q.den < t + 53 := by
    have : (2 : ℚ) ^ log2Floor q.num.natAbs q.den < (2 : ℚ) ^ (t + 53) := lt_of_le_of_lt h1 h
    exact (zpow_lt_iff_lt (by norm_num)).mp this
  unfold expOf ulpExp
  exact max_le (by omega) ht

theorem magOf_nonneg {q : ℚ} (hq : 0 < q) : 0 ≤ magOf q := by
  unfold magOf
  have h1 : 0 ≤ q / (2 : ℚ) ^ expOf q := le_of_lt (div_pos hq (two_zpow_pos _))
  have h2 : (0 : ℚ) ≤ (roundQ (q / (2 : ℚ) ^ expOf q) : ℚ) := by
    exact_mod_cast roundQ_nonneg h1
  exact mul_nonneg h2 (le_of_lt (two_zpow_pos _))

/-- Rounding to binary64 is monotone on positive rationals (before the
overflow check). -/
theorem magOf_mono {a b : ℚ} (ha : 0 < a) (hab : a ≤ b) : magOf a ≤ magOf b := by
  have hb : 0 < b := lt_of_lt_of_le ha hab
  rcases lt_or_eq_of_le (expOf_mono ha hab) with hlt | heq
  · have h1 : roundQ (a / (2 : ℚ) ^ expOf a) ≤ 2 ^ 53 := by
      have := roundQ_mono (le_of_lt (scaled_lt a ha))
      have h53 : ((2 : ℚ) ^ (53 : ℤ)) = (((2 : ℤ) ^ 53 : ℤ) : ℚ) := by norm_num
      rwa [h53, roundQ_intCast] at this
    have h2 : (2 : ℤ) ^ 52 ≤ roundQ (b / (2 : ℚ) ^ expOf b) := by
      have := roundQ_mono (scaled_ge b hb (lt_of_le_of_lt (expOf_ge a) hlt))
      have h52 : ((2 : ℚ) ^ (52 : ℤ)) = (((2 : ℤ) ^ 52 : ℤ) : ℚ) := by norm_num
      rwa [h52, roundQ_intCast] at this
    have h1q : (roundQ (a / (2 : ℚ) ^ expOf a) : ℚ) ≤ (2 : ℚ) ^ (53 : ℤ) := by
      have : ((roundQ (a / (2 : ℚ) ^ expOf a) : ℤ) : ℚ) ≤ (((2 : ℤ) ^ 53 : ℤ) : ℚ) := by
        exact_mod_cast h1
      calc (roundQ (a / (2 : ℚ) ^ expOf a) : ℚ) ≤ (((2 : ℤ) ^ 53 : ℤ) : ℚ) := this
        _ = (2 : ℚ) ^ (53 : ℤ) := by norm_num
    have h2q : (2 : ℚ) ^ (52 : ℤ) ≤ (roundQ (b / (2 : ℚ) ^ expOf b) : ℚ) := by
      have : (((2 : ℤ) ^ 52 : ℤ) : ℚ) ≤ ((roundQ (b / (2 : ℚ) ^ expOf b) : ℤ) : ℚ) := by
        exact_mod_cast h2
      calc (2 : ℚ) ^ (52 : ℤ) = (((2 : ℤ) ^ 52 : ℤ) : ℚ) := by norm_num
        _ ≤ _ := this
    unfold magOf
    calc (roundQ (a / (2 : ℚ) ^ expOf a) : ℚ) * (2 : ℚ) ^ expOf a
        ≤ (2 : ℚ) ^ (53 : ℤ) * (2 : ℚ) ^ expOf a :=
          mul_le_mul_of_nonneg_right h1q (le_of_lt (two_zpow_pos _))
      _ = (2 : ℚ) ^ (53 + expOf a) := by rw [zpow_add₀ (by norm_num)]
      _ ≤ (2 : ℚ) ^ (52 + expOf b) := zpow_le_of_le (by norm_num) (by omega)
      _ = (2 : ℚ) ^ (52 : ℤ) * (2 : ℚ) ^ expOf b := by rw [zpow_add₀ (by norm_num)]
      _ ≤ (roundQ (b / (2 : ℚ) ^ expOf b) : ℚ) * (2 : ℚ) ^ expOf b :=
          mul_le_mul_of_nonneg_right h2q (le_of_lt (two_zpow_pos _))
  · unfold magOf
    rw [heq]
    have h : a / (2 : ℚ) ^ expOf b ≤ b / (2 : ℚ) ^ expOf b :=
      div_le_div_of_nonneg_right hab (le_of_lt (two_zpow_pos _))
    have h2 : (roundQ (a / (2 : ℚ) ^ expOf b) : ℚ) ≤ (roundQ (b / (2 : ℚ) ^ expOf b) : ℚ) := by
      exact_mod_cast roundQ_mono h
    exact mul_le_mul_of_nonneg_right h2 (le_of_lt (two_zpow_pos _))

/-- A positive rational that is an integer multiple of `2 ^ t`, with `t` at
or above its last place, is its own rounding. -/
theorem magOf_fix {q : ℚ} (t : ℤ) (j : ℤ) (hj : q = (j : ℚ) * (2 : ℚ) ^ t)
    (ht : expOf q ≤ t) : magOf q = q := by
  unfold magOf
  generalize expOf q = e at ht ⊢
  have h1 : (2 : ℚ) ^ t = (2 : ℚ) ^ (t - e).toNat * (2 : ℚ) ^ e := by
    rw [← zpow_natCast, Int.toNat_of_nonneg (by omega), ← zpow_add₀ (by norm_num)]
    congr 1; omega
  have hs : q / (2 : ℚ) ^ e = ((j * 2 ^ (t - e).toNat : ℤ) : ℚ) := by
    rw [div_eq_iff (two_zpow_pos _).ne']
    push_cast
    rw [hj, h1]; ring
  rw [hs, roundQ_intCast, ← hs]
  exact div_mul_cancel₀ _ (two_zpow_pos _).ne'

end Float64
namespace Float64

theorem round_zero : round 0 = fin 0 := by
  unfold round
  simp

/-- A positive rational rounds to its rounded magnitude, or overflows. -/
theorem round_pos_cases (q : ℚ) (hq : 0 < q) :
    (round q = inf false ∧ (2 : ℚ) ^ 1024 ≤ magOf q) ∨
    (round q = fin (magOf q) ∧ magOf q < (2 : ℚ) ^ 1024 ∧ 0 ≤ magOf q) := by
  rw [round_of_pos q hq]
  by_cases h : (2 : ℚ) ^ 1024 ≤ magOf q
  · left; simp [h]
  · right; simp only [h, if_false, true_and]
    exact ⟨lt_of_not_le h, magOf_nonneg hq⟩

theorem round_nonneg_cases (q : ℚ) (hq : 0 ≤ q) :
    round q = inf false ∨ ∃ x : ℚ, 0 ≤ x ∧ round q = fin x := by
  rcases lt_or_eq_of_le hq with h | h
  · rcases round_pos_cases q h with ⟨h1, -⟩ | ⟨h1, -, h3⟩
    · left; exact h1
    · right; exact ⟨_, h3, h1⟩
  · right; exact ⟨0, le_rfl, by rw [← h, round_zero]⟩

theorem round_nonpos_cases (q : ℚ) (hq : q ≤ 0) :
    round q = inf true ∨ ∃ x : ℚ, x ≤ 0 ∧ round q = fin x := by
  rcases lt_or_eq_of_le hq with h | h
  · have hm : (0 : ℚ) ≤ (if 0 ≤ (roundSignificand q.num.natAbs q.den).2 then
        mkRat (((roundSignificand q.num.natAbs q.den).1 *
          2 ^ (roundSignificand q.num.natAbs q.den).2.toNat : ℕ) : ℤ) 1
      else mkRat ((roundSignificand q.num.natAbs q.den).1 : ℤ)
        (2 ^ (-(roundSignificand q.num.natAbs q.den).2).toNat)) := by
      rw [magnitude_eq]
      exact mul_nonneg (by positivity) (le_of_lt (two_zpow_pos _))
    unfold round
    simp only [h.ne, if_false, h, decide_True, if_true]
    generalize (if 0 ≤ (roundSignificand q.num.natAbs q.den).2 then
        mkRat (((roundSignificand q.num.natAbs q.den).1 *
          2 ^ (roundSignificand q.num.natAbs q.den).2.toNat : ℕ) : ℤ) 1
      else mkRat ((roundSignificand q.num.natAbs q.den).1 : ℤ)
        (2 ^ (-(roundSignificand q.num.natAbs q.den).2).toNat)) = μ at hm ⊢
    by_cases hb : (2 : ℚ) ^ 1024 ≤ μ
    · left; simp [hb]
    · right; exact ⟨-μ, neg_nonpos.mpr hm, by simp [hb]⟩
  · right; exact ⟨0, le_rfl, by rw [h, round_zero]⟩

/-- Rounding is monotone on non-negative rationals. -/
theorem round_mono_nonneg {a b : ℚ} (ha : 0 ≤ a) (hab : a ≤ b) :
    ge (round b) (round a) = true := by
  rcases lt_or_eq_of_le ha with hpos | hzero
  · have hb : 0 < b := lt_of_lt_of_le hpos hab
    have hm := magOf_mono hpos hab
    rcases round_pos_cases a hpos with ⟨a1, a2⟩ | ⟨a1, a2, a3⟩ <;>
      rcases round_pos_cases b hb with ⟨b1, b2⟩ | ⟨b1, b2, b3⟩
    · rw [a1, b1]; rfl
    · exfalso; linarith
    · rw [a1, b1]; rfl
    · rw [a1, b1]; simpa [ge] using hm
  · rw [← hzero, round_zero]
    rcases round_nonneg_cases b (le_trans ha hab) with h | ⟨x, hx, h⟩
    · rw [h]; rfl
    · rw [h]; simpa [ge] using hx

/-- Between non-negative rationals with finite roundings, the roundings are
ordered as the rationals. -/
theorem round_le_round {a b x y : ℚ} (ha : 0 ≤ a) (hab : a ≤ b) (hx : round a = fin x)
    (hy : round b = fin y) : x ≤ y := by
  have := round_mono_nonneg ha hab
  rw [hx, hy] at this
  simpa [ge] using this

/-- A rounding below a finite rounding is finite. -/
theorem round_fin_of_le {a b y : ℚ} (ha : 0 ≤ a) (hab : a ≤ b) (hy : round b = fin y) :
    ∃ x, round a = fin x ∧ 0 ≤ x ∧ x ≤ y := by
  rcases round_nonneg_cases a ha with h | ⟨x, hx, h⟩
  · have := round_mono_nonneg ha hab
    rw [h, hy] at this
    simp [ge] at this
  · exact ⟨x, h, hx, round_le_round ha hab h hy⟩

theorem round_fix {q : ℚ} (hq : 0 < q) (t : ℤ) (j : ℤ) (hj : q = (j : ℚ) * (2 : ℚ) ^ t)
    (ht : -1074 ≤ t) (hlt : q < (2 : ℚ) ^ (t + 53)) (hbig : q < (2 : ℚ) ^ 1024) :
    round q = fin q := by
  have hm := magOf_fix t j hj (expOf_le hq ht hlt)
  rw [round_of_pos q hq, hm]
  simp [not_le.mpr hbig]

/-- Natural numbers below `2 ^ 53` are float64 values. -/
theorem round_natCast (n : ℕ) (h : n < 2 ^ 53) : round (n : ℚ) = fin (n : ℚ) := by
  rcases Nat.eq_zero_or_pos n with rfl | hpos
  · simpa using round_zero
  · have hq : (0 : ℚ) < n := by exact_mod_cast hpos
    have hlt : (n : ℚ) < (2 : ℚ) ^ ((0 : ℤ) + 53) := by
      have : ((n : ℕ) : ℚ) < ((2 ^ 53 : ℕ) : ℚ) := by exact_mod_cast h
      calc (n : ℚ) < ((2 ^ 53 : ℕ) : ℚ) := this
        _ = (2 : ℚ) ^ ((0 : ℤ) + 53) := by norm_num
    refine round_fix hq 0 n (by simp) (by norm_num) hlt ?_
    calc (n : ℚ) < (2 : ℚ) ^ ((0 : ℤ) + 53) := hlt
      _ ≤ (2 : ℚ) ^ 1024 := by norm_num

theorem ofInt_natCast (n : ℕ) (h : n < 2 ^ 53) : ofInt (n : ℤ) = fin (n : ℚ) := by
  unfold ofInt
  have : (((n : ℤ) : ℚ)) = (n : ℚ) := by simp
  rw [this, round_natCast n h]

/-- Truncation of a non-negative finite value that fits is its floor. -/
theorem toInt_of_nonneg {x : ℚ} (hx : 0 ≤ x) (hlt : x < (2 : ℚ) ^ 63) :
    toInt (fin x) = ⌊x⌋ := by
  have hfl : ⌊x⌋ = x.num / (x.den : ℤ) := Rat.floor_def' x
  have hnum : 0 ≤ x.num := Rat.num_nonneg.mpr hx
  have htd : Int.tdiv x.num (x.den : ℤ) = x.num / (x.den : ℤ) :=
    Int.tdiv_eq_ediv hnum (by positivity)
  have h0 : 0 ≤ ⌊x⌋ := Int.floor_nonneg.mpr hx
  have h1 : ⌊x⌋ < (2 : ℤ) ^ 63 := by
    have : ((⌊x⌋ : ℤ) : ℚ) < (((2 : ℤ) ^ 63 : ℤ) : ℚ) := by
      calc ((⌊x⌋ : ℤ) : ℚ) ≤ x := Int.floor_le x
        _ < (2 : ℚ) ^ 63 := hlt
        _ = (((2 : ℤ) ^ 63 : ℤ) : ℚ) := by norm_num
    exact_mod_cast this
  unfold toInt
  simp only [htd, ← hfl]
  rw [if_pos]
  constructor
  · have : -(2 : ℤ) ^ 63 ≤ 0 := by norm_num
    omega
  · exact h1

end Float64
/-! ## The progress bar -/

theorem barOf_length (k : ℕ) (hk : k ≤ 20) : (barOf k).length = 20 := by
  have h1 : ∀ (n : ℕ) (s : String), s.data.length = 1 →
      (String.join (List.replicate n s)).data.length = n := by
    intro n s hs
    induction n with
    | zero => simp
    | succ n ih =>
      simp only [String.data_join, List.map_replicate] at ih ⊢
      rw [List.replicate_succ, List.flatten_cons, List.length_append, ih, hs]
      omega
  have hf : barFull.data.length = 1 := by decide
  have he : barEmpty.data.length = 1 := by decide
  unfold barOf
  rw [String.length, String.data_append, List.length_append, h1 k barFull hf,
    h1 (20 - k) barEmpty he]
  omega

theorem ofInt_barWidth : Float64.ofInt barWidth = Float64.fin 20 :=
  Float64.ofInt_natCast 20 (by norm_num)

/-- The bar is determined by the conversion of the scaled value. -/
theorem RenderProgressBar_eq (p : Float64) :
    RenderProgressBar p =
      some (barOf (max 0 (min (Float64.toInt (scaledOf p)) 20)).toNat) := by
  unfold RenderProgressBar scaledOf
  simp only [barWidth]
  generalize Float64.toInt _ = z
  have h0 : ¬ (max 0 (min z 20) < 0) := by omega
  have h1 : ¬ (20 - max 0 (min z 20) < 0) := by omega
  have h2 : (20 - max 0 (min z 20)).toNat = 20 - (max 0 (min z 20)).toNat := by omega
  simp only [Strings.Repeat, h0, h1, if_false, h2, barOf]

theorem toInt_of_fits {x : ℚ} (h : FitsInt x) :
    Float64.toInt (Float64.fin x) = Int.tdiv x.num (x.den : ℤ) := by
  unfold Float64.toInt
  exact if_pos h

theorem toInt_nonpos_of_nonpos (s : Float64)
    (h : s = Float64.inf true ∨ ∃ x : ℚ, x ≤ 0 ∧ s = Float64.fin x) :
    Float64.toInt s ≤ 0 := by
  rcases h with rfl | ⟨x, hx, rfl⟩
  · simp [Float64.toInt]
  · have hnum : x.num ≤ 0 := Rat.num_nonpos.mpr hx
    have ht : Int.tdiv x.num (x.den : ℤ) ≤ 0 := by
      have hd : (0 : ℤ) ≤ (x.den : ℤ) := by positivity
      obtain ⟨m, hm⟩ : ∃ m : ℕ, x.num = -(m : ℤ) := ⟨x.num.natAbs, by omega⟩
      rw [hm, Int.neg_tdiv]
      have : 0 ≤ Int.tdiv (m : ℤ) (x.den : ℤ) := Int.tdiv_nonneg (by positivity) hd
      omega
    unfold Float64.toInt
    simp only
    split_ifs
    · exact ht
    · norm_num

/-- The scaled value of a finite percentage, when finite, is obtained by two
roundings. -/
theorem scaledOf_fin {q x : ℚ} (h : scaledOf (Float64.fin q) = Float64.fin x) :
    ∃ y : ℚ, Float64.round (q / 100) = Float64.fin y ∧ Float64.round (y * 20) = Float64.fin x := by
  unfold scaledOf at h
  rw [ofInt_barWidth] at h
  have hd : Float64.div (Float64.fin q) (Float64.fin 100) = Float64.round (q / 100) := by
    simp [Float64.div]
  rw [hd] at h
  cases hr : Float64.round (q / 100) with
  | nan => rw [hr] at h; simp [Float64.mul] at h
  | inf s => rw [hr] at h; simp [Float64.mul] at h
  | fin y =>
    rw [hr] at h
    exact ⟨y, rfl, by simpa [Float64.mul] using h⟩

/-- The scaled value of a non-positive percentage is non-positive. -/
theorem scaledOf_nonpos {q : ℚ} (hq : q ≤ 0) :
    scaledOf (Float64.fin q) = Float64.inf true ∨
      ∃ x : ℚ, x ≤ 0 ∧ scaledOf (Float64.fin q) = Float64.fin x := by
  unfold scaledOf
  rw [ofInt_barWidth]
  have hd : Float64.div (Float64.fin q) (Float64.fin 100) = Float64.round (q / 100) := by
    simp [Float64.div]
  rw [hd]
  rcases Float64.round_nonpos_cases (q / 100) (by linarith) with h | ⟨y, hy, h⟩
  · left; rw [h]; simp [Float64.mul]
  · rw [h]
    show Float64.round (y * 20) = _ ∨ ∃ x : ℚ, x ≤ 0 ∧ Float64.round (y * 20) = _
    exact Float64.round_nonpos_cases (y * 20) (by linarith)

theorem tdiv_eq_floor {a : ℚ} (ha : 0 ≤ a) : Int.tdiv a.num (a.den : ℤ) = ⌊a⌋ := by
  have hfl : ⌊a⌋ = a.num / (a.den : ℤ) := Rat.floor_def' a
  rw [hfl]
  exact Int.tdiv_eq_ediv (Rat.num_nonneg.mpr ha) (by positivity)

theorem cellsOf_mono {a b : ℚ} (ha : 0 ≤ a) (hab : a ≤ b) : cellsOf a ≤ cellsOf b := by
  have hb : 0 ≤ b := le_trans ha hab
  have h1 : Int.tdiv a.num (a.den : ℤ) = ⌊a⌋ := tdiv_eq_floor ha
  have h2 : Int.tdiv b.num (b.den : ℤ) = ⌊b⌋ := tdiv_eq_floor hb
  have := Int.floor_mono hab
  unfold cellsOf
  rw [h1, h2]
  omega

theorem cellsOf_of_nonpos {a : ℚ} (ha : a ≤ 0) : cellsOf a = 0 := by
  have := toInt_nonpos_of_nonpos (Float64.fin a) (Or.inr ⟨a, ha, rfl⟩)
  have hnum : a.num ≤ 0 := Rat.num_nonpos.mpr ha
  have ht : Int.tdiv a.num (a.den : ℤ) ≤ 0 := by
    obtain ⟨m, hm⟩ : ∃ m : ℕ, a.num = -(m : ℤ) := ⟨a.num.natAbs, by omega⟩
    rw [hm, Int.neg_tdiv]
    have : 0 ≤ Int.tdiv (m : ℤ) (a.den : ℤ) := Int.tdiv_nonneg (by positivity) (by positivity)
    omega
  unfold cellsOf
  omega

theorem cellsOf_of_ge {a : ℚ} (ha : 20 ≤ a) : cellsOf a = 20 := by
  have h1 : Int.tdiv a.num (a.den : ℤ) = ⌊a⌋ := tdiv_eq_floor (by linarith)
  have : (20 : ℤ) ≤ ⌊a⌋ := Int.le_floor.mpr (by exact_mod_cast ha)
  unfold cellsOf
  rw [h1]
  omega
/-- C22 (counterexample): the percentage `1e20` is finite and at least 100,
and its scaled value `2e19` truncated and clamped is 20, but the conversion
`int(2e19)` is outside the range of an `int` and the bar comes out all empty. -/
theorem renderProgressBar_huge_is_empty :
    scaledOf (Float64.fin 100000000000000000000) = Float64.fin 20000000000000000000 ∧
    cellsOf 20000000000000000000 = 20 ∧
    RenderProgressBar (Float64.fin 100000000000000000000) = some (barOf 0) ∧
    barOf 0 ≠ barOf 20 := by
  have h1 : scaledOf (Float64.fin 100000000000000000000) =
      Float64.fin 20000000000000000000 := by decide!
  refine ⟨h1, by decide!, ?_, by decide⟩
  rw [RenderProgressBar_eq, h1]
  decide!

/-- C22 (amended): whenever the scaled value `p / 100 * 20` (in float64
arithmetic) is finite and its truncation fits in an `int`, `RenderProgressBar`
returns exactly 20 cells, `k` full cells followed by `20 - k` empty cells,
where `k` is the scaled value truncated toward zero and clamped to `0..20`.
Every `p <= 0` gives an all-empty bar; every such `p >= 100` gives an all-full
bar; `k` never decreases as such `p` increases; and every `p` from 0 to `1e19`
is such a `p`. -/
theorem renderProgressBar_cells :
    (∀ (p : Float64) (x : ℚ), scaledOf p = Float64.fin x → FitsInt x →
      RenderProgressBar p = some (barOf (cellsOf x)) ∧ cellsOf x ≤ 20 ∧
      (barOf (cellsOf x)).length = 20) ∧
    (∀ q : ℚ, q ≤ 0 → RenderProgressBar (Float64.fin q) = some (barOf 0)) ∧
    (∀ q x : ℚ, 100 ≤ q → scaledOf (Float64.fin q) = Float64.fin x → FitsInt x →
      RenderProgressBar (Float64.fin q) = some (barOf 20)) ∧
    (∀ q₁ q₂ x₁ x₂ : ℚ, q₁ ≤ q₂ →
      scaledOf (Float64.fin q₁) = Float64.fin x₁ → scaledOf (Float64.fin q₂) = Float64.fin x₂ →
      FitsInt x₁ → FitsInt x₂ → cellsOf x₁ ≤ cellsOf x₂) ∧
    (∀ q : ℚ, 0 ≤ q → q ≤ 10000000000000000000 →
      ∃ x : ℚ, scaledOf (Float64.fin q) = Float64.fin x ∧ FitsInt x) := by
  have hcell : ∀ x : ℚ, cellsOf x ≤ 20 := by
    intro x; unfold cellsOf; omega
  have hmain : ∀ (p : Float64) (x : ℚ), scaledOf p = Float64.fin x → FitsInt x →
      RenderProgressBar p = some (barOf (cellsOf x)) := by
    intro p x hs hf
    rw [RenderProgressBar_eq, hs, toInt_of_fits hf]
    rfl
  have hone : Float64.round 1 = Float64.fin 1 := by
    simpa using Float64.round_natCast 1 (by norm_num)
  have htwenty : Float64.round 20 = Float64.fin 20 := by
    simpa using Float64.round_natCast 20 (by norm_num)
  have hfin_nonneg : ∀ q x : ℚ, 0 ≤ q → scaledOf (Float64.fin q) = Float64.fin x →
      ∃ y : ℚ, 0 ≤ y ∧ Float64.round (q / 100) = Float64.fin y ∧
        Float64.round (y * 20) = Float64.fin x ∧ 0 ≤ x := by
    intro q x hq hs
    obtain ⟨y, hy, hx⟩ := scaledOf_fin hs
    have hy0 : 0 ≤ y := by
      have := Float64.round_le_round le_rfl (show (0 : ℚ) ≤ q / 100 by positivity)
        Float64.round_zero hy
      exact this
    have hx0 : 0 ≤ x := by
      have := Float64.round_le_round le_rfl (show (0 : ℚ) ≤ y * 20 by positivity)
        Float64.round_zero hx
      exact this
    exact ⟨y, hy0, hy, hx, hx0⟩
  refine ⟨fun p x hs hf => ⟨hmain p x hs hf, hcell x, barOf_length _ (hcell x)⟩, ?_, ?_, ?_, ?_⟩
  · intro q hq
    rw [RenderProgressBar_eq]
    have := toInt_nonpos_of_nonpos _ (scaledOf_nonpos hq)
    have hz : (max 0 (min (Float64.toInt (scaledOf (Float64.fin q))) 20)).toNat = 0 := by
      omega
    rw [hz]
  · intro q x hq hs hf
    rw [hmain _ x hs hf]
    obtain ⟨y, hy0, hy, hx, -⟩ := hfin_nonneg q x (by linarith) hs
    have h1 : (1 : ℚ) ≤ y :=
      Float64.round_le_round (by norm_num) (by linarith : (1 : ℚ) ≤ q / 100) hone hy
    have h20 : (20 : ℚ) ≤ x :=
      Float64.round_le_round (by norm_num) (by linarith : (20 : ℚ) ≤ y * 20) htwenty hx
    rw [cellsOf_of_ge h20]
  · intro q₁ q₂ x₁ x₂ hle h1 h2 _ _
    rcases le_or_lt q₁ 0 with hneg | hpos
    · rcases scaledOf_nonpos hneg with h | ⟨x, hx, h⟩
      · rw [h] at h1; simp at h1
      · rw [h] at h1
        have : x = x₁ := by simpa using h1
        subst this
        rw [cellsOf_of_nonpos hx]
        exact Nat.zero_le _
    · obtain ⟨y₁, hy₁0, hy₁, hx₁, hx₁0⟩ := hfin_nonneg q₁ x₁ hpos.le h1
      obtain ⟨y₂, hy₂0, hy₂, hx₂, -⟩ := hfin_nonneg q₂ x₂ (by linarith) h2
      have hy : y₁ ≤ y₂ :=
        Float64.round_le_round (by positivity) (by linarith : q₁ / 100 ≤ q₂ / 100) hy₁ hy₂
      have hx : x₁ ≤ x₂ :=
        Float64.round_le_round (by positivity) (by linarith : y₁ * 20 ≤ y₂ * 20) hx₁ hx₂
      exact cellsOf_mono hx₁0 hx
  · intro q hq0 hq
    have hA : Float64.round 100000000000000000 = Float64.fin 100000000000000000 := by decide!
    have hB : Float64.round 2000000000000000000 = Float64.fin 2000000000000000000 := by decide!
    obtain ⟨y, hy, hy0, hyA⟩ := Float64.round_fin_of_le
      (show (0 : ℚ) ≤ q / 100 by positivity)
      (by linarith : q / 100 ≤ 100000000000000000) hA
    obtain ⟨x, hx, hx0, hxB⟩ := Float64.round_fin_of_le
      (show (0 : ℚ) ≤ y * 20 by positivity)
      (by linarith : y * 20 ≤ 2000000000000000000) hB
    refine ⟨x, ?_, ?_⟩
    · unfold scaledOf
      rw [ofInt_barWidth]
      have hd : Float64.div (Float64.fin q) (Float64.fin 100) = Float64.round (q / 100) := by
        simp [Float64.div]
      rw [hd, hy]
      exact hx
    · unfold FitsInt
      rw [tdiv_eq_floor hx0]
      have h0 : 0 ≤ ⌊x⌋ := Int.floor_nonneg.mpr hx0
      have h1 : ⌊x⌋ ≤ 2000000000000000000 := by
        have : ((⌊x⌋ : ℤ) : ℚ) ≤ ((2000000000000000000 : ℤ) : ℚ) := by
          calc ((⌊x⌋ : ℤ) : ℚ) ≤ x := Int.floor_le x
            _ ≤ 2000000000000000000 := hxB
            _ = ((2000000000000000000 : ℤ) : ℚ) := by norm_num
        exact_mod_cast this
      constructor
      · have : -(2 : ℤ) ^ 63 ≤ 0 := by norm_num
        omega
      · have : (2000000000000000000 : ℤ) < (2 : ℤ) ^ 63 := by norm_num
        omega

/-- C22 (witness): the percentage 35 has the scaled value 7 and the bar has 7
full cells. -/
theorem renderProgressBar_cells_witness :
    RenderProgressBar (Float64.fin 35) = some (barOf (cellsOf 7)) ∧ cellsOf 7 ≤ 20 ∧
      (barOf (cellsOf 7)).length = 20 :=
  renderProgressBar_cells.1 (Float64.fin 35) 7 (by decide!) (by decide!)
/-! ## Formatting of durations -/

theorem FormatDuration_eq (d : Duration) (h : ¬ d < 0) :
    FormatDuration d =
      String.intercalate " "
        (durationParts (Int.tdiv (Float64.toInt (Duration.Hours d)) 24)
          (Int.tmod (Float64.toInt (Duration.Hours d)) 24)
          (Int.tmod (Float64.toInt (Duration.Minutes d)) 60)) := by
  unfold FormatDuration durationParts
  simp only [h, if_false]

theorem toString_natCast (n : ℕ) : toString ((n : ℕ) : ℤ) = toString n := rfl

theorem durationParts_natCast (D H m : ℕ) :
    durationParts (D : ℤ) (H : ℤ) (m : ℤ) = componentsOf D H m := by
  have key : ∀ n : ℕ, (n = 0 ∧ ¬ ((n : ℤ) > 0) ∧ ¬ (0 < n)) ∨
      (n ≠ 0 ∧ ((n : ℤ) > 0) ∧ 0 < n) := by
    intro n
    rcases Nat.eq_zero_or_pos n with h | h
    · left; subst h; simp
    · right; exact ⟨by omega, by exact_mod_cast h, h⟩
  unfold durationParts componentsOf
  simp only [toString_natCast]
  rcases key D with ⟨d1, d2, d3⟩ | ⟨d1, d2, d3⟩ <;>
    rcases key H with ⟨h1, h2, h3⟩ | ⟨h1, h2, h3⟩ <;>
    rcases key m with ⟨m1, m2, m3⟩ | ⟨m1, m2, m3⟩ <;>
    (simp [d1, d2, d3, h1, h2, h3, m1, m2, m3]; try decide)

theorem div_fin_fin (a b : ℚ) (hb : b ≠ 0) :
    Float64.div (Float64.fin a) (Float64.fin b) = Float64.round (a / b) := by
  simp [Float64.div, hb]

/-- The float64 value `H + 1 - 2 ^ (-30)` (for `H` up to the hours of the
largest duration) is its own rounding. -/
theorem round_below_next (H : ℕ) (hH : H ≤ 2562047) :
    Float64.round ((H : ℚ) + 1 - 1 / 2 ^ 30) = Float64.fin ((H : ℚ) + 1 - 1 / 2 ^ 30) := by
  have hHq : (H : ℚ) ≤ 2562047 := by exact_mod_cast hH
  have hH0 : (0 : ℚ) ≤ (H : ℚ) := by positivity
  refine Float64.round_fix (by linarith [show (1 : ℚ) / 2 ^ 30 < 1 by norm_num]) (-30)
    (((H : ℤ) + 1) * 2 ^ 30 - 1) ?_ (by norm_num) ?_ ?_
  · push_cast
    rw [zpow_neg]
    norm_num
    ring
  · calc (H : ℚ) + 1 - 1 / 2 ^ 30 < 2562047 + 1 := by
          linarith [show (0 : ℚ) < 1 / 2 ^ 30 by norm_num]
      _ ≤ (2 : ℚ) ^ ((-30 : ℤ) + 53) := by norm_num
  · calc (H : ℚ) + 1 - 1 / 2 ^ 30 < 2562047 + 1 := by
          linarith [show (0 : ℚ) < 1 / 2 ^ 30 by norm_num]
      _ ≤ (2 : ℚ) ^ 1024 := by norm_num

/-- Whole minutes: the hours of the duration converted to an integer are the
minutes divided by 60, and the minutes converted are the minutes. -/
theorem hours_minutes_of_whole (M : ℕ) (hM : M ≤ 153722867) :
    Float64.toInt (Duration.Hours ((M : ℤ) * 60000000000)) = ((M / 60 : ℕ) : ℤ) ∧
    Float64.toInt (Duration.Minutes ((M : ℤ) * 60000000000)) = (M : ℤ) := by
  have hMinute : Minute = (60000000000 : ℤ) := by unfold Minute; norm_num
  have hHour : Hour = (3600000000000 : ℤ) := by unfold Hour; rw [hMinute]; norm_num
  have hd0 : (0 : ℤ) ≤ (M : ℤ) * 60000000000 :=
    Int.mul_nonneg (Int.natCast_nonneg M) (by norm_num)
  constructor
  · -- the hours
    have hq : Int.tdiv ((M : ℤ) * 60000000000) 3600000000000 = ((M / 60 : ℕ) : ℤ) := by
      rw [Int.tdiv_eq_ediv hd0 (by norm_num)]
      omega
    have hr : Int.tmod ((M : ℤ) * 60000000000) 3600000000000 =
        (((M % 60) * 60000000000 : ℕ) : ℤ) := by
      rw [Int.tmod_eq_emod hd0 (by norm_num)]
      push_cast
      omega
    have hH : M / 60 < 2 ^ 53 := by
      have : M / 60 ≤ 2562047 := by omega
      have : (2562047 : ℕ) < 2 ^ 53 := by norm_num
      omega
    have hk : (M % 60) * 60000000000 < 2 ^ 53 := by
      have : M % 60 < 60 := Nat.mod_lt _ (by norm_num)
      have : (60 * 60000000000 : ℕ) < 2 ^ 53 := by norm_num
      omega
    have hfrac : Float64.div (Float64.fin (((M % 60) * 60000000000 : ℕ) : ℚ))
        (Float64.fin 3600000000000) = Float64.round (((M % 60 : ℕ) : ℚ) / 60) := by
      have : ((((M % 60) * 60000000000 : ℕ) : ℚ)) / 3600000000000 = ((M % 60 : ℕ) : ℚ) / 60 := by
        push_cast
        field_simp
        ring
      rw [div_fin_fin _ _ (by norm_num), this]
    have hc : Float64.round (59 / 60) =
        Float64.fin (8857079267161975 / 9007199254740992) := by decide!
    have hk60 : ((M % 60 : ℕ) : ℚ) / 60 ≤ 59 / 60 := by
      have : M % 60 ≤ 59 := by
        have := Nat.mod_lt M (show 0 < 60 by norm_num)
        omega
      have : ((M % 60 : ℕ) : ℚ) ≤ 59 := by exact_mod_cast this
      linarith
    obtain ⟨f, hf, hf0, hfc⟩ := Float64.round_fin_of_le
      (show (0 : ℚ) ≤ ((M % 60 : ℕ) : ℚ) / 60 by positivity) hk60 hc
    have hHq0 : (0 : ℚ) ≤ ((M / 60 : ℕ) : ℚ) := by positivity
    have hHq : ((M / 60 : ℕ) : ℚ) ≤ 2562047 := by
      have : M / 60 ≤ 2562047 := by omega
      exact_mod_cast this
    -- the largest float64 below the next integer that is needed
    have htop : Float64.round (((M / 60 : ℕ) : ℚ) + 1 - 1 / 2 ^ 30) =
        Float64.fin (((M / 60 : ℕ) : ℚ) + 1 - 1 / 2 ^ 30) :=
      round_below_next (M / 60) (by omega)
    have hbot : Float64.round ((M / 60 : ℕ) : ℚ) = Float64.fin ((M / 60 : ℕ) : ℚ) :=
      Float64.round_natCast _ hH
    have hsum_le : ((M / 60 : ℕ) : ℚ) + f ≤ ((M / 60 : ℕ) : ℚ) + 1 - 1 / 2 ^ 30 := by
      have : (8857079267161975 : ℚ) / 9007199254740992 ≤ 1 - 1 / 2 ^ 30 := by norm_num
      linarith
    obtain ⟨z, hz, hz0, hztop⟩ := Float64.round_fin_of_le
      (show (0 : ℚ) ≤ ((M / 60 : ℕ) : ℚ) + f by positivity) hsum_le htop
    have hzbot : ((M / 60 : ℕ) : ℚ) ≤ z :=
      Float64.round_le_round hHq0 (by linarith) hbot hz
    have hHours : Duration.Hours ((M : ℤ) * 60000000000) = Float64.fin z := by
      unfold Duration.Hours
      rw [hHour, hq, hr, Float64.ofInt_natCast _ hH, Float64.ofInt_natCast _ hk, hfrac, hf]
      exact hz
    rw [hHours, Float64.toInt_of_nonneg hz0 (by
      calc z ≤ ((M / 60 : ℕ) : ℚ) + 1 - 1 / 2 ^ 30 := hztop
        _ < 2562047 + 1 := by linarith [show (0 : ℚ) < 1 / 2 ^ 30 by norm_num]
        _ ≤ (2 : ℚ) ^ 63 := by norm_num)]
    rw [Int.floor_eq_iff]
    constructor
    · exact_mod_cast hzbot
    · have : z < ((M / 60 : ℕ) : ℚ) + 1 := by
        linarith [show (0 : ℚ) < 1 / 2 ^ 30 by norm_num]
      exact_mod_cast this
  · -- the minutes
    have hq : Int.tdiv ((M : ℤ) * 60000000000) 60000000000 = (M : ℤ) := by
      rw [Int.tdiv_eq_ediv hd0 (by norm_num)]
      omega
    have hr : Int.tmod ((M : ℤ) * 60000000000) 60000000000 = ((0 : ℕ) : ℤ) := by
      rw [Int.tmod_eq_emod hd0 (by norm_num)]
      push_cast
      omega
    have hMlt : M < 2 ^ 53 := by
      have : (153722867 : ℕ) < 2 ^ 53 := by norm_num
      omega
    have hMin : Duration.Minutes ((M : ℤ) * 60000000000) = Float64.fin (M : ℚ) := by
      unfold Duration.Minutes
      rw [hMinute, hq, hr, Float64.ofInt_natCast _ hMlt, Float64.ofInt_natCast 0 (by norm_num)]
      have h0 : Float64.div (Float64.fin ((0 : ℕ) : ℚ)) (Float64.fin 60000000000) =
          Float64.fin 0 := by
        simp [Float64.div, Float64.round_zero]
      rw [h0]
      show Float64.round ((M : ℚ) + 0) = _
      rw [add_zero, Float64.round_natCast _ hMlt]
    rw [hMin, Float64.toInt_of_nonneg (by positivity) (by
      have : ((M : ℕ) : ℚ) ≤ 153722867 := by exact_mod_cast hM
      calc ((M : ℕ) : ℚ) ≤ 153722867 := this
        _ < (2 : ℚ) ^ 63 := by norm_num)]
    simp

theorem digitChar_ne_e (k : ℕ) (hk : k < 10) : Nat.digitChar k ≠ 'e' := by
  interval_cases k <;> decide

theorem toDigitsCore_startsNotE (fuel : ℕ) :
    ∀ (n : ℕ) (ds : List Char), StartsNotE (Nat.toDigitsCore 10 (fuel + 1) n ds) := by
  induction fuel with
  | zero =>
    intro n ds
    have hd := digitChar_ne_e (n % 10) (Nat.mod_lt _ (by norm_num))
    unfold Nat.toDigitsCore
    by_cases h : n / 10 = 0
    · simp only [h, if_true]; exact ⟨_, _, rfl, hd⟩
    · simp only [h, if_false]
      unfold Nat.toDigitsCore
      exact ⟨_, _, rfl, hd⟩
  | succ fuel ih =>
    intro n ds
    have hd := digitChar_ne_e (n % 10) (Nat.mod_lt _ (by norm_num))
    rw [Nat.toDigitsCore]
    by_cases h : n / 10 = 0
    · simp only [h, if_true]; exact ⟨_, _, rfl, hd⟩
    · simp only [h, if_false]
      exact ih _ _

theorem toString_nat_startsNotE (n : ℕ) : StartsNotE (toString n).data :=
  toDigitsCore_startsNotE n n []

theorem toString_int_startsNotE (z : ℤ) : StartsNotE (toString z).data := by
  cases z with
  | ofNat n => exact toString_nat_startsNotE n
  | negSucc n =>
    show StartsNotE ("-" ++ toString (Nat.succ n)).data
    rw [String.data_append]
    exact ⟨'-', _, rfl, by decide⟩

theorem startsNotE_append {l : List Char} (h : StartsNotE l) (r : List Char) :
    StartsNotE (l ++ r) := by
  obtain ⟨c, rest, rfl, hc⟩ := h
  exact ⟨c, rest ++ r, rfl, hc⟩

theorem intercalate_go_data (s : String) (l : List String) :
    ∀ acc : String, ∃ rest, (String.intercalate.go acc s l).data = acc.data ++ rest := by
  induction l with
  | nil => intro acc; exact ⟨[], by simp [String.intercalate.go]⟩
  | cons a l ih =>
    intro acc
    obtain ⟨rest, hrest⟩ := ih (acc ++ s ++ a)
    refine ⟨s.data ++ a.data ++ rest, ?_⟩
    rw [String.intercalate.go, hrest]
    simp [String.data_append, List.append_assoc]

theorem durationParts_head (days hours minutes : ℤ) :
    ∃ (z : ℤ) (unit : String) (rest : List String),
      durationParts days hours minutes = (toString z ++ unit) :: rest := by
  unfold durationParts
  by_cases hd : days > 0 <;> by_cases hh : hours > 0 <;> by_cases hm : minutes > 0 <;>
    simp only [hd, hh, hm, if_true, if_false, List.nil_append, List.length_nil,
      List.length_cons, List.cons_append, true_or, or_true, or_false, false_or,
      List.length_append, Nat.add_eq_zero, and_false, and_self, one_ne_zero,
      Nat.succ_ne_zero, reduceCtorEq] <;>
    exact ⟨_, _, _, rfl⟩

/-- For a duration that is not negative the result starts with a digit or a
minus sign: it is neither empty nor "expired". -/
theorem FormatDuration_startsNotE (d : Duration) (h : ¬ d < 0) :
    StartsNotE (FormatDuration d).data := by
  rw [FormatDuration_eq d h]
  obtain ⟨z, unit, rest, hp⟩ := durationParts_head
    (Int.tdiv (Float64.toInt (Duration.Hours d)) 24)
    (Int.tmod (Float64.toInt (Duration.Hours d)) 24)
    (Int.tmod (Float64.toInt (Duration.Minutes d)) 60)
  rw [hp, String.intercalate]
  obtain ⟨r, hr⟩ := intercalate_go_data " " rest (toString z ++ unit)
  rw [hr, String.data_append, List.append_assoc]
  exact startsNotE_append (toString_int_startsNotE z) _
/-- C23: for every non-negative duration that is a whole number `M` of
minutes, `FormatDuration` returns a non-empty string listing, in the order
days, hours, minutes and separated by single spaces, the non-zero components
"<D>d", "<H>h", "<m>m", with `H < 24`, `m < 60` and
`D * 1440 + H * 60 + m = M`; it returns "0m" when `M = 0`; and it returns
"expired" only for a negative duration. -/
theorem formatDuration_whole_minutes (M : ℕ) (hM : (M : ℤ) * Minute ≤ maxDuration) :
    (∃ D H m : ℕ, H < 24 ∧ m < 60 ∧ D * 1440 + H * 60 + m = M ∧
      FormatDuration ((M : ℤ) * Minute) = String.intercalate " " (componentsOf D H m)) ∧
    FormatDuration ((M : ℤ) * Minute) ≠ "" ∧
    (M = 0 → FormatDuration ((M : ℤ) * Minute) = "0m") ∧
    (∀ d : Duration, FormatDuration d = "expired" → d < 0) := by
  have hMinute : Minute = (60000000000 : ℤ) := by unfold Minute; norm_num
  have hMle : M ≤ 153722867 := by
    rw [hMinute, maxDuration_eq] at hM
    have h : (M : ℤ) * 60000000000 ≤ 9223372036854775807 := hM
    omega
  have hd0 : ¬ ((M : ℤ) * 60000000000 < 0) := by
    have : (0 : ℤ) ≤ (M : ℤ) * 60000000000 :=
      Int.mul_nonneg (Int.natCast_nonneg M) (by norm_num)
    omega
  obtain ⟨hH, hMin⟩ := hours_minutes_of_whole M hMle
  have hdays : Int.tdiv ((M / 60 : ℕ) : ℤ) 24 = ((M / 60 / 24 : ℕ) : ℤ) := by
    rw [Int.tdiv_eq_ediv (Int.natCast_nonneg _) (by norm_num)]
    omega
  have hhours : Int.tmod ((M / 60 : ℕ) : ℤ) 24 = ((M / 60 % 24 : ℕ) : ℤ) := by
    rw [Int.tmod_eq_emod (Int.natCast_nonneg _) (by norm_num)]
    omega
  have hmins : Int.tmod (M : ℤ) 60 = ((M % 60 : ℕ) : ℤ) := by
    rw [Int.tmod_eq_emod (Int.natCast_nonneg _) (by norm_num)]
    omega
  have hfmt : FormatDuration ((M : ℤ) * Minute) =
      String.intercalate " " (componentsOf (M / 60 / 24) (M / 60 % 24) (M % 60)) := by
    rw [hMinute, FormatDuration_eq _ hd0, hH, hMin, hdays, hhours, hmins,
      durationParts_natCast]
  have hnotE : ∀ d : Duration, ¬ d < 0 → FormatDuration d ≠ "expired" ∧ FormatDuration d ≠ "" := by
    intro d hd
    obtain ⟨c, rest, hc, hne⟩ := FormatDuration_startsNotE d hd
    constructor
    · intro h
      rw [h] at hc
      have : 'e' = c := by
        have := congrArg List.head? hc
        simpa using this
      exact hne this.symm
    · intro h
      rw [h] at hc
      simp at hc
  refine ⟨⟨M / 60 / 24, M / 60 % 24, M % 60, Nat.mod_lt _ (by norm_num),
    Nat.mod_lt _ (by norm_num), by omega, hfmt⟩, ?_, ?_, ?_⟩
  · rw [hMinute]
    exact (hnotE _ hd0).2
  · rintro rfl
    rw [hfmt]
    decide
  · intro d hd
    by_contra hneg
    exact (hnotE d hneg).1 hd

/-- C23 (witness): ninety minutes are formatted as "1h 30m". -/
theorem formatDuration_whole_minutes_witness :
    ∃ D H m : ℕ, H < 24 ∧ m < 60 ∧ D * 1440 + H * 60 + m = 90 ∧
      FormatDuration (((90 : ℕ) : ℤ) * Minute) = String.intercalate " " (componentsOf D H m) :=
  (formatDuration_whole_minutes 90 (by decide)).1

/-- C24: for every percentage the legacy `renderProgressBar` (clamping with
two `if` statements) returns the same string as `RenderProgressBar` (clamping
with `max` and `min`), and for every duration the legacy `formatDuration`
returns the same string as `FormatDuration`. -/
theorem legacy_renderers_agree :
    (∀ p : Float64, Legacy.renderProgressBar p = RenderProgressBar p) ∧
    (∀ d : Duration, Legacy.formatDuration d = FormatDuration d) := by
  refine ⟨?_, fun d => rfl⟩
  intro p
  unfold Legacy.renderProgressBar RenderProgressBar
  simp only [barWidth, barFull, barEmpty]
  generalize Float64.toInt _ = z
  have hclamp : (if (if z > 20 then 20 else z) < 0 then 0 else if z > 20 then 20 else z) =
      max 0 (min z 20) := by
    split_ifs <;> omega
  rw [hclamp]
/-! ## The legacy waybar output -/

namespace Legacy

theorem ge_zero_refl : Float64.ge (Float64.fin 0) (Float64.fin 0) = true := by
  simp [Float64.ge]

/-- The running maximum of the legacy `outputWaybar` is the greatest of 0 and
the 5-hour and 7-day utilizations. -/
theorem maxUtilOf_spec (usage : Claude.UsageResponse) :
    (maxUtilOf usage).isNaN = false ∧
    (maxUtilOf usage = Float64.fin 0 ∨ maxUtilOf usage ∈ primaryUtilizations usage) ∧
    Float64.ge (maxUtilOf usage) (Float64.fin 0) = true ∧
    ∀ u ∈ primaryUtilizations usage, Float64.gt u (maxUtilOf usage) = false := by
  obtain ⟨a, b, c, d, e, f, x⟩ := usage
  cases a with
  | none =>
    cases b with
    | none => simp [maxUtilOf, primaryUtilizations, Float64.isNaN, ge_zero_refl]
    | some b =>
      by_cases hb : Float64.gt b.Utilization (Float64.fin 0) = true
      · simp [maxUtilOf, primaryUtilizations, hb, Float64.isNaN_of_gt hb,
          Float64.ge_of_gt hb, Float64.gt_irrefl]
      · have hb' : Float64.gt b.Utilization (Float64.fin 0) = false := by simpa using hb
        simp [maxUtilOf, primaryUtilizations, hb', Float64.isNaN, ge_zero_refl]
  | some a =>
    by_cases ha : Float64.gt a.Utilization (Float64.fin 0) = true
    · have hna := Float64.isNaN_of_gt ha
      have hga := Float64.ge_of_gt ha
      cases b with
      | none =>
        simp [maxUtilOf, primaryUtilizations, ha, hna, hga, Float64.gt_irrefl]
      | some b =>
        by_cases hb : Float64.gt b.Utilization a.Utilization = true
        · have hgb := Float64.ge_of_gt hb
          simp [maxUtilOf, primaryUtilizations, ha, hb, Float64.isNaN_of_gt hb,
            Float64.ge_trans hgb hga, Float64.gt_irrefl,
            Float64.gt_false_of_ge hgb (Float64.gt_irrefl a.Utilization)]
        · have hb' : Float64.gt b.Utilization a.Utilization = false := by simpa using hb
          simp [maxUtilOf, primaryUtilizations, ha, hb', hna, hga, Float64.gt_irrefl]
    · have ha' : Float64.gt a.Utilization (Float64.fin 0) = false := by simpa using ha
      cases b with
      | none =>
        simp [maxUtilOf, primaryUtilizations, ha', Float64.isNaN, ge_zero_refl]
      | some b =>
        by_cases hb : Float64.gt b.Utilization (Float64.fin 0) = true
        · have hgb := Float64.ge_of_gt hb
          simp [maxUtilOf, primaryUtilizations, ha', hb, Float64.isNaN_of_gt hb, hgb,
            Float64.gt_irrefl, Float64.gt_false_of_ge hgb ha']
        · have hb' : Float64.gt b.Utilization (Float64.fin 0) = false := by simpa using hb
          simp [maxUtilOf, primaryUtilizations, ha', hb', Float64.isNaN, ge_zero_refl]

/-- C21 (counterexample): with a 5-hour window at 10% and a 7-day Sonnet
window at 95%, both reported in the tooltip, the percentage is 10 and the class
"normal", not those of the highest reported utilization 95; and with a single
5-hour window at -5% the percentage is 0, not -5. -/
theorem outputWaybar_not_highest_reported :
    reportedUtilizations (payloadOf (some (Float64.fin 10)) (some (Float64.fin 95))) =
      [Float64.fin 10, Float64.fin 95] ∧
    (outputWaybar plainVerbs 0
      (payloadOf (some (Float64.fin 10)) (some (Float64.fin 95)))).Percentage = 10 ∧
    (outputWaybar plainVerbs 0
      (payloadOf (some (Float64.fin 10)) (some (Float64.fin 95)))).Class = "normal" ∧
    Float64.toInt (Float64.fin 95) = 95 ∧ classOf (Float64.fin 95) = "critical" ∧
    reportedUtilizations (payloadOf (some (Float64.fin (-5))) none) = [Float64.fin (-5)] ∧
    (outputWaybar plainVerbs 0 (payloadOf (some (Float64.fin (-5))) none)).Percentage = 0 ∧
    Float64.toInt (Float64.fin (-5)) = -5 := by
  refine ⟨by decide!, by decide!, by decide!, by decide!, by decide!, by decide!, by decide!,
    by decide!⟩

/-- C21 (amended): for every usage response in which no 7-day Sonnet or 7-day
Opus utilization exceeds the greatest of 0 and the 5-hour and 7-day
utilizations, the legacy waybar output uses, for its percentage (converted to
an integer by truncation) and for its class, the greatest of 0 and the
utilizations of the reported windows: a value that is 0 or one of them, is at
least 0, and is exceeded by none of them. -/
theorem outputWaybar_uses_greatest (v : Verbs) (now : Time) (usage : Claude.UsageResponse)
    (h : ∀ u ∈ secondaryUtilizations usage,
      ∃ p ∈ Float64.fin 0 :: primaryUtilizations usage, Float64.ge p u = true) :
    ∃ m : Float64,
      (outputWaybar v now usage).Percentage = Float64.toInt m ∧
      (outputWaybar v now usage).Class =
        (if Float64.ge m (Float64.fin 90) = true then "critical"
         else if Float64.ge m (Float64.fin 75) = true then "warning" else "normal") ∧
      (m = Float64.fin 0 ∨ m ∈ reportedUtilizations usage) ∧
      Float64.ge m (Float64.fin 0) = true ∧
      ∀ u ∈ reportedUtilizations usage, Float64.gt u m = false := by
  obtain ⟨h1, h2, h3, h4⟩ := maxUtilOf_spec usage
  have hrep : reportedUtilizations usage =
      primaryUtilizations usage ++ secondaryUtilizations usage := by
    unfold reportedUtilizations primaryUtilizations secondaryUtilizations
    rw [← List.filterMap_append]
    rfl
  refine ⟨maxUtilOf usage, rfl, rfl, ?_, h3, ?_⟩
  · rcases h2 with h2 | h2
    · left; exact h2
    · right; rw [hrep]; exact List.mem_append_left _ h2
  · intro u hu
    rw [hrep] at hu
    rcases List.mem_append.mp hu with hu | hu
    · exact h4 u hu
    · obtain ⟨p, hp, hpu⟩ := h u hu
      have hmp : Float64.ge (maxUtilOf usage) p = true := by
        rcases List.mem_cons.mp hp with rfl | hp
        · exact h3
        · exact Float64.ge_of_gt_false h1 (Float64.isNaN_of_ge hpu) (h4 p hp)
      have hmu := Float64.ge_trans hmp hpu
      cases hgt : Float64.gt u (maxUtilOf usage) with
      | false => rfl
      | true => rw [Float64.ge_false_of_gt hgt] at hmu; exact absurd hmu (by simp)

/-- C21 (witness): a 5-hour window at 80% and a 7-day Sonnet window at 40%. -/
theorem outputWaybar_uses_greatest_witness :
    ∃ m : Float64,
      (outputWaybar plainVerbs 0
        (payloadOf (some (Float64.fin 80)) (some (Float64.fin 40)))).Percentage =
          Float64.toInt m ∧
      (outputWaybar plainVerbs 0
        (payloadOf (some (Float64.fin 80)) (some (Float64.fin 40)))).Class =
        (if Float64.ge m (Float64.fin 90) = true then "critical"
         else if Float64.ge m (Float64.fin 75) = true then "warning" else "normal") ∧
      (m = Float64.fin 0 ∨
        m ∈ reportedUtilizations (payloadOf (some (Float64.fin 80)) (some (Float64.fin 40)))) ∧
      Float64.ge m (Float64.fin 0) = true ∧
      ∀ u ∈ reportedUtilizations (payloadOf (some (Float64.fin 80)) (some (Float64.fin 40))),
        Float64.gt u m = false :=
  outputWaybar_uses_greatest plainVerbs 0
    (payloadOf (some (Float64.fin 80)) (some (Float64.fin 40))) (by decide!)

end Legacy

end LlmUsage
